import Mathlib

/-!
# c10::CachingAllocator::AllocatorConfig

A shallow embedding of `c10/core/AllocatorConfig.cpp`: the tokenizer `lexArgs`,
the per-option handlers, the dispatcher `parseArgs` and the bucket lookup
`roundup_power2_divisions`, followed by theorems about them.

Conventions of the embedding
* `std::string` is `String`, `std::vector<std::string>` is `List String`,
  `std::vector<size_t>` is `List Nat`, `size_t` is `Nat` reduced modulo `2^64`
  wherever the C++ arithmetic could wrap. The tokenizer and the conversions only
  look at ASCII characters, so reading the text by code points or by bytes gives the
  same tokens.
* A handler that throws (a failed `TORCH_CHECK`, or an exception of the numeric
  conversions `stoi`/`stoul`/`stod`) ends in `Step.fail` and carries the settings as
  they were when it threw: the fields written earlier stay written.
* The read `config[i + 1]` of line 215 has no bounds check; when it falls past the
  last token the outcome is `Err.readPastEnd`, which is not an exception.
* The two loops are recursions on a counter that starts at the number of tokens
  (plus one for the dispatcher); `parseArgs_fuel` shows that it never runs out.
* `kLargeBuffer` (declared in the header) and `std::stod` are not part of the
  translation unit: they are the two fields of `Ext`, a parameter of the handlers.
  A `double` is held as its IEEE-754 binary64 bit pattern.
* The "backend: async ignores ..." warning is counted, not printed; the singleton
  accessor `instance()` and its reading of the environment are outside the embedding.
-/

namespace AllocatorConfig

/-! ## Constants -/

def kRoundUpPowerOfTwoIntervals : Nat := 16
def kMB : Nat := 1024 * 1024
def kRoundUpPowerOfTwoStart : Nat := 1 * kMB
def kRoundUpPowerOfTwoEnd : Nat := 64 * 1024 * kMB
def kPinnedMaxRegisterThreads : Nat := 128

/-- The value `std::numeric_limits<size_t>::max()`. -/
def SIZE_MAX : Nat := 2 ^ 64 - 1

/-- Conversion of a signed `int` to `size_t` (reduction modulo `2^64`). -/
def toSizeT (v : Int) : Nat := (v % 2 ^ 64).toNat

/-! ## Errors -/

/-- Every way in which a parse can stop before the end of the token sequence. -/
inductive Err where
  /-- `consumeToken`: "expected c". -/
  | expected (c : Char)
  /-- `std::invalid_argument` of `stoi` or `stoul`: no conversion. -/
  | invalidArgument
  /-- `std::out_of_range` of `stoi` or `stoul`. -/
  | outOfRange
  /-- `std::invalid_argument` or `std::out_of_range` of `stod`. -/
  | stodFailed
  | maxSplitSizeTooSmall
  | expectingMaxSplitSize
  | maxNonSplitRoundingTooSmall
  | expectingMaxNonSplitRounding
  | gcThresholdInvalid
  | expectingGcThreshold
  /-- "Error parsing roundup_power2_divisions value" (inside the list). -/
  | roundupListValueMissing
  /-- "the divisons has to be power of 2 or 0 to disable roundup". -/
  | divisionsNotPowerOf2OrZero
  /-- "the intervals have to be power of 2". -/
  | intervalsNotPowerOf2
  /-- "the divisons has to be power of 2" (scalar form). -/
  | divisionsNotPowerOf2
  | expectingRoundup
  | unknownBackend
  /-- "parsed at runtime != parsed at load time", with both values. -/
  | backendMismatch (runtime loaded : Bool)
  | expectingBackend
  | expandableSegmentsNotBool
  | expectingExpandableSegments
  | releaseLockNotBool
  | expectingReleaseLock
  | pinnedHostRegisterNotBool
  | expectingPinnedHostRegister
  | registerThreadsNotPowerOf2
  | registerThreadsTooMany
  | expectingRegisterThreads
  | backgroundThreadsNotBool
  | expectingBackgroundThreads
  | unrecognizedOption (key : String)
  /-- "kRoundUpPowerOfTwoIntervals mismatch" of the lookup. -/
  | intervalsMismatch
  /-- Not an exception: `config[i]` was read with `i ≥ config.size()`, which the
  language leaves undefined. -/
  | readPastEnd (i : Nat)
  /-- Not an outcome of the program: the loop counter of the embedding ran out. -/
  | outOfFuel
  deriving DecidableEq, Repr

deriving instance DecidableEq for Except

/-- Whether the error is an exception thrown by the code. -/
def Err.isException : Err → Bool
  | .readPastEnd _ => false
  | .outOfFuel => false
  | _ => true

/-! ## Externals -/

/-- What the translation unit takes from elsewhere. -/
structure Ext where
  /-- The constant `kLargeBuffer` of the header, in bytes. -/
  kLargeBuffer : Nat
  /-- The conversion `std::stod`: the bit pattern of the double, or `none` when it
  throws. -/
  stod : String → Option Nat

/-- The test `val > 0 && val < 1.0` on the bit pattern of a double: positive doubles
are ordered as their bit patterns, `1.0` is `0x3FF0000000000000`, and negative numbers,
infinities and NaN are outside. -/
def gcInRange (bits : Nat) : Bool := 0 < bits && bits < 0x3FF0000000000000

/-! ## Settings -/

/-- The data members of `AllocatorConfig`. -/
structure Settings where
  max_split_size : Nat
  max_non_split_rounding_size : Nat
  garbage_collection_threshold : Nat
  roundup_power2_divisions : List Nat
  use_async_allocator : Bool
  use_expandable_segments : Bool
  use_release_lock_on_device_malloc : Bool
  pinned_use_device_host_register : Bool
  pinned_num_register_threads : Nat
  pinned_use_background_threads : Bool
  is_allocator_loaded : Bool
  last_allocator_settings : String
  deriving DecidableEq, Repr

/-! ## Tokenizer -/

def isDelim (ch : Char) : Bool := ch == ',' || ch == ':' || ch == '[' || ch == ']'

/-- One iteration of the loop of `lexArgs` on the pair `(config, buf)`. -/
def lexStep (st : List String × List Char) (ch : Char) : List String × List Char :=
  if isDelim ch then
    ((if st.2.isEmpty then st.1 else st.1 ++ [String.mk st.2]) ++ [String.singleton ch], [])
  else if ch != ' ' then (st.1, st.2 ++ [ch])
  else st

/-- The final flush of `lexArgs`. -/
def lexFlush (st : List String × List Char) : List String :=
  if st.2.isEmpty then st.1 else st.1 ++ [String.mk st.2]

/-- `AllocatorConfig::lexArgs`: appends the tokens of `env` to `config`. -/
def lexArgs (env : String) (config : List String) : List String :=
  lexFlush (env.data.foldl lexStep (config, []))

/-- `AllocatorConfig::consumeToken`. -/
def consumeToken (config : List String) (i : Nat) (c : Char) : Except Err Unit :=
  match config[i]? with
  | some t => if t = String.singleton c then .ok () else .error (.expected c)
  | none => .error (.expected c)

/-! ## Numeric conversions of the C++ library -/

/-- The characters `isspace` accepts in the C locale. -/
def isSpace (c : Char) : Bool :=
  c == ' ' || c == '\t' || c == '\n' || c.toNat == 11 || c.toNat == 12 || c == '\r'

/-- The value of a run of decimal digits, most significant first. -/
def digitsValue (ds : List Char) : Nat :=
  ds.foldl (fun a c => a * 10 + (c.toNat - 48)) 0

/-- The optional sign in front of the digits: `true` for `-`. -/
def stripSign : List Char → Bool × List Char
  | '-' :: r => (true, r)
  | '+' :: r => (false, r)
  | cs => (false, cs)

/-- What `strtol` and `strtoul` read in base 10: leading white space is skipped, one sign
is optional, then the longest run of digits is taken and whatever follows is ignored.
The result is the sign (`true` for `-`) and the magnitude; `none` when there is no
digit to convert. -/
def scanInt (cs : List Char) : Option (Bool × Nat) :=
  let signed := stripSign (cs.dropWhile isSpace)
  let ds := signed.2.takeWhile Char.isDigit
  if ds.isEmpty then none else some (signed.1, digitsValue ds)

/-- `std::stoi`: the value must fit a 32-bit `int`. -/
def stoi (s : String) : Except Err Int :=
  match scanInt s.data with
  | none => .error .invalidArgument
  | some (neg, mag) =>
    let v : Int := if neg then -(mag : Int) else (mag : Int)
    if -(2 : Int) ^ 31 ≤ v ∧ v ≤ 2 ^ 31 - 1 then .ok v else .error .outOfRange

/-- `std::stoul` (64-bit `unsigned long`): the magnitude must fit, and a leading `-`
negates it modulo `2^64`. -/
def stoul (s : String) : Except Err Nat :=
  match scanInt s.data with
  | none => .error .invalidArgument
  | some (neg, mag) =>
    if mag ≤ SIZE_MAX then .ok (if neg then (2 ^ 64 - mag) % 2 ^ 64 else mag)
    else .error .outOfRange

/-- `llvm::isPowerOf2_64`. -/
def isPowerOf2_64 (v : Nat) : Bool := v != 0 && (v &&& (v - 1)) == 0

/-- The number of zero bits of a 64-bit value above its highest set bit below
position `k`; 64 when no bit below `k` is set. -/
def clzFrom (v : Nat) : Nat → Nat
  | 0 => 64
  | k + 1 => if v.testBit k then 63 - k else clzFrom v k

/-- `llvm::countLeadingZeros` on a 64-bit value (64 for zero). -/
def countLeadingZeros (v : Nat) : Nat := clzFrom v 64

/-- The expression `63 - llvm::countLeadingZeros(v)` in `size_t` arithmetic. -/
def log2Floor (v : Nat) : Nat := (63 + 2 ^ 64 - countLeadingZeros v) % 2 ^ 64

/-- `std::fill(begin + lo, begin + hi, v)` on a vector. -/
def fill (t : List Nat) (lo hi v : Nat) : List Nat :=
  (List.range t.length).map (fun j => if lo ≤ j ∧ j < hi then v else t.getD j 0)

/-- The outcome of a handler: the index of the last token it consumed and the settings,
or the error with the settings as they were when it was raised. -/
inductive Step where
  | ok (i : Nat) (s : Settings)
  | fail (e : Err) (s : Settings)
  deriving DecidableEq, Repr

/-! ## Option handlers -/

/-- `AllocatorConfig::parseMaxSplitSize`. -/
def parseMaxSplitSize (ext : Ext) (config : List String) (i : Nat) (s : Settings) : Step :=
  let i := i + 1
  match consumeToken config i ':' with
  | .error e => .fail e s
  | .ok _ =>
    let min_allowed_split_size_mb := ext.kLargeBuffer / kMB
    let max_allowed_split_size_mb := SIZE_MAX / kMB
    let i := i + 1
    match config[i]? with
    | some tok =>
      match stoi tok with
      | .error e => .fail e s
      | .ok v =>
        let val_env := toSizeT v
        if val_env ≥ min_allowed_split_size_mb then
          let val_env := min val_env max_allowed_split_size_mb
          .ok i { s with max_split_size := (val_env * kMB) % 2 ^ 64 }
        else .fail .maxSplitSizeTooSmall s
    | none => .fail .expectingMaxSplitSize s

/-- `AllocatorConfig::parseMaxNonSplitRoundingSize`. -/
def parseMaxNonSplitRoundingSize (ext : Ext) (config : List String) (i : Nat)
    (s : Settings) : Step :=
  let i := i + 1
  match consumeToken config i ':' with
  | .error e => .fail e s
  | .ok _ =>
    let min_allowed_split_size_mb := ext.kLargeBuffer / kMB
    let max_allowed_split_size_mb := SIZE_MAX / kMB
    let i := i + 1
    match config[i]? with
    | some tok =>
      match stoi tok with
      | .error e => .fail e s
      | .ok v =>
        let val_env := toSizeT v
        if val_env ≥ min_allowed_split_size_mb then
          let val_env := min val_env max_allowed_split_size_mb
          .ok i { s with max_non_split_rounding_size := (val_env * kMB) % 2 ^ 64 }
        else .fail .maxNonSplitRoundingTooSmall s
    | none => .fail .expectingMaxNonSplitRounding s

/-- `AllocatorConfig::parseGarbageCollectionThreshold`. -/
def parseGarbageCollectionThreshold (ext : Ext) (config : List String) (i : Nat)
    (s : Settings) : Step :=
  let i := i + 1
  match consumeToken config i ':' with
  | .error e => .fail e s
  | .ok _ =>
    let i := i + 1
    match config[i]? with
    | some tok =>
      match ext.stod tok with
      | none => .fail .stodFailed s
      | some val_env =>
        if gcInRange val_env then .ok i { s with garbage_collection_threshold := val_env }
        else .fail .gcThresholdInvalid s
    | none => .fail .expectingGcThreshold s

/-- `std::clamp(v, lo, hi)`. -/
def clamp (v lo hi : Nat) : Nat := if v < lo then lo else if hi < v then hi else v

/-- The locals `first_value`, `last_index` of `parseRoundUpPower2Divisions` and the
table they steer. -/
structure ListState where
  first_value : Bool
  last_index : Nat
  table : List Nat
  deriving DecidableEq, Repr

/-- The bucket index computed for an interval key (lines 198-200); `size` is
`roundup_power2_divisions_.size()`. -/
def bucketIndex (val1_long size : Nat) : Nat :=
  clamp (log2Floor val1_long) 0 ((size + 2 ^ 64 - 1) % 2 ^ 64)

/-- Lines 184-213 of `parseRoundUpPower2Divisions`: the effect of one list element
`val1 : val2` on the table. -/
def roundupElement (val1 : String) (val2 : Nat) (st : ListState) : Except Err ListState :=
  if val1 = ">" then
    .ok { st with table := fill st.table (st.last_index + 1) st.table.length val2 }
  else
    match stoul val1 with
    | .error e => .error e
    | .ok val1_long =>
      if isPowerOf2_64 val1_long then
        let index := bucketIndex val1_long st.table.length
        let filled : List Nat × Bool :=
          if st.first_value then (fill st.table 0 index val2, false)
          else (st.table, st.first_value)
        .ok { first_value := filled.2, last_index := index, table := filled.1.set index val2 }
      else .error .intervalsNotPowerOf2

/-- The `while` loop of `parseRoundUpPower2Divisions` (lines 170-218), entered with `i`
the index before the `++i` of its condition. -/
def roundupListLoop (config : List String) : Nat → Nat → Bool → Nat → Settings → Step
  | 0, _, _, _, s => .fail .outOfFuel s
  | fuel + 1, i, first_value, last_index, s =>
    let i := i + 1
    match config[i]? with
    | none => .ok i s
    | some val1 =>
      if val1 = "]" then .ok i s
      else
        let i := i + 1
        match consumeToken config i ':' with
        | .error e => .fail e s
        | .ok _ =>
          let i := i + 1
          match config[i]? with
          | none => .fail .roundupListValueMissing s
          | some tok =>
            match stoi tok with
            | .error e => .fail e s
            | .ok v =>
              let val2 := toSizeT v
              if val2 = 0 ∨ isPowerOf2_64 val2 then
                match roundupElement val1 val2
                    ⟨first_value, last_index, s.roundup_power2_divisions⟩ with
                | .error e => .fail e s
                | .ok st =>
                  let s := { s with roundup_power2_divisions := st.table }
                  match config[i + 1]? with
                  | none => .fail (.readPastEnd (i + 1)) s
                  | some next =>
                    if next ≠ "]" then
                      let i := i + 1
                      match consumeToken config i ',' with
                      | .error e => .fail e s
                      | .ok _ => roundupListLoop config fuel i st.first_value st.last_index s
                    else roundupListLoop config fuel i st.first_value st.last_index s
              else .fail .divisionsNotPowerOf2OrZero s

/-- `AllocatorConfig::parseRoundUpPower2Divisions`. -/
def parseRoundUpPower2Divisions (config : List String) (i : Nat) (s : Settings) : Step :=
  let i := i + 1
  match consumeToken config i ':' with
  | .error e => .fail e s
  | .ok _ =>
    let i := i + 1
    match config[i]? with
    | some tok =>
      if tok = "[" then roundupListLoop config config.length i true 0 s
      else
        match stoi tok with
        | .error e => .fail e s
        | .ok v =>
          let val1 := toSizeT v
          if isPowerOf2_64 val1 then
            let table := s.roundup_power2_divisions
            .ok i { s with roundup_power2_divisions := fill table 0 table.length val1 }
          else .fail .divisionsNotPowerOf2 s
    | none => .fail .expectingRoundup s

/-- `AllocatorConfig::parseDeviceAllocatorBackend`. -/
def parseDeviceAllocatorBackend (config : List String) (i : Nat) (s : Settings) : Step :=
  let i := i + 1
  match consumeToken config i ':' with
  | .error e => .fail e s
  | .ok _ =>
    let i := i + 1
    match config[i]? with
    | some tok =>
      if tok = "native" ∨ tok = "async" ∨ tok = "cudaMallocAsync" ∨ tok = "hipMallocAsync" then
        let aync_allocator_at_runtime : Bool := tok != "native"
        if s.is_allocator_loaded = true ∧ aync_allocator_at_runtime ≠ s.use_async_allocator then
          .fail (.backendMismatch aync_allocator_at_runtime s.use_async_allocator) s
        else .ok i { s with use_async_allocator := tok != "native" }
      else .fail .unknownBackend s
    | none => .fail .expectingBackend s

/-- `AllocatorConfig::parseExpandableSegments`. -/
def parseExpandableSegments (config : List String) (i : Nat) (s : Settings) : Step :=
  let i := i + 1
  match consumeToken config i ':' with
  | .error e => .fail e s
  | .ok _ =>
    let i := i + 1
    match config[i]? with
    | some tok =>
      if tok = "True" ∨ tok = "False" then
        .ok i { s with use_expandable_segments := tok == "True" }
      else .fail .expandableSegmentsNotBool s
    | none => .fail .expectingExpandableSegments s

/-- `AllocatorConfig::parseReleaseLockOnDeviceMalloc`. -/
def parseReleaseLockOnDeviceMalloc (config : List String) (i : Nat) (s : Settings) : Step :=
  let i := i + 1
  match consumeToken config i ':' with
  | .error e => .fail e s
  | .ok _ =>
    let i := i + 1
    match config[i]? with
    | some tok =>
      if tok = "True" ∨ tok = "False" then
        .ok i { s with use_release_lock_on_device_malloc := tok == "True" }
      else .fail .releaseLockNotBool s
    | none => .fail .expectingReleaseLock s

/-- `AllocatorConfig::parsePinnedUseDeviceHostRegister`. -/
def parsePinnedUseDeviceHostRegister (config : List String) (i : Nat) (s : Settings) : Step :=
  let i := i + 1
  match consumeToken config i ':' with
  | .error e => .fail e s
  | .ok _ =>
    let i := i + 1
    match config[i]? with
    | some tok =>
      if tok = "True" ∨ tok = "False" then
        .ok i { s with pinned_use_device_host_register := tok == "True" }
      else .fail .pinnedHostRegisterNotBool s
    | none => .fail .expectingPinnedHostRegister s

/-- `AllocatorConfig::pinned_max_register_threads`. -/
def pinned_max_register_threads : Nat := kPinnedMaxRegisterThreads

/-- `AllocatorConfig::parsePinnedNumRegisterThreads`. -/
def parsePinnedNumRegisterThreads (config : List String) (i : Nat) (s : Settings) : Step :=
  let i := i + 1
  match consumeToken config i ':' with
  | .error e => .fail e s
  | .ok _ =>
    let i := i + 1
    match config[i]? with
    | some tok =>
      match stoi tok with
      | .error e => .fail e s
      | .ok v =>
        let val_env := toSizeT v
        if isPowerOf2_64 val_env then
          let max_threads := pinned_max_register_threads
          if val_env ≤ max_threads then .ok i { s with pinned_num_register_threads := val_env }
          else .fail .registerThreadsTooMany s
        else .fail .registerThreadsNotPowerOf2 s
    | none => .fail .expectingRegisterThreads s

/-- `AllocatorConfig::parsePinnedUseBackgroundThreads`. -/
def parsePinnedUseBackgroundThreads (config : List String) (i : Nat) (s : Settings) : Step :=
  let i := i + 1
  match consumeToken config i ':' with
  | .error e => .fail e s
  | .ok _ =>
    let i := i + 1
    match config[i]? with
    | some tok =>
      if tok = "True" ∨ tok = "False" then
        .ok i { s with pinned_use_background_threads := tok == "True" }
      else .fail .backgroundThreadsNotBool s
    | none => .fail .expectingBackgroundThreads s

/-! ## Dispatcher -/

/-- The chain of comparisons of `parseArgs` (lines 372-412) on the key `config[i]`: the
outcome of the selected handler and the new value of `used_native_specific_option`. -/
def dispatch (ext : Ext) (config : List String) (i : Nat) (config_item_view : String)
    (used_native_specific_option : Bool) (s : Settings) : Step × Bool :=
  if config_item_view = "max_split_size_mb" then
    (parseMaxSplitSize ext config i s, true)
  else if config_item_view = "max_non_split_rounding_mb" then
    (parseMaxNonSplitRoundingSize ext config i s, true)
  else if config_item_view = "garbage_collection_threshold" then
    (parseGarbageCollectionThreshold ext config i s, true)
  else if config_item_view = "roundup_power2_divisions" then
    (parseRoundUpPower2Divisions config i s, true)
  else if config_item_view = "backend" then
    (parseDeviceAllocatorBackend config i s, used_native_specific_option)
  else if config_item_view = "expandable_segments" then
    (parseExpandableSegments config i s, true)
  else if config_item_view = "release_lock_on_device_malloc" ∨
      config_item_view = "release_lock_on_cudamalloc" ∨
      config_item_view = "release_lock_on_hipmalloc" then
    (parseReleaseLockOnDeviceMalloc config i s, true)
  else if config_item_view = "pinned_use_device_host_register" ∨
      config_item_view = "pinned_use_cuda_host_register" ∨
      config_item_view = "pinned_use_hip_host_register" then
    (parsePinnedUseDeviceHostRegister config i s, true)
  else if config_item_view = "pinned_num_register_threads" then
    (parsePinnedNumRegisterThreads config i s, true)
  else if config_item_view = "pinned_use_background_threads" then
    (parsePinnedUseBackgroundThreads config i s, true)
  else (.fail (.unrecognizedOption config_item_view) s, used_native_specific_option)

/-- What a call of `parseArgs` leaves: the settings, the exception if one was thrown,
and the number of "backend: async ignores ..." warnings emitted. -/
structure Result where
  settings : Settings
  error : Option Err
  warnings : Nat
  deriving DecidableEq, Repr

/-- The `for` loop of `parseArgs` (lines 370-431). -/
def parseLoop (ext : Ext) (config : List String) : Nat → Nat → Bool → Nat → Settings → Result
  | 0, _, _, w, s => ⟨s, some .outOfFuel, w⟩
  | fuel + 1, i, used_native_specific_option, w, s =>
    match config[i]? with
    | none => ⟨s, none, w⟩
    | some config_item_view =>
      match dispatch ext config i config_item_view used_native_specific_option s with
      | (.fail e s, _) => ⟨s, some e, w⟩
      | (.ok i s, used_native_specific_option) =>
        let warn : Nat := if s.use_async_allocator && used_native_specific_option then 1 else 0
        if i + 1 < config.length then
          let i := i + 1
          match consumeToken config i ',' with
          | .error e => ⟨s, some e, w⟩
          | .ok _ => parseLoop ext config fuel (i + 1) used_native_specific_option (w + warn) s
        else parseLoop ext config fuel (i + 1) used_native_specific_option (w + warn) s

/-- The four assignments at the head of `parseArgs` (lines 352-355). -/
def resetDefaults (s : Settings) : Settings :=
  { s with
    max_split_size := SIZE_MAX
    roundup_power2_divisions := List.replicate kRoundUpPowerOfTwoIntervals 0
    garbage_collection_threshold := 0
    use_async_allocator := false }

/-- Lines 362-365 of `parseArgs`: the raw string is recorded. -/
def recordSettings (s : Settings) (env : String) : Settings :=
  { s with last_allocator_settings := env }

/-- `AllocatorConfig::parseArgs`. -/
def parseArgs (ext : Ext) (s : Settings) (env : Option String) : Result :=
  let s := resetDefaults s
  match env with
  | none => ⟨s, none, 0⟩
  | some e =>
    let s := recordSettings s e
    let config := lexArgs e []
    parseLoop ext config (config.length + 1) 0 false 0 s

/-- The free function `setAllocatorSettings`: `env.c_str()` ends at the first NUL. -/
def setAllocatorSettings (ext : Ext) (s : Settings) (env : String) : Result :=
  parseArgs ext s (some (String.mk (env.data.takeWhile (fun c => c.toNat != 0))))

/-- `AllocatorConfig::roundup_power2_divisions(size)`, the lookup in the table of the
instance. -/
def roundup_power2_divisions (s : Settings) (size : Nat) : Except Err Nat :=
  let log_size := log2Floor size
  let interval_start := log2Floor kRoundUpPowerOfTwoStart
  let interval_end := log2Floor kRoundUpPowerOfTwoEnd
  if (interval_end + 2 ^ 64 - interval_start) % 2 ^ 64 = kRoundUpPowerOfTwoIntervals then
    let index := if log_size > interval_start then log_size - interval_start else 0
    let index := min index (kRoundUpPowerOfTwoIntervals - 1)
    match s.roundup_power2_divisions[index]? with
    | some v => .ok v
    | none => .error (.readPastEnd index)
  else .error .intervalsMismatch

/-! ## Vocabulary of the statements -/

/-- Modelled from the spec: the initial values of the data members, which the header
gives as member initialisers (spec section 3: `max_split_size` and
`max_non_split_rounding_size` start at the maximum representable value, the threshold
at 0, the 16 divisions at 0, the booleans at false, `pinned_num_register_threads`
at 1). -/
def defaultSettings : Settings where
  max_split_size := SIZE_MAX
  max_non_split_rounding_size := SIZE_MAX
  garbage_collection_threshold := 0
  roundup_power2_divisions := List.replicate kRoundUpPowerOfTwoIntervals 0
  use_async_allocator := false
  use_expandable_segments := false
  use_release_lock_on_device_malloc := false
  pinned_use_device_host_register := false
  pinned_num_register_threads := 1
  pinned_use_background_threads := false
  is_allocator_loaded := false
  last_allocator_settings := ""

/-- Externals for the concrete evaluations: a large-buffer constant of 20 MiB and a
`stod` that converts nothing (no evaluation below has a `garbage_collection_threshold`
option). -/
def refExt : Ext where
  kLargeBuffer := 20971520
  stod := fun _ => none

/-- The settings a call leaves when it returns normally. -/
def Result.ok (r : Result) : Prop := r.error = none

instance (r : Result) : Decidable r.ok := inferInstanceAs (Decidable (r.error = none))

/-- The call threw an exception. -/
def Result.threw (r : Result) : Prop := ∃ e, r.error = some e ∧ e.isException = true

/-- The settings of a handler outcome. -/
def Step.settings : Step → Settings
  | .ok _ s => s
  | .fail _ s => s

/-- A character that `lexArgs` accumulates into a word: neither a delimiter nor a space. -/
def isWordChar (c : Char) : Bool := !isDelim c && c != ' '

/-- A token that is exactly one delimiter character. -/
def isDelimToken (t : String) : Bool :=
  match t.data with
  | [c] => isDelim c
  | _ => false

/-- A non-empty token without delimiter and without space. -/
def isWord (t : String) : Bool := !t.data.isEmpty && t.data.all isWordChar

/-- The shape of a token sequence: every token is a delimiter token or a word, and a
word is never followed by another word. -/
def lexed : List String → Bool
  | [] => true
  | t :: rest =>
    if isDelimToken t then lexed rest
    else isWord t && (match rest with
      | [] => true
      | d :: _ => isDelimToken d) && lexed rest

/-- The loop of `lexArgs` read from the left of the input, with the pending buffer as
argument: the tokens produced from the rest of the input. -/
def lexRec : List Char → List Char → List String
  | [], buf => if buf.isEmpty then [] else [String.mk buf]
  | ch :: cs, buf =>
    if isDelim ch then
      (if buf.isEmpty then [] else [String.mk buf]) ++ String.singleton ch :: lexRec cs []
    else if ch != ' ' then lexRec cs (buf ++ [ch])
    else lexRec cs buf

/-- The ten settings fields that options write. -/
inductive Field where
  | max_split_size
  | max_non_split_rounding_size
  | garbage_collection_threshold
  | roundup_power2_divisions
  | use_async_allocator
  | use_expandable_segments
  | use_release_lock_on_device_malloc
  | pinned_use_device_host_register
  | pinned_num_register_threads
  | pinned_use_background_threads
  deriving DecidableEq, Repr

/-- The keys (deprecated aliases included) whose handler writes the field. -/
def Field.keys : Field → List String
  | .max_split_size => ["max_split_size_mb"]
  | .max_non_split_rounding_size => ["max_non_split_rounding_mb"]
  | .garbage_collection_threshold => ["garbage_collection_threshold"]
  | .roundup_power2_divisions => ["roundup_power2_divisions"]
  | .use_async_allocator => ["backend"]
  | .use_expandable_segments => ["expandable_segments"]
  | .use_release_lock_on_device_malloc =>
    ["release_lock_on_device_malloc", "release_lock_on_cudamalloc", "release_lock_on_hipmalloc"]
  | .pinned_use_device_host_register =>
    ["pinned_use_device_host_register", "pinned_use_cuda_host_register",
      "pinned_use_hip_host_register"]
  | .pinned_num_register_threads => ["pinned_num_register_threads"]
  | .pinned_use_background_threads => ["pinned_use_background_threads"]

/-- Two settings hold the same value in the field. -/
def Settings.same (f : Field) (s t : Settings) : Prop :=
  match f with
  | .max_split_size => s.max_split_size = t.max_split_size
  | .max_non_split_rounding_size => s.max_non_split_rounding_size = t.max_non_split_rounding_size
  | .garbage_collection_threshold =>
    s.garbage_collection_threshold = t.garbage_collection_threshold
  | .roundup_power2_divisions => s.roundup_power2_divisions = t.roundup_power2_divisions
  | .use_async_allocator => s.use_async_allocator = t.use_async_allocator
  | .use_expandable_segments => s.use_expandable_segments = t.use_expandable_segments
  | .use_release_lock_on_device_malloc =>
    s.use_release_lock_on_device_malloc = t.use_release_lock_on_device_malloc
  | .pinned_use_device_host_register =>
    s.pinned_use_device_host_register = t.pinned_use_device_host_register
  | .pinned_num_register_threads => s.pinned_num_register_threads = t.pinned_num_register_threads
  | .pinned_use_background_threads =>
    s.pinned_use_background_threads = t.pinned_use_background_threads

/-- The configuration string has a token that is one of the keys of the field. -/
def mentions (env : String) (f : Field) : Prop := ∃ t ∈ lexArgs env [], t ∈ f.keys

/-- The keys `parseArgs` compares against, deprecated aliases included. -/
def recognizedKeys : List String :=
  ["max_split_size_mb", "max_non_split_rounding_mb", "garbage_collection_threshold",
    "roundup_power2_divisions", "backend", "expandable_segments",
    "release_lock_on_device_malloc", "release_lock_on_cudamalloc", "release_lock_on_hipmalloc",
    "pinned_use_device_host_register", "pinned_use_cuda_host_register",
    "pinned_use_hip_host_register", "pinned_num_register_threads",
    "pinned_use_background_threads"]

/-- The list items `a : b (, a : b)*` of the grammar stand from position `k` on and the
closing `]` is at position `j`. -/
inductive ItemsAt (config : List String) : Nat → Nat → Prop where
  | last (k : Nat) (a b : String) :
    config[k]? = some a → isWord a = true → config[k + 1]? = some ":" →
    config[k + 2]? = some b → isWord b = true → config[k + 3]? = some "]" →
    ItemsAt config k (k + 3)
  | more (k j : Nat) (a b : String) :
    config[k]? = some a → isWord a = true → config[k + 1]? = some ":" →
    config[k + 2]? = some b → isWord b = true → config[k + 3]? = some "," →
    ItemsAt config (k + 4) j → ItemsAt config k j

/-- An option `key : value` of the grammar occupies the positions `i..j`: the value is
one word, or a bracketed list of items. -/
def OptionAt (config : List String) (i j : Nat) : Prop :=
  (∃ key, config[i]? = some key) ∧ config[i + 1]? = some ":" ∧
    ((∃ v, config[i + 2]? = some v ∧ isWord v = true ∧ j = i + 2) ∨
      (config[i + 2]? = some "[" ∧ ItemsAt config (i + 3) j))

/-- Position `p` holds the key of a top-level option, counted from an option that starts
at `i`: either `p = i`, or options of the grammar, each followed by a `,`, lead from
`i` to `p`. -/
inductive KeyPosition (config : List String) : Nat → Nat → Prop where
  | first (i : Nat) : KeyPosition config i i
  | next (i j p : Nat) :
    OptionAt config i j → config[j + 1]? = some "," → KeyPosition config (j + 2) p →
    KeyPosition config i p

/-- A handler outcome that is an exception, or the normal return with index `j`. -/
def Step.endsAt (j : Nat) : Step → Prop
  | .fail e _ => e.isException = true
  | .ok k _ => k = j

/-- A handler outcome that is not an exhausted loop counter and, when it is a normal
return, has an index between `lo` and the number of tokens. -/
def Step.within (config : List String) (lo : Nat) : Step → Prop
  | .fail e _ => e ≠ .outOfFuel
  | .ok j _ => lo ≤ j ∧ j ≤ config.length

/-- The bucket index as the specification words it: `floor(log2(K)) - 20`, clamped
into `[0, 15]`. To be compared with `bucketIndex`, which is the code. -/
def specBucketIndex (K : Nat) : Nat :=
  (max 0 (min 15 ((log2Floor K : Int) - 20))).toNat

/-- The text of a token sequence written without spaces. -/
def render : List String → List Char
  | [] => []
  | t :: rest => t.data ++ render rest

/-- The invariant of the table of divisions: 16 entries, each 0 or a power of two. -/
def validTable (t : List Nat) : Prop := t.length = 16 ∧ ∀ x ∈ t, x = 0 ∨ ∃ k, x = 2 ^ k

/-- The two size limits are at least the large-buffer constant. -/
def aboveFloor (ext : Ext) (s : Settings) : Prop :=
  ext.kLargeBuffer ≤ s.max_split_size ∧ ext.kLargeBuffer ≤ s.max_non_split_rounding_size

/-- The token begins with a decimal integer as `strtol` and `strtoul` read one: after
the leading white space and one optional sign there is a digit. -/
def startsWithNumeral (t : String) : Bool := (scanInt t.data).isSome

/-- The positions `i..j` hold an option as a handler accepts it: a recognized key, `:`,
and a value that is one token, or for `roundup_power2_divisions` a list opened by `[`
that runs to a `]` at position `j` or to the end of the sequence. -/
def AcceptedOption (config : List String) (i j : Nat) (key : String) : Prop :=
  config[i]? = some key ∧ key ∈ recognizedKeys ∧ config[i + 1]? = some ":" ∧
    ((j = i + 2 ∧ ∃ v, config[i + 2]? = some v) ∨
      (key = "roundup_power2_divisions" ∧ config[i + 2]? = some "[" ∧ i + 3 ≤ j ∧
        (config[j]? = some "]" ∨ config.length ≤ j)))

/-- From position `i` on the tokens are accepted options: each is followed by the end
of the sequence, or by one `,` after which the next option starts or the sequence
ends. -/
inductive OptionsFrom (config : List String) : Nat → Prop where
  | done (i : Nat) : config.length ≤ i → OptionsFrom config i
  | last (i j : Nat) (key : String) :
    AcceptedOption config i j key → config.length ≤ j + 1 → OptionsFrom config i
  | next (i j : Nat) (key : String) :
    AcceptedOption config i j key → config[j + 1]? = some "," →
    OptionsFrom config (j + 2) → OptionsFrom config i

/-- The outcome of a handler with the recorded raw string replaced by `x`. -/
def Step.record (x : String) : Step → Step
  | .ok i s => .ok i (recordSettings s x)
  | .fail e s => .fail e (recordSettings s x)

/-- What a call leaves, with the recorded raw string replaced by `x`. -/
def Result.record (x : String) (r : Result) : Result :=
  ⟨recordSettings r.settings x, r.error, r.warnings⟩

/-- The token `x` is a deprecated key alias and `y` its canonical spelling. -/
@[reducible] def keyAliasAt (x y : Option String) : Prop :=
  ((x = some "release_lock_on_cudamalloc" ∨ x = some "release_lock_on_hipmalloc") ∧
      y = some "release_lock_on_device_malloc") ∨
    ((x = some "pinned_use_cuda_host_register" ∨ x = some "pinned_use_hip_host_register") ∧
      y = some "pinned_use_device_host_register")

/-- The token `x` is a deprecated backend name and `y` is `async`. -/
@[reducible] def backendAliasAt (x y : Option String) : Prop :=
  (x = some "cudaMallocAsync" ∨ x = some "hipMallocAsync") ∧ y = some "async"

/-- Token `i` of `cfg'` is token `i` of `cfg`, or its canonical spelling where token `i` of
`cfg` is a deprecated key alias at the start of the sequence or right after a `,`, or
`async` where it is a deprecated backend name right after `backend` `:`. -/
@[reducible] def ReplacedAt (cfg cfg' : List String) (i : Nat) : Prop :=
  cfg[i]? = cfg'[i]? ∨
    (keyAliasAt cfg[i]? cfg'[i]? ∧ (i = 0 ∨ cfg[i - 1]? = some ",")) ∨
    (backendAliasAt cfg[i]? cfg'[i]? ∧ 2 ≤ i ∧ cfg[i - 2]? = some "backend" ∧
      cfg[i - 1]? = some ":")

/-- The token sequence `cfg'` is `cfg` with some deprecated aliases (key tokens, backend
values) replaced by their canonical spelling. -/
@[reducible] def AliasReplaced (cfg cfg' : List String) : Prop :=
  cfg.length = cfg'.length ∧ ∀ i, i < cfg.length → ReplacedAt cfg cfg' i

/-- The canonical spelling of a token: each deprecated alias is mapped to the name that
the code treats it as, every other token is itself. -/
def canon (t : String) : String :=
  if t = "release_lock_on_cudamalloc" ∨ t = "release_lock_on_hipmalloc" then
    "release_lock_on_device_malloc"
  else if t = "pinned_use_cuda_host_register" ∨ t = "pinned_use_hip_host_register" then
    "pinned_use_device_host_register"
  else if t = "cudaMallocAsync" ∨ t = "hipMallocAsync" then "async"
  else t

/-! # Theorems -/

/-! ## Tokenizer -/

theorem foldl_lexStep_eq (cs : List Char) (config : List String) (buf : List Char) :
    lexFlush (cs.foldl lexStep (config, buf)) = config ++ lexRec cs buf := by
  induction cs generalizing config buf with
  | nil => simp [lexFlush, lexRec]; split <;> simp
  | cons ch cs ih =>
    simp only [List.foldl_cons, lexStep, lexRec]
    by_cases hd : isDelim ch = true
    · by_cases hb : buf.isEmpty = true <;> simp [hd, hb, ih]
    · by_cases hs : (ch != ' ') = true <;> simp [hd, hs, ih]

theorem lexArgs_eq_lexRec (env : String) : lexArgs env [] = lexRec env.data [] := by
  simp [lexArgs, foldl_lexStep_eq]

theorem isDelimToken_mk_of_word (buf : List Char) (h : buf.all isWordChar = true) :
    isDelimToken (String.mk buf) = false := by
  unfold isDelimToken
  match buf, h with
  | [], _ => rfl
  | [c], h =>
    simp [isWordChar] at h
    simp [h.1]
  | _ :: _ :: _, _ => rfl

theorem isDelimToken_singleton (ch : Char) (h : isDelim ch = true) :
    isDelimToken (String.singleton ch) = true := by
  simp [isDelimToken, String.singleton, String.push, h]

theorem lexed_lexRec (cs : List Char) (buf : List Char) (h : buf.all isWordChar = true) :
    lexed (lexRec cs buf) = true := by
  induction cs generalizing buf with
  | nil =>
    by_cases hb : buf.isEmpty = true
    · simp [lexRec, hb, lexed]
    · simp [lexRec, hb, lexed, isDelimToken_mk_of_word buf h, isWord, h]
  | cons ch cs ih =>
    by_cases hd : isDelim ch = true
    · have h1 : lexed (String.singleton ch :: lexRec cs []) = true := by
        simp [lexed, isDelimToken_singleton ch hd, ih [] (by simp)]
      by_cases hb : buf.isEmpty = true
      · simpa [lexRec, hd, hb] using h1
      · simp only [lexRec, hd, hb, if_true]
        simp only [Bool.false_eq_true, if_false, List.singleton_append]
        rw [lexed]
        simp [isDelimToken_mk_of_word buf h, isWord, h, isDelimToken_singleton ch hd, h1]
        simpa using hb
    · by_cases hs : (ch != ' ') = true
      · simp only [lexRec, hd, hs, if_true, Bool.false_eq_true, if_false]
        apply ih
        simp [List.all_append, h, isWordChar, hd, hs]
      · simp only [lexRec, hd, hs, Bool.false_eq_true, if_false]
        exact ih buf h

theorem lexed_mem (l : List String) (h : lexed l = true) (t : String) (ht : t ∈ l) :
    isDelimToken t = true ∨ isWord t = true := by
  induction l with
  | nil => simp at ht
  | cons a rest ih =>
    simp only [lexed] at h
    by_cases hd : isDelimToken a = true
    · simp only [hd, if_true] at h
      rcases List.mem_cons.mp ht with rfl | hm
      · exact Or.inl hd
      · exact ih h hm
    · simp only [hd, Bool.false_eq_true, if_false, Bool.and_eq_true] at h
      rcases List.mem_cons.mp ht with rfl | hm
      · exact Or.inr h.1.1
      · exact ih h.2 hm

theorem lexed_adjacent (l : List String) (h : lexed l = true) (i : Nat) (t u : String)
    (ht : l[i]? = some t) (hu : l[i + 1]? = some u) :
    isDelimToken t = true ∨ isDelimToken u = true := by
  induction l generalizing i with
  | nil => simp at ht
  | cons a rest ih =>
    simp only [lexed] at h
    by_cases hd : isDelimToken a = true
    · simp only [hd, if_true] at h
      cases i with
      | zero =>
        simp at ht
        subst ht
        exact Or.inl hd
      | succ j =>
        simp only [List.getElem?_cons_succ] at ht hu
        exact ih h j ht hu
    · simp only [hd, Bool.false_eq_true, if_false, Bool.and_eq_true] at h
      cases i with
      | zero =>
        simp only [zero_add, List.getElem?_cons_succ] at hu
        cases rest with
        | nil => simp at hu
        | cons d r =>
          simp at hu
          subst hu
          exact Or.inr h.1.2
      | succ j =>
        simp only [List.getElem?_cons_succ] at ht hu
        exact ih h.2 j ht hu

theorem token_ne_empty (t : String) (h : isDelimToken t = true ∨ isWord t = true) :
    t ≠ "" := by
  rintro rfl
  rcases h with h | h <;> simp [isDelimToken, isWord] at h

theorem lexRec_eq_nil (cs buf : List Char) :
    lexRec cs buf = [] ↔ buf = [] ∧ ∀ c ∈ cs, c = ' ' := by
  induction cs generalizing buf with
  | nil => by_cases hb : buf = [] <;> simp [lexRec, hb]
  | cons ch cs ih =>
    by_cases hd : isDelim ch = true
    · have : ch ≠ ' ' := by rintro rfl; simp [isDelim] at hd
      simp [lexRec, hd, this]
    · by_cases hs : (ch != ' ') = true
      · have hne : ch ≠ ' ' := by simpa using hs
        simp [lexRec, hd, hs, ih, hne]
      · have he : ch = ' ' := by simpa using hs
        subst he
        have hsp : isDelim ' ' = false := by decide
        simp [lexRec, hsp, ih]

/-- C9. For every input string the tokens of `lexArgs` are delimiter tokens or non-empty
words free of delimiters and spaces, none is empty, no two consecutive tokens are both
words, and there is no token exactly when the input holds nothing but spaces. -/
theorem lexArgs_token_shape (env : String) :
    (∀ t ∈ lexArgs env [], isDelimToken t = true ∨ isWord t = true) ∧
    (∀ t ∈ lexArgs env [], t ≠ "") ∧
    (∀ (i : Nat) (t u : String), (lexArgs env [])[i]? = some t →
      (lexArgs env [])[i + 1]? = some u → isDelimToken t = true ∨ isDelimToken u = true) ∧
    (lexArgs env [] = [] ↔ ∀ c ∈ env.data, c = ' ') := by
  have hl : lexed (lexArgs env []) = true := by
    rw [lexArgs_eq_lexRec]; exact lexed_lexRec _ _ (by simp)
  refine ⟨lexed_mem _ hl, fun t ht => token_ne_empty t (lexed_mem _ hl t ht),
    lexed_adjacent _ hl, ?_⟩
  rw [lexArgs_eq_lexRec, lexRec_eq_nil]
  simp

/-! ## Decimal numerals and the numeric conversions -/

theorem isDigit_iff (c : Char) : c.isDigit = true ↔ 48 ≤ c.toNat ∧ c.toNat ≤ 57 := by
  simp [Char.isDigit, Char.toNat, UInt32.le_def, BitVec.le_def, UInt32.toNat]

theorem digitChar_spec (k : Nat) (h : k < 10) :
    (Nat.digitChar k).isDigit = true ∧ (Nat.digitChar k).toNat - 48 = k := by
  interval_cases k <;> exact ⟨by decide, by decide⟩

theorem toDigitsCore_spec (fuel n : Nat) (ds : List Char) (hf : n < fuel) :
    ∃ pre, Nat.toDigitsCore 10 fuel n ds = pre ++ ds ∧ pre ≠ [] ∧
      (∀ c ∈ pre, c.isDigit = true) ∧ digitsValue pre = n := by
  induction fuel generalizing n ds with
  | zero => omega
  | succ fuel ih =>
    have hd := digitChar_spec (n % 10) (Nat.mod_lt _ (by decide))
    unfold Nat.toDigitsCore
    by_cases h0 : n / 10 = 0
    · refine ⟨[Nat.digitChar (n % 10)], by simp [h0], by simp, by simpa using hd.1, ?_⟩
      simp [digitsValue, hd.2]
      omega
    · obtain ⟨pre, hpre, _, hall, hval⟩ :=
        ih (n / 10) (Nat.digitChar (n % 10) :: ds) (by omega)
      refine ⟨pre ++ [Nat.digitChar (n % 10)], by simp [h0, hpre], by simp, ?_, ?_⟩
      · intro c hc
        rcases List.mem_append.mp hc with hc | hc
        · exact hall c hc
        · simp at hc; subst hc; exact hd.1
      · unfold digitsValue at hval ⊢
        rw [List.foldl_append, hval]
        simp [hd.2]
        omega

theorem toDigits_spec (n : Nat) :
    Nat.toDigits 10 n ≠ [] ∧ (∀ c ∈ Nat.toDigits 10 n, c.isDigit = true) ∧
      digitsValue (Nat.toDigits 10 n) = n := by
  obtain ⟨pre, hpre, hne, hall, hval⟩ := toDigitsCore_spec (n + 1) n [] (by omega)
  simp only [List.append_nil] at hpre
  unfold Nat.toDigits
  rw [hpre]
  exact ⟨hne, hall, hval⟩

theorem isDigit_not_special (c : Char) (h : c.isDigit = true) :
    isSpace c = false ∧ c ≠ '-' ∧ c ≠ '+' ∧ isWordChar c = true := by
  rw [isDigit_iff] at h
  refine ⟨?_, ?_, ?_, ?_⟩
  · have h1 : c ≠ ' ' := by rintro rfl; revert h; decide
    have h2 : c ≠ '\t' := by rintro rfl; revert h; decide
    have h3 : c ≠ '\n' := by rintro rfl; revert h; decide
    have h4 : c ≠ '\r' := by rintro rfl; revert h; decide
    have h5 : c.toNat ≠ 11 := by omega
    have h6 : c.toNat ≠ 12 := by omega
    simp [isSpace, h1, h2, h3, h4, h5, h6]
  · rintro rfl; revert h; decide
  · rintro rfl; revert h; decide
  · have h1 : c ≠ ' ' := by rintro rfl; revert h; decide
    have h2 : c ≠ ',' := by rintro rfl; revert h; decide
    have h3 : c ≠ ':' := by rintro rfl; revert h; decide
    have h4 : c ≠ '[' := by rintro rfl; revert h; decide
    have h5 : c ≠ ']' := by rintro rfl; revert h; decide
    simp [isWordChar, isDelim, h1, h2, h3, h4, h5]

theorem scanInt_digits (ds : List Char) (hne : ds ≠ [])
    (hall : ∀ c ∈ ds, c.isDigit = true) : scanInt ds = some (false, digitsValue ds) := by
  obtain ⟨c, r, rfl⟩ := List.exists_cons_of_ne_nil hne
  obtain ⟨hs, hm, hp, _⟩ := isDigit_not_special c (hall c (by simp))
  have htw : List.takeWhile Char.isDigit (c :: r) = c :: r :=
    List.takeWhile_eq_self_iff.mpr hall
  have hsign : stripSign (c :: r) = (false, c :: r) := by
    unfold stripSign
    split <;> simp_all
  unfold scanInt
  simp only [List.dropWhile_cons, hs, Bool.false_eq_true, if_false, hsign]
  simp [htw]

theorem scanInt_neg_digits (ds : List Char) (hne : ds ≠ [])
    (hall : ∀ c ∈ ds, c.isDigit = true) :
    scanInt ('-' :: ds) = some (true, digitsValue ds) := by
  have htw : List.takeWhile Char.isDigit ds = ds := List.takeWhile_eq_self_iff.mpr hall
  have hs : isSpace '-' = false := by decide
  unfold scanInt
  simp only [List.dropWhile_cons, hs, Bool.false_eq_true, if_false, stripSign]
  simp [htw, hne]

theorem toString_nat_data (n : Nat) : (toString n).data = Nat.toDigits 10 n := rfl

theorem toString_int_data (m : Int) :
    (toString m).data =
      if 0 ≤ m then Nat.toDigits 10 m.toNat else '-' :: Nat.toDigits 10 (-m).toNat := by
  cases m with
  | ofNat n => simp [toString_nat_data]; rfl
  | negSucc n =>
    have : ¬ (0 : Int) ≤ Int.negSucc n := by simp [Int.negSucc_lt_zero]
    simp only [this, if_false]
    rfl

theorem stoi_toString_int (m : Int) :
    stoi (toString m) =
      if -(2 : Int) ^ 31 ≤ m ∧ m ≤ 2 ^ 31 - 1 then .ok m else .error .outOfRange := by
  obtain ⟨hne, hall, hval⟩ := toDigits_spec m.toNat
  obtain ⟨hne2, hall2, hval2⟩ := toDigits_spec (-m).toNat
  unfold stoi
  rw [toString_int_data]
  by_cases h0 : 0 ≤ m
  · simp only [h0, if_true, scanInt_digits _ hne hall, hval]
    have : ((m.toNat : Nat) : Int) = m := Int.toNat_of_nonneg h0
    simp [this]
  · have : -(((-m).toNat : Nat) : Int) = m := by
      rw [Int.toNat_of_nonneg (by omega)]; omega
    simp only [h0, if_false, scanInt_neg_digits _ hne2 hall2, hval2, ↓reduceIte, this]

theorem stoi_toString_nat (n : Nat) :
    stoi (toString n) = if n ≤ 2 ^ 31 - 1 then .ok (n : Int) else .error .outOfRange := by
  have h := stoi_toString_int (n : Int)
  have e : toString (n : Int) = toString n := rfl
  rw [e] at h
  rw [h]
  have h1 : (-2147483648 : Int) ≤ (n : Int) := by omega
  by_cases h2 : n ≤ 2147483647 <;> simp [h1, h2]

theorem stoul_toString_nat (n : Nat) (h : n < 2 ^ 64) : stoul (toString n) = .ok n := by
  obtain ⟨hne, hall, hval⟩ := toDigits_spec n
  unfold stoul
  rw [toString_nat_data]
  simp only [scanInt_digits _ hne hall, hval, SIZE_MAX]
  have : n ≤ 18446744073709551615 := by omega
  simp [this]

theorem isWord_toString_nat (n : Nat) : isWord (toString n) = true := by
  obtain ⟨hne, hall, _⟩ := toDigits_spec n
  unfold isWord
  rw [toString_nat_data]
  simp only [Bool.and_eq_true, Bool.not_eq_true', List.all_eq_true]
  exact ⟨by simpa using hne, fun c hc => (isDigit_not_special c (hall c hc)).2.2.2⟩

theorem isWord_toString_int (m : Int) : isWord (toString m) = true := by
  cases m with
  | ofNat n => exact isWord_toString_nat n
  | negSucc n =>
    have h := isWord_toString_nat (n + 1)
    unfold isWord at h ⊢
    have e : (toString (Int.negSucc n)).data = '-' :: (toString (n + 1)).data := rfl
    rw [e]
    simp only [Bool.and_eq_true, Bool.not_eq_true', List.all_cons] at h ⊢
    exact ⟨by simp, by decide, h.2⟩

/-! ## Tokens of a text written without spaces -/

theorem lexRec_word_append (w cs buf : List Char) (h : w.all isWordChar = true) :
    lexRec (w ++ cs) buf = lexRec cs (buf ++ w) := by
  induction w generalizing buf with
  | nil => simp
  | cons c w ih =>
    simp only [List.all_cons, Bool.and_eq_true, isWordChar, Bool.not_eq_true'] at h
    have hs : (c != ' ') = true := h.1.2
    rw [List.cons_append]
    simp only [lexRec, h.1.1, Bool.false_eq_true, if_false, hs, if_true]
    rw [ih _ (by simpa [isWordChar] using h.2)]
    simp

theorem lexRec_delim_buf (c : Char) (cs buf : List Char) (hc : isDelim c = true) :
    lexRec (c :: cs) buf =
      (if buf.isEmpty then [] else [String.mk buf]) ++ lexRec (c :: cs) [] := by
  simp [lexRec, hc]

theorem lexRec_render (toks : List String) (h : lexed toks = true) :
    lexRec (render toks) [] = toks := by
  induction toks with
  | nil => simp [render, lexRec]
  | cons t rest ih =>
    simp only [lexed] at h
    by_cases hd : isDelimToken t = true
    · simp only [hd, if_true] at h
      obtain ⟨data⟩ := t
      unfold isDelimToken at hd
      match data, hd with
      | [c], hd =>
        simp only at hd
        show lexRec (c :: render rest) [] = _
        simp only [lexRec, hd, if_true, List.isEmpty_nil, List.nil_append, ih h]
        rfl
    · simp only [hd, Bool.false_eq_true, if_false, Bool.and_eq_true] at h
      obtain ⟨⟨hw, hnext⟩, hrest⟩ := h
      simp only [isWord, Bool.and_eq_true, Bool.not_eq_true'] at hw
      have hmk : String.mk t.data = t := rfl
      rw [render, lexRec_word_append _ _ _ hw.2, List.nil_append]
      cases rest with
      | nil => simp [render, lexRec, hw.1, hmk]
      | cons d r =>
        obtain ⟨ddata⟩ := d
        unfold isDelimToken at hnext
        match ddata, hnext with
        | [c], hnext =>
          simp only at hnext
          have ih2 := ih hrest
          simp only [render, List.singleton_append] at ih2 ⊢
          rw [lexRec_delim_buf c _ _ hnext, ih2]
          simp [hw.1, hmk]

/-- The tokens of a text that writes a well-shaped token sequence without spaces are
that sequence. -/
theorem lexArgs_render (toks : List String) (h : lexed toks = true) :
    lexArgs (String.mk (render toks)) [] = toks := by
  rw [lexArgs_eq_lexRec]
  exact lexRec_render toks h

theorem isWord_not_delim (t : String) (h : isWord t = true) : isDelimToken t = false := by
  simp only [isWord, Bool.and_eq_true] at h
  exact isDelimToken_mk_of_word t.data h.2

theorem lexArgs_key_value (k v : String) (hk : isWord k = true) (hv : isWord v = true) :
    lexArgs (k ++ ":" ++ v) [] = [k, ":", v] := by
  have h : lexed [k, ":", v] = true := by
    have hc : isDelimToken ":" = true := by decide
    simp [lexed, isWord_not_delim k hk, isWord_not_delim v hv, hk, hv, hc]
  have e : k ++ ":" ++ v = String.mk (render [k, ":", v]) := by
    apply String.ext
    simp [render, String.data_append]
  rw [e, lexArgs_render _ h]

/-! ## Evaluation of the handlers and of the dispatcher loop -/

@[simp] theorem singleton_colon : String.singleton ':' = ":" := rfl

@[simp] theorem singleton_comma : String.singleton ',' = "," := rfl

theorem consumeToken_ok (config : List String) (i : Nat) (c : Char)
    (h : config[i]? = some (String.singleton c)) : consumeToken config i c = .ok () := by
  simp [consumeToken, h]

theorem consumeToken_ok_iff (config : List String) (i : Nat) (c : Char) :
    consumeToken config i c = .ok () ↔ config[i]? = some (String.singleton c) := by
  unfold consumeToken
  split
  · rename_i t ht
    by_cases h : t = String.singleton c <;> simp [h, ht]
  · rename_i hn
    simp [hn]

theorem consumeToken_error (config : List String) (i : Nat) (c : Char) (e : Err)
    (h : consumeToken config i c = .error e) : e = .expected c := by
  unfold consumeToken at h
  split at h
  · split at h <;> simp at h; exact h.symm
  · simp at h; exact h.symm

theorem parseLoop_fail (ext : Ext) (config : List String) (fuel i : Nat) (u : Bool) (w : Nat)
    (s s1 : Settings) (key : String) (e : Err) (u1 : Bool) (hk : config[i]? = some key)
    (hd : dispatch ext config i key u s = (.fail e s1, u1)) :
    parseLoop ext config (fuel + 1) i u w s = ⟨s1, some e, w⟩ := by
  simp [parseLoop, hk, hd]

theorem parseLoop_last (ext : Ext) (config : List String) (fuel i j : Nat) (u : Bool) (w : Nat)
    (s s1 : Settings) (key : String) (u1 : Bool) (hk : config[i]? = some key)
    (hd : dispatch ext config i key u s = (.ok j s1, u1)) (hj : config.length ≤ j + 1) :
    parseLoop ext config (fuel + 2) i u w s =
      ⟨s1, none, w + if s1.use_async_allocator && u1 then 1 else 0⟩ := by
  have h1 : ¬ j + 1 < config.length := by omega
  have h2 : config[j + 1]? = none := by simp; omega
  simp [parseLoop, hk, hd, h1, h2]

theorem parseMaxSplitSize_eq (ext : Ext) (config : List String) (i : Nat) (s : Settings)
    (tok : String) (h1 : config[i + 1]? = some ":") (h2 : config[i + 1 + 1]? = some tok) :
    parseMaxSplitSize ext config i s =
      match stoi tok with
      | .error e => .fail e s
      | .ok v =>
        if ext.kLargeBuffer / kMB ≤ toSizeT v then
          .ok (i + 1 + 1)
            { s with max_split_size := (min (toSizeT v) (SIZE_MAX / kMB) * kMB) % 2 ^ 64 }
        else .fail .maxSplitSizeTooSmall s := by
  simp only [parseMaxSplitSize, consumeToken, h1, h2, singleton_colon, if_true]

theorem parseMaxNonSplitRoundingSize_eq (ext : Ext) (config : List String) (i : Nat)
    (s : Settings) (tok : String) (h1 : config[i + 1]? = some ":")
    (h2 : config[i + 1 + 1]? = some tok) :
    parseMaxNonSplitRoundingSize ext config i s =
      match stoi tok with
      | .error e => .fail e s
      | .ok v =>
        if ext.kLargeBuffer / kMB ≤ toSizeT v then
          .ok (i + 1 + 1) { s with
            max_non_split_rounding_size := (min (toSizeT v) (SIZE_MAX / kMB) * kMB) % 2 ^ 64 }
        else .fail .maxNonSplitRoundingTooSmall s := by
  simp only [parseMaxNonSplitRoundingSize, consumeToken, h1, h2, singleton_colon, if_true]

theorem toSizeT_nonneg (m : Int) (h : 0 ≤ m) (h2 : m < 2 ^ 64) : toSizeT m = m.toNat := by
  unfold toSizeT
  rw [Int.emod_eq_of_lt h h2]

theorem mb_bytes_small (n : Nat) (h : n ≤ 2147483647) :
    (min n (SIZE_MAX / kMB) * kMB) % 18446744073709551616 = n * 1048576 := by
  have h1 : SIZE_MAX / kMB = 17592186044415 := by decide
  have h2 : kMB = 1048576 := by decide
  rw [h1, h2, Nat.min_eq_left (by omega), Nat.mod_eq_of_lt (by omega)]

theorem parseArgs_key_value (ext : Ext) (s : Settings) (k v : String)
    (hk : isWord k = true) (hv : isWord v = true) :
    parseArgs ext s (some (k ++ ":" ++ v)) =
      parseLoop ext [k, ":", v] 4 0 false 0 (recordSettings (resetDefaults s) (k ++ ":" ++ v)) := by
  simp only [parseArgs, lexArgs_key_value _ _ hk hv]
  rfl

@[simp] theorem recordSettings_fields (s : Settings) (e : String) :
    (recordSettings s e).max_split_size = s.max_split_size ∧
    (recordSettings s e).max_non_split_rounding_size = s.max_non_split_rounding_size ∧
    (recordSettings s e).garbage_collection_threshold = s.garbage_collection_threshold ∧
    (recordSettings s e).roundup_power2_divisions = s.roundup_power2_divisions ∧
    (recordSettings s e).use_async_allocator = s.use_async_allocator ∧
    (recordSettings s e).use_expandable_segments = s.use_expandable_segments ∧
    (recordSettings s e).use_release_lock_on_device_malloc =
      s.use_release_lock_on_device_malloc ∧
    (recordSettings s e).pinned_use_device_host_register = s.pinned_use_device_host_register ∧
    (recordSettings s e).pinned_num_register_threads = s.pinned_num_register_threads ∧
    (recordSettings s e).pinned_use_background_threads = s.pinned_use_background_threads ∧
    (recordSettings s e).is_allocator_loaded = s.is_allocator_loaded :=
  ⟨rfl, rfl, rfl, rfl, rfl, rfl, rfl, rfl, rfl, rfl, rfl⟩

@[simp] theorem resetDefaults_fields (s : Settings) :
    (resetDefaults s).max_split_size = SIZE_MAX ∧
    (resetDefaults s).max_non_split_rounding_size = s.max_non_split_rounding_size ∧
    (resetDefaults s).garbage_collection_threshold = 0 ∧
    (resetDefaults s).roundup_power2_divisions = List.replicate 16 0 ∧
    (resetDefaults s).use_async_allocator = false ∧
    (resetDefaults s).use_expandable_segments = s.use_expandable_segments ∧
    (resetDefaults s).use_release_lock_on_device_malloc = s.use_release_lock_on_device_malloc ∧
    (resetDefaults s).pinned_use_device_host_register = s.pinned_use_device_host_register ∧
    (resetDefaults s).pinned_num_register_threads = s.pinned_num_register_threads ∧
    (resetDefaults s).pinned_use_background_threads = s.pinned_use_background_threads ∧
    (resetDefaults s).is_allocator_loaded = s.is_allocator_loaded :=
  ⟨rfl, rfl, rfl, rfl, rfl, rfl, rfl, rfl, rfl, rfl, rfl⟩

/-- C3 (amended). For every non-negative integer `m` written in decimal, with `floor`
the large-buffer constant in MB: when `floor ≤ m ≤ 2^31 - 1` the option
`max_split_size_mb:m` is accepted and stores `m * 2^20`, and otherwise (`m` below the
floor, or above the range of `int`) the call throws and `max_split_size` stays at the
value of the reset; likewise `max_non_split_rounding_mb`, whose field keeps its
previous value when the call throws. -/
theorem parseArgs_split_size_mb (ext : Ext) (s : Settings) (m : Int) (h0 : 0 ≤ m) :
    let r := parseArgs ext s (some ("max_split_size_mb:" ++ toString m))
    let q := parseArgs ext s (some ("max_non_split_rounding_mb:" ++ toString m))
    if ((ext.kLargeBuffer / kMB : Nat) : Int) ≤ m ∧ m ≤ 2 ^ 31 - 1 then
      r.ok ∧ r.settings.max_split_size = m.toNat * 2 ^ 20 ∧
        q.ok ∧ q.settings.max_non_split_rounding_size = m.toNat * 2 ^ 20
    else
      r.threw ∧ r.settings.max_split_size = SIZE_MAX ∧
        q.threw ∧ q.settings.max_non_split_rounding_size = s.max_non_split_rounding_size := by
  have e1 : ("max_split_size_mb:" : String) = "max_split_size_mb" ++ ":" := by decide
  have e2 : ("max_non_split_rounding_mb:" : String) = "max_non_split_rounding_mb" ++ ":" := by
    decide
  have hk1 : isWord "max_split_size_mb" = true := by decide
  have hk2 : isWord "max_non_split_rounding_mb" = true := by decide
  have hlo : (-2147483648 : Int) ≤ m := by omega
  intro r q
  have hr : r = _ := (congrArg (fun k => parseArgs ext s (some (k ++ toString m))) e1).trans
    (parseArgs_key_value ext s _ _ hk1 (isWord_toString_int m))
  have hq : q = _ := (congrArg (fun k => parseArgs ext s (some (k ++ toString m))) e2).trans
    (parseArgs_key_value ext s _ _ hk2 (isWord_toString_int m))
  rw [hr, hq]
  by_cases hhi : m ≤ 2147483647
  · have hst : stoi (toString m) = .ok m := by rw [stoi_toString_int]; simp [hlo, hhi]
    have hsz : toSizeT m = m.toNat := toSizeT_nonneg m h0 (by omega)
    have hmn : m.toNat ≤ 2147483647 := by omega
    by_cases hfl : ((ext.kLargeBuffer / kMB : Nat) : Int) ≤ m
    · have hfl2 : ext.kLargeBuffer / kMB ≤ m.toNat := by omega
      rw [if_pos ⟨hfl, by omega⟩]
      simp [parseLoop, dispatch, parseMaxSplitSize, parseMaxNonSplitRoundingSize, consumeToken,
        hst, hsz, hfl2, Result.ok, mb_bytes_small _ hmn]
    · have hfl2 : ¬ ext.kLargeBuffer / kMB ≤ m.toNat := by omega
      rw [if_neg (fun h => hfl h.1)]
      simp [parseLoop, dispatch, parseMaxSplitSize, parseMaxNonSplitRoundingSize, consumeToken,
        hst, hsz, hfl2, Result.threw, Err.isException]
  · have hst : stoi (toString m) = .error .outOfRange := by
      rw [stoi_toString_int]; simp [hhi]
    rw [if_neg (fun h => hhi (by omega))]
    simp [parseLoop, dispatch, parseMaxSplitSize, parseMaxNonSplitRoundingSize, consumeToken,
      hst, Result.threw, Err.isException]

theorem parseArgs_split_size_mb_witness :
    (0 : Int) ≤ 20 ∧
      (parseArgs refExt defaultSettings (some ("max_split_size_mb:" ++ toString (20 : Int)))).ok ∧
      (parseArgs refExt defaultSettings
        (some ("max_split_size_mb:" ++ toString (20 : Int)))).settings.max_split_size
        = 20971520 := by
  have h := parseArgs_split_size_mb refExt defaultSettings 20 (by decide)
  rw [if_pos (by decide)] at h
  exact ⟨by decide, h.1, h.2.1⟩

/-- C3 (as stated) fails twice: `2147483648` is above the floor and the option is
rejected; `-1` is below the floor and the option is accepted, storing the clamped
maximum. -/
theorem split_size_mb_counterexample :
    ((refExt.kLargeBuffer / kMB : Nat) : Int) ≤ 2147483648 ∧
      (parseArgs refExt defaultSettings
        (some ("max_split_size_mb:" ++ toString (2147483648 : Int)))).error
        = some .outOfRange ∧
      (-1 : Int) < ((refExt.kLargeBuffer / kMB : Nat) : Int) ∧
      (parseArgs refExt defaultSettings
        (some ("max_split_size_mb:" ++ toString (-1 : Int)))).error = none ∧
      (parseArgs refExt defaultSettings
        (some ("max_split_size_mb:" ++ toString (-1 : Int)))).settings.max_split_size
        = (2 ^ 44 - 1) * 2 ^ 20 := by
  decide

theorem lex_backend_native : lexArgs "backend:native" [] = ["backend", ":", "native"] := by
  decide

theorem lex_backend_async : lexArgs "backend:async" [] = ["backend", ":", "async"] := by
  decide

/-- C2 (code). With the allocator loaded in async mode, `parseArgs` first resets
`use_async_allocator` and the guard then compares against the reset value:
`backend:native` is accepted and `backend:async` throws the mismatch error. -/
theorem backend_guard_compares_reset_value (ext : Ext) (s : Settings)
    (hl : s.is_allocator_loaded = true) (ha : s.use_async_allocator = true) :
    s.use_async_allocator = true ∧
      (parseArgs ext s (some "backend:native")).ok ∧
      (parseArgs ext s (some "backend:native")).settings.use_async_allocator = false ∧
      (parseArgs ext s (some "backend:async")).error = some (.backendMismatch true false) := by
  refine ⟨ha, ?_, ?_, ?_⟩
  · simp [parseArgs, lex_backend_native, parseLoop, dispatch, parseDeviceAllocatorBackend,
      consumeToken, hl, Result.ok]
  · simp [parseArgs, lex_backend_native, parseLoop, dispatch, parseDeviceAllocatorBackend,
      consumeToken, hl]
  · simp [parseArgs, lex_backend_async, parseLoop, dispatch, parseDeviceAllocatorBackend,
      consumeToken, hl]

theorem backend_guard_compares_reset_value_witness :
    (parseArgs refExt { defaultSettings with
        is_allocator_loaded := true, use_async_allocator := true }
        (some "backend:native")).ok ∧
      (parseArgs refExt { defaultSettings with
        is_allocator_loaded := true, use_async_allocator := true }
        (some "backend:async")).error = some (.backendMismatch true false) :=
  have h := backend_guard_compares_reset_value refExt
    { defaultSettings with is_allocator_loaded := true, use_async_allocator := true } rfl rfl
  ⟨h.2.1, h.2.2.2⟩

/-! ## Powers of two and the leading-zero count -/

theorem testBit_of_range (x k : Nat) (h1 : 2 ^ k ≤ x) (h2 : x < 2 ^ (k + 1)) :
    x.testBit k = true := by
  obtain ⟨y, rfl⟩ := Nat.exists_eq_add_of_le h1
  have hy : y < 2 ^ k := by rw [Nat.pow_succ] at h2; omega
  rw [Nat.testBit_two_pow_add_eq, Nat.testBit_lt_two_pow hy]
  rfl

theorem isPowerOf2_64_iff (v : Nat) : isPowerOf2_64 v = true ↔ ∃ k, v = 2 ^ k := by
  constructor
  · intro h
    simp only [isPowerOf2_64, Bool.and_eq_true, bne_iff_ne, ne_eq, beq_iff_eq] at h
    obtain ⟨hv, hand⟩ := h
    refine ⟨Nat.log 2 v, ?_⟩
    have h1 : 2 ^ Nat.log 2 v ≤ v := Nat.pow_log_le_self 2 hv
    have h2 : v < 2 ^ (Nat.log 2 v + 1) := Nat.lt_pow_succ_log_self (by decide) v
    by_contra hne
    have h3 : 2 ^ Nat.log 2 v ≤ v - 1 := by omega
    have h4 : v - 1 < 2 ^ (Nat.log 2 v + 1) := by omega
    have hb : (v &&& (v - 1)).testBit (Nat.log 2 v) = true := by
      rw [Nat.testBit_and, testBit_of_range _ _ h1 h2, testBit_of_range _ _ h3 h4]
      rfl
    rw [hand] at hb
    simp at hb
  · rintro ⟨k, rfl⟩
    have hpos : 2 ^ k ≠ 0 := by positivity
    simp [isPowerOf2_64, hpos, Nat.and_pow_two_sub_one_eq_mod]

theorem clzFrom_of_range (v k n : Nat) (h1 : 2 ^ k ≤ v) (h2 : v < 2 ^ (k + 1)) (hk : k < n) :
    clzFrom v n = 63 - k := by
  induction n with
  | zero => omega
  | succ n ih =>
    unfold clzFrom
    by_cases hkn : k = n
    · subst hkn
      simp [testBit_of_range _ _ h1 h2]
    · have hlt : k < n := by omega
      have hv : v < 2 ^ n :=
        lt_of_lt_of_le h2 (Nat.pow_le_pow_right (by decide) (by omega))
      simp [Nat.testBit_lt_two_pow hv, ih hlt]

theorem log2Floor_of_range (v k : Nat) (h1 : 2 ^ k ≤ v) (h2 : v < 2 ^ (k + 1)) (hk : k < 64) :
    log2Floor v = k := by
  unfold log2Floor countLeadingZeros
  rw [clzFrom_of_range v k 64 h1 h2 hk]
  omega

theorem log2Floor_two_pow (k : Nat) (hk : k < 64) : log2Floor (2 ^ k) = k :=
  log2Floor_of_range _ k (le_refl _) (Nat.pow_lt_pow_right (by decide) (by omega)) hk

/-! ## The table operations -/

@[simp] theorem length_fill (t : List Nat) (lo hi v : Nat) : (fill t lo hi v).length = t.length := by
  simp [fill]

theorem getElem?_fill (t : List Nat) (lo hi v j : Nat) :
    (fill t lo hi v)[j]? =
      if j < t.length then some (if lo ≤ j ∧ j < hi then v else t.getD j 0) else none := by
  unfold fill
  by_cases h : j < t.length
  · simp [h, List.getElem?_map, List.getElem?_range h]
  · simp [h, List.getElem?_map]
    omega

theorem getElem_fill (t : List Nat) (lo hi v i : Nat) (h : i < (fill t lo hi v).length) :
    (fill t lo hi v)[i] = if lo ≤ i ∧ i < hi then v else t.getD i 0 := by
  simp [fill]

theorem fill_all (t : List Nat) (v : Nat) : fill t 0 t.length v = List.replicate t.length v := by
  apply List.ext_getElem?
  intro j
  rw [getElem?_fill]
  by_cases h : j < t.length
  · simp [h, List.getElem?_replicate]
  · simp [h, List.getElem?_replicate]

theorem toSizeT_natCast (n : Nat) (h : n < 2 ^ 64) : toSizeT (n : Int) = n := by
  rw [toSizeT_nonneg _ (Int.ofNat_nonneg n) (by omega)]
  simp

theorem isWord_ne_delim (t d : String) (h : isWord t = true) (hd : isDelimToken d = true) :
    t ≠ d := by
  rintro rfl
  rw [isWord_not_delim t h] at hd
  exact Bool.false_ne_true hd

/-- C6. For every `v ≤ 2^30` written in decimal, the scalar form
`roundup_power2_divisions:v` is accepted and sets all 16 entries to `v` when `v` is a
power of two, and throws when it is not (in particular for `v = 0`). -/
theorem parseArgs_roundup_scalar (ext : Ext) (s : Settings) (v : Nat) (hv : v ≤ 2 ^ 30) :
    let r := parseArgs ext s (some ("roundup_power2_divisions:" ++ toString v))
    ((∃ k, v = 2 ^ k) →
      r.ok ∧ r.settings.roundup_power2_divisions = List.replicate 16 v) ∧
    ((¬ ∃ k, v = 2 ^ k) → r.threw) := by
  intro r
  have e1 : ("roundup_power2_divisions:" : String) = "roundup_power2_divisions" ++ ":" := by
    decide
  have hk1 : isWord "roundup_power2_divisions" = true := by decide
  have hw := isWord_toString_nat v
  have hne : toString v ≠ "[" := isWord_ne_delim _ _ hw (by decide)
  have hr : r = _ := (congrArg (fun k => parseArgs ext s (some (k ++ toString v))) e1).trans
    (parseArgs_key_value ext s _ _ hk1 hw)
  have hst : stoi (toString v) = .ok (v : Int) := by
    rw [stoi_toString_nat]
    have : v ≤ 2147483647 := by omega
    simp [this]
  have hsz : toSizeT (v : Int) = v := toSizeT_natCast v (by omega)
  rw [hr]
  constructor
  · intro hp
    have hp2 := (isPowerOf2_64_iff v).mpr hp
    have hfill := fill_all (List.replicate 16 0) v
    simp only [List.length_replicate] at hfill
    simp [parseLoop, dispatch, parseRoundUpPower2Divisions, consumeToken, hne, hst, hsz, hp2,
      Result.ok]
    simpa using hfill
  · intro hp
    have hp2 : isPowerOf2_64 v = false := by
      rw [← Bool.not_eq_true, isPowerOf2_64_iff]; exact hp
    simp [parseLoop, dispatch, parseRoundUpPower2Divisions, consumeToken, hne, hst, hsz, hp2,
      Result.threw, Err.isException]

theorem parseArgs_roundup_scalar_witness :
    (128 : Nat) ≤ 2 ^ 30 ∧
      Settings.roundup_power2_divisions (parseArgs refExt defaultSettings
        (some ("roundup_power2_divisions:" ++ toString (128 : Nat)))).settings
        = List.replicate 16 128 :=
  ⟨by decide, ((parseArgs_roundup_scalar refExt defaultSettings 128 (by decide)).1 ⟨7, rfl⟩).2⟩

theorem not_pow2_of_between (x : Nat) (h1 : 2 ^ 63 < x) (h2 : x < 2 ^ 64) :
    isPowerOf2_64 x = false := by
  rw [← Bool.not_eq_true, isPowerOf2_64_iff]
  rintro ⟨k, rfl⟩
  by_cases hk : k ≤ 63
  · exact absurd (Nat.pow_le_pow_right (by decide : 0 < 2) hk) (by omega)
  · exact absurd (Nat.pow_le_pow_right (by decide : 0 < 2) (by omega : 64 ≤ k)) (by omega)

theorem toSizeT_neg (v : Int) (h1 : -(2 : Int) ^ 31 ≤ v) (h2 : v < 0) :
    2 ^ 63 < toSizeT v ∧ toSizeT v < 2 ^ 64 := by
  unfold toSizeT
  have : v % 2 ^ 64 = v + 2 ^ 64 := by omega
  rw [this]
  omega

theorem pow2_le_128 (n : Nat) :
    ((∃ k, n = 2 ^ k) ∧ n ≤ 128) ↔ n ∈ [1, 2, 4, 8, 16, 32, 64, 128] := by
  constructor
  · rintro ⟨⟨k, rfl⟩, hle⟩
    have hk : k < 8 := by
      by_contra hk
      exact absurd (Nat.pow_le_pow_right (by decide : 0 < 2) (by omega : 8 ≤ k)) (by omega)
    interval_cases k <;> simp
  · intro h
    simp only [List.mem_cons, List.mem_singleton, List.not_mem_nil, or_false] at h
    rcases h with rfl | rfl | rfl | rfl | rfl | rfl | rfl | rfl
    · exact ⟨⟨0, rfl⟩, by decide⟩
    · exact ⟨⟨1, rfl⟩, by decide⟩
    · exact ⟨⟨2, rfl⟩, by decide⟩
    · exact ⟨⟨3, rfl⟩, by decide⟩
    · exact ⟨⟨4, rfl⟩, by decide⟩
    · exact ⟨⟨5, rfl⟩, by decide⟩
    · exact ⟨⟨6, rfl⟩, by decide⟩
    · exact ⟨⟨7, rfl⟩, by decide⟩

/-- C7. For every `v` in the range of a 32-bit `int` written in decimal,
`pinned_num_register_threads:v` is accepted exactly when `v` is one of
1, 2, 4, 8, 16, 32, 64, 128 (a power of two, at most 128); when accepted the field
equals `v`, otherwise the call throws and the field keeps its value. -/
theorem parseArgs_pinned_num_register_threads (ext : Ext) (s : Settings) (v : Int)
    (hlo : -(2 : Int) ^ 31 ≤ v) (hhi : v ≤ 2 ^ 31 - 1) :
    let r := parseArgs ext s (some ("pinned_num_register_threads:" ++ toString v))
    (r.ok ↔ (0 ≤ v ∧ v.toNat ∈ [1, 2, 4, 8, 16, 32, 64, 128])) ∧
    (r.ok ↔ (0 ≤ v ∧ (∃ k, v.toNat = 2 ^ k) ∧ v ≤ 128)) ∧
    (r.ok → (r.settings.pinned_num_register_threads : Int) = v) ∧
    (¬ r.ok → r.threw ∧
      r.settings.pinned_num_register_threads = s.pinned_num_register_threads) := by
  intro r
  have e1 : ("pinned_num_register_threads:" : String) = "pinned_num_register_threads" ++ ":" := by
    decide
  have hk1 : isWord "pinned_num_register_threads" = true := by decide
  have hw := isWord_toString_int v
  have hr : r = _ := (congrArg (fun k => parseArgs ext s (some (k ++ toString v))) e1).trans
    (parseArgs_key_value ext s _ _ hk1 hw)
  have hst : stoi (toString v) = .ok v := by
    rw [stoi_toString_int]
    have h1 : (-2147483648 : Int) ≤ v := by omega
    have h2 : v ≤ 2147483647 := by omega
    simp [h1, h2]
  have key : (r.ok ↔ (0 ≤ v ∧ (∃ k, v.toNat = 2 ^ k) ∧ v ≤ 128)) ∧
      (r.ok → (r.settings.pinned_num_register_threads : Int) = v) ∧
      (¬ r.ok → r.threw ∧
        r.settings.pinned_num_register_threads = s.pinned_num_register_threads) := by
    rw [hr]
    by_cases h0 : 0 ≤ v
    · have hsz : toSizeT v = v.toNat := toSizeT_nonneg v h0 (by omega)
      by_cases hp : ∃ k, v.toNat = 2 ^ k
      · have hp2 := (isPowerOf2_64_iff _).mpr hp
        by_cases hle : v ≤ 128
        · have hle2 : v.toNat ≤ 128 := by omega
          simp [parseLoop, dispatch, parsePinnedNumRegisterThreads, consumeToken, hst, hsz, hp2,
            pinned_max_register_threads, kPinnedMaxRegisterThreads, hle2, Result.ok, h0, hp, hle]
        · have hle2 : ¬ v.toNat ≤ 128 := by omega
          simp [parseLoop, dispatch, parsePinnedNumRegisterThreads, consumeToken, hst, hsz, hp2,
            pinned_max_register_threads, kPinnedMaxRegisterThreads, hle2, Result.ok, hle,
            Result.threw, Err.isException]
      · have hp2 : isPowerOf2_64 v.toNat = false := by
          rw [← Bool.not_eq_true, isPowerOf2_64_iff]; exact hp
        simp [parseLoop, dispatch, parsePinnedNumRegisterThreads, consumeToken, hst, hsz, hp2,
          Result.ok, hp, Result.threw, Err.isException]
    · have hb := toSizeT_neg v hlo (by omega)
      have hp2 := not_pow2_of_between _ hb.1 hb.2
      simp [parseLoop, dispatch, parsePinnedNumRegisterThreads, consumeToken, hst, hp2,
        Result.ok, h0, Result.threw, Err.isException]
  refine ⟨?_, key.1, key.2.1, key.2.2⟩
  rw [key.1, ← pow2_le_128]
  constructor
  · rintro ⟨h0, hp, hle⟩
    exact ⟨h0, hp, by omega⟩
  · rintro ⟨h0, hp, hle⟩
    exact ⟨h0, hp, by omega⟩

theorem parseArgs_pinned_num_register_threads_witness :
    (parseArgs refExt defaultSettings (some ("pinned_num_register_threads:" ++
        toString (64 : Int)))).ok ∧
      ¬ (parseArgs refExt defaultSettings (some ("pinned_num_register_threads:" ++
        toString (7 : Int)))).ok ∧
      ¬ (parseArgs refExt defaultSettings (some ("pinned_num_register_threads:" ++
        toString (256 : Int)))).ok :=
  ⟨(parseArgs_pinned_num_register_threads refExt defaultSettings 64
      (by decide) (by decide)).1.mpr (by decide),
    fun h => absurd ((parseArgs_pinned_num_register_threads refExt defaultSettings 7
      (by decide) (by decide)).1.mp h) (by decide),
    fun h => absurd ((parseArgs_pinned_num_register_threads refExt defaultSettings 256
      (by decide) (by decide)).1.mp h) (by decide)⟩

/-! ## The bucket table builder -/

theorem bucketIndex_two_pow (j : Nat) (hj : j < 64) : bucketIndex (2 ^ j) 16 = min j 15 := by
  unfold bucketIndex clamp
  rw [log2Floor_two_pow j hj]
  have : (16 + 2 ^ 64 - 1) % 2 ^ 64 = 15 := by decide
  rw [this]
  by_cases h : 15 < j
  · simp [h]; omega
  · simp [h]; omega

theorem stoul_ne_gt (val1 : String) (n : Nat) (h : stoul val1 = .ok n) : val1 ≠ ">" := by
  rintro rfl
  have e : stoul ">" = .error .invalidArgument := by decide
  rw [e] at h
  cases h

/-- The effect of a list element whose key reads as `2^j` on a 16-entry table. -/
theorem roundupElement_two_pow (val1 : String) (val2 : Nat) (st : ListState) (j : Nat)
    (hj : j < 64) (hlen : st.table.length = 16) (hk : stoul val1 = .ok (2 ^ j)) :
    ∃ st1, roundupElement val1 val2 st = .ok st1 ∧
      bucketIndex (2 ^ j) st.table.length = min j 15 ∧
      st1.last_index = min j 15 ∧ st1.first_value = false ∧
      st1.table.length = 16 ∧
      st1.table[min j 15]? = some val2 ∧
      (∀ i, i < min j 15 →
        st1.table[i]? = if st.first_value then some val2 else st.table[i]?) ∧
      (∀ i, min j 15 < i → st1.table[i]? = st.table[i]?) := by
  have hgt := stoul_ne_gt val1 _ hk
  have hp : isPowerOf2_64 (2 ^ j) = true := (isPowerOf2_64_iff _).mpr ⟨j, rfl⟩
  have hb := bucketIndex_two_pow j hj
  have hm : min j 15 < 16 := by omega
  obtain ⟨fv, li, t⟩ := st
  simp only at hlen
  simp only [roundupElement, hgt, if_false, hk, hp, if_true, hlen, hb]
  refine ⟨_, rfl, trivial, rfl, ?_, ?_, ?_, ?_, ?_⟩
  · cases fv <;> simp
  · cases fv <;> simp [hlen]
  · cases fv <;> simp [List.getElem?_set, hlen, hm]
  · intro i hi
    have hne : ¬ min j 15 = i := by omega
    have hi16 : i < 16 := by omega
    cases fv
    · simp [List.getElem?_set, hne]
    · simp [List.getElem?_set, hne, getElem?_fill, hlen, hi16, hi, getElem_fill]
  · intro i hi
    have hne : ¬ min j 15 = i := by omega
    have hni : ¬ i < min j 15 := by omega
    cases fv
    · simp [List.getElem?_set, hne]
    · simp only [List.getElem?_set, hne, if_false, getElem?_fill, hlen, ↓reduceIte]
      by_cases hi16 : i < 16
      · have hget : t.getD i 0 = t[i] := by
          simp [List.getD_eq_getElem?_getD, List.getElem?_eq_getElem (hlen ▸ hi16)]
        simp [hi16, hni, hget, List.getElem?_eq_getElem (hlen ▸ hi16)]
      · simp [hi16, List.getElem?_eq_none (by omega : t.length ≤ i)]

/-- C5 (amended). For a list element `K : V` whose key reads as the power of two
`2^j` (`j < 64`), on the 16-entry table: the element is accepted, the bucket index is
`floor(log2 K) = j` clamped into `[0, 15]` (nothing is subtracted), `V` is written
there, the entries below it are filled with `V` exactly when this is the first explicit
entry, and the entries above it are left as they were. -/
theorem roundupElement_bucket (val1 : String) (val2 : Nat) (st : ListState) (j : Nat)
    (hj : j < 64) (hlen : st.table.length = 16) (hk : stoul val1 = .ok (2 ^ j)) :
    ∃ st1, roundupElement val1 val2 st = .ok st1 ∧
      bucketIndex (2 ^ j) st.table.length = min j 15 ∧
      log2Floor (2 ^ j) = j ∧
      st1.last_index = min j 15 ∧ st1.first_value = false ∧
      st1.table.length = 16 ∧
      st1.table[min j 15]? = some val2 ∧
      (∀ i, i < min j 15 →
        st1.table[i]? = if st.first_value then some val2 else st.table[i]?) ∧
      (∀ i, min j 15 < i → st1.table[i]? = st.table[i]?) := by
  obtain ⟨st1, h1, h2, h3, h4, h5, h6, h7, h8⟩ := roundupElement_two_pow val1 val2 st j hj hlen hk
  exact ⟨st1, h1, h2, log2Floor_two_pow j hj, h3, h4, h5, h6, h7, h8⟩

theorem roundupElement_bucket_witness :
    ∃ st1, roundupElement "256" 8 ⟨true, 0, List.replicate 16 0⟩ = .ok st1 ∧
      st1.last_index = 8 ∧ st1.table[8]? = some 8 := by
  obtain ⟨st1, h1, _, _, h3, _, _, h6, _⟩ :=
    roundupElement_bucket "256" 8 ⟨true, 0, List.replicate 16 0⟩ 8 (by decide) (by decide)
      (by decide)
  exact ⟨st1, h1, h3, h6⟩

/-- C5 (as stated) fails: for the key `256` the code computes bucket 8, where
`floor(log2 256) - 20` clamped into `[0, 15]` is 0, and the value of the element
`256:8` lands in entry 8 of the table. -/
theorem bucket_index_counterexample :
    bucketIndex 256 16 = 8 ∧ specBucketIndex 256 = 0 ∧
      Settings.roundup_power2_divisions
        (parseArgs refExt defaultSettings (some "roundup_power2_divisions:[256:8]")).settings
        = [8, 8, 8, 8, 8, 8, 8, 8, 8, 0, 0, 0, 0, 0, 0, 0] := by
  decide

theorem roundupListLoop_close (config : List String) (fuel i : Nat) (fv : Bool) (li : Nat)
    (s : Settings) (h : config[i + 1]? = some "]") :
    roundupListLoop config (fuel + 1) i fv li s = .ok (i + 1) s := by
  simp [roundupListLoop, h]

theorem roundupListLoop_end (config : List String) (fuel i : Nat) (fv : Bool) (li : Nat)
    (s : Settings) (h : config[i + 1]? = none) :
    roundupListLoop config (fuel + 1) i fv li s = .ok (i + 1) s := by
  simp [roundupListLoop, h]

theorem parseRoundUpPower2Divisions_list (config : List String) (i : Nat) (s : Settings)
    (h1 : config[i + 1]? = some ":") (h2 : config[i + 1 + 1]? = some "[") :
    parseRoundUpPower2Divisions config i s =
      roundupListLoop config config.length (i + 1 + 1) true 0 s := by
  simp [parseRoundUpPower2Divisions, consumeToken, h1, h2]

/-- One element followed by `,`: the loop goes on after the separator. -/
theorem roundupListLoop_comma (config : List String) (fuel i : Nat) (fv : Bool) (li : Nat)
    (s : Settings) (val1 tok : String) (v : Int) (st : ListState)
    (h1 : config[i + 1]? = some val1) (hne : val1 ≠ "]")
    (h2 : config[i + 1 + 1]? = some ":") (h3 : config[i + 1 + 1 + 1]? = some tok)
    (h4 : stoi tok = .ok v) (h5 : toSizeT v = 0 ∨ isPowerOf2_64 (toSizeT v) = true)
    (h6 : roundupElement val1 (toSizeT v) ⟨fv, li, s.roundup_power2_divisions⟩ = .ok st)
    (h7 : config[i + 1 + 1 + 1 + 1]? = some ",") :
    roundupListLoop config (fuel + 1) i fv li s =
      roundupListLoop config fuel (i + 1 + 1 + 1 + 1) st.first_value st.last_index
        { s with roundup_power2_divisions := st.table } := by
  simp [roundupListLoop, h1, hne, consumeToken, h2, h3, h4, h5, h6, h7]

/-- One element followed by `]`: the loop is entered once more, on the `]`. -/
theorem roundupListLoop_last (config : List String) (fuel i : Nat) (fv : Bool) (li : Nat)
    (s : Settings) (val1 tok : String) (v : Int) (st : ListState)
    (h1 : config[i + 1]? = some val1) (hne : val1 ≠ "]")
    (h2 : config[i + 1 + 1]? = some ":") (h3 : config[i + 1 + 1 + 1]? = some tok)
    (h4 : stoi tok = .ok v) (h5 : toSizeT v = 0 ∨ isPowerOf2_64 (toSizeT v) = true)
    (h6 : roundupElement val1 (toSizeT v) ⟨fv, li, s.roundup_power2_divisions⟩ = .ok st)
    (h7 : config[i + 1 + 1 + 1 + 1]? = some "]") :
    roundupListLoop config (fuel + 1 + 1) i fv li s =
      .ok (i + 1 + 1 + 1 + 1) { s with roundup_power2_divisions := st.table } := by
  have hstep : roundupListLoop config (fuel + 1 + 1) i fv li s =
      roundupListLoop config (fuel + 1) (i + 1 + 1 + 1) st.first_value st.last_index
        { s with roundup_power2_divisions := st.table } := by
    simp [roundupListLoop, h1, hne, consumeToken, h2, h3, h4, h5, h6, h7]
  rw [hstep, roundupListLoop_close _ _ _ _ _ _ h7]

theorem toString_nat_ne_close (n : Nat) : toString n ≠ "]" :=
  isWord_ne_delim _ _ (isWord_toString_nat n) (by decide)

theorem stoi_division (V : Nat) (hV : V = 0 ∨ ∃ k, V = 2 ^ k) (hb : V ≤ 2 ^ 30) :
    stoi (toString V) = .ok (V : Int) ∧ toSizeT (V : Int) = V ∧
      (toSizeT (V : Int) = 0 ∨ isPowerOf2_64 (toSizeT (V : Int)) = true) := by
  have hsz : toSizeT (V : Int) = V := toSizeT_natCast V (by omega)
  refine ⟨?_, hsz, ?_⟩
  · rw [stoi_toString_nat]
    have : V ≤ 2147483647 := by omega
    simp [this]
  · rw [hsz]
    rcases hV with h | h
    · exact Or.inl h
    · exact Or.inr ((isPowerOf2_64_iff V).mpr h)

theorem roundupElement_gt (val2 : Nat) (st : ListState) :
    roundupElement ">" val2 st =
      .ok { st with table := fill st.table (st.last_index + 1) st.table.length val2 } := by
  simp [roundupElement]

/-- The tokens of the three-element list of C4. -/
theorem lexArgs_three_elements (k1 v1 k2 v2 v3 : String) (hk1 : isWord k1 = true)
    (hv1 : isWord v1 = true) (hk2 : isWord k2 = true) (hv2 : isWord v2 = true)
    (hv3 : isWord v3 = true) :
    lexArgs ("roundup_power2_divisions:[" ++ k1 ++ ":" ++ v1 ++ "," ++ k2 ++ ":" ++ v2 ++
        ",>:" ++ v3 ++ "]") [] =
      ["roundup_power2_divisions", ":", "[", k1, ":", v1, ",", k2, ":", v2, ",", ">", ":",
        v3, "]"] := by
  have hl : lexed ["roundup_power2_divisions", ":", "[", k1, ":", v1, ",", k2, ":", v2, ",",
      ">", ":", v3, "]"] = true := by
    have c1 : isDelimToken ":" = true := by decide
    have c2 : isDelimToken "[" = true := by decide
    have c3 : isDelimToken "," = true := by decide
    have c4 : isDelimToken "]" = true := by decide
    have c5 : isDelimToken ">" = false := by decide
    have c6 : isWord ">" = true := by decide
    have c7 : isDelimToken "roundup_power2_divisions" = false := by decide
    have c8 : isWord "roundup_power2_divisions" = true := by decide
    simp [lexed, c1, c2, c3, c4, c5, c6, c7, c8, isWord_not_delim, hk1, hv1, hk2, hv2, hv3]
  have e : "roundup_power2_divisions:[" ++ k1 ++ ":" ++ v1 ++ "," ++ k2 ++ ":" ++ v2 ++
      ",>:" ++ v3 ++ "]" = String.mk (render ["roundup_power2_divisions", ":", "[", k1, ":",
        v1, ",", k2, ":", v2, ",", ">", ":", v3, "]"]) := by
    have e1 : ("roundup_power2_divisions:[" : String) = "roundup_power2_divisions" ++ ":" ++ "[" := by
      decide
    have e2 : (",>:" : String) = "," ++ ">" ++ ":" := by decide
    rw [e1, e2]
    apply String.ext
    simp [render, String.data_append]
  rw [e, lexArgs_render _ hl]

set_option maxRecDepth 4000

/-- C4. For interval keys `2^j1`, `2^j2` (representable in `size_t`) whose bucket
indices `a < b` are those the builder computes, and values `V1 V2 V3` that are 0 or
a power of two, at most `2^30`: `roundup_power2_divisions:[K1:V1,K2:V2,>:V3]` is
accepted and leaves a 16-entry table with `V1` in entries `0..a`, 0 strictly between
`a` and `b`, `V2` in entry `b` and `V3` in entries `b+1..15`. -/
theorem parseArgs_roundup_list (ext : Ext) (s : Settings) (j1 j2 V1 V2 V3 : Nat)
    (hj1 : j1 < 64) (hj2 : j2 < 64)
    (hab : bucketIndex (2 ^ j1) 16 < bucketIndex (2 ^ j2) 16)
    (hV1 : V1 = 0 ∨ ∃ k, V1 = 2 ^ k) (hb1 : V1 ≤ 2 ^ 30)
    (hV2 : V2 = 0 ∨ ∃ k, V2 = 2 ^ k) (hb2 : V2 ≤ 2 ^ 30)
    (hV3 : V3 = 0 ∨ ∃ k, V3 = 2 ^ k) (hb3 : V3 ≤ 2 ^ 30) :
    let r := parseArgs ext s (some ("roundup_power2_divisions:[" ++ toString (2 ^ j1) ++ ":" ++
      toString V1 ++ "," ++ toString (2 ^ j2) ++ ":" ++ toString V2 ++ ",>:" ++
      toString V3 ++ "]"))
    let a := bucketIndex (2 ^ j1) 16
    let b := bucketIndex (2 ^ j2) 16
    r.ok ∧ r.settings.roundup_power2_divisions.length = 16 ∧
      ∀ i, i < 16 → r.settings.roundup_power2_divisions[i]? =
        some (if i ≤ a then V1 else if i < b then 0 else if i = b then V2 else V3) := by
  intro r a b
  have ha : a = min j1 15 := bucketIndex_two_pow j1 hj1
  have hb : b = min j2 15 := bucketIndex_two_pow j2 hj2
  have hab2 : min j1 15 < min j2 15 := by rw [← ha, ← hb]; exact hab
  obtain ⟨s1, z1, p1⟩ := stoi_division V1 hV1 hb1
  obtain ⟨s2, z2, p2⟩ := stoi_division V2 hV2 hb2
  obtain ⟨s3, z3, p3⟩ := stoi_division V3 hV3 hb3
  have hK1 : stoul (toString (2 ^ j1)) = .ok (2 ^ j1) :=
    stoul_toString_nat _ (Nat.pow_lt_pow_right (by decide) hj1)
  have hK2 : stoul (toString (2 ^ j2)) = .ok (2 ^ j2) :=
    stoul_toString_nat _ (Nat.pow_lt_pow_right (by decide) hj2)
  -- the three elements, one after the other
  obtain ⟨st1, e1, -, l1, f1, n1, x1, lo1, hi1⟩ :=
    roundupElement_two_pow (toString (2 ^ j1)) (toSizeT (V1 : Int))
      ⟨true, 0, List.replicate 16 0⟩ j1 hj1 (by simp) hK1
  obtain ⟨st2, e2, -, l2, -, n2, x2, lo2, hi2⟩ :=
    roundupElement_two_pow (toString (2 ^ j2)) (toSizeT (V2 : Int))
      ⟨st1.first_value, st1.last_index, st1.table⟩ j2 hj2 n1 hK2
  have e3 := roundupElement_gt (toSizeT (V3 : Int)) ⟨st2.first_value, st2.last_index, st2.table⟩
  -- the run of the parser
  obtain ⟨cfg, hcfg⟩ : ∃ cfg : List String, cfg = ["roundup_power2_divisions", ":", "[",
      toString (2 ^ j1), ":", toString V1, ",", toString (2 ^ j2), ":", toString V2, ",", ">",
      ":", toString V3, "]"] := ⟨_, rfl⟩
  have g0 : cfg[0]? = some "roundup_power2_divisions" := by rw [hcfg]; rfl
  have g1 : cfg[0 + 1]? = some ":" := by rw [hcfg]; rfl
  have g2 : cfg[0 + 1 + 1]? = some "[" := by rw [hcfg]; rfl
  have g3 : cfg[0 + 1 + 1 + 1]? = some (toString (2 ^ j1)) := by rw [hcfg]; rfl
  have g4 : cfg[0 + 1 + 1 + 1 + 1]? = some ":" := by rw [hcfg]; rfl
  have g5 : cfg[0 + 1 + 1 + 1 + 1 + 1]? = some (toString V1) := by rw [hcfg]; rfl
  have g6 : cfg[0 + 1 + 1 + 1 + 1 + 1 + 1]? = some "," := by rw [hcfg]; rfl
  have g7 : cfg[0 + 1 + 1 + 1 + 1 + 1 + 1 + 1]? = some (toString (2 ^ j2)) := by
    rw [hcfg]; rfl
  have g8 : cfg[0 + 1 + 1 + 1 + 1 + 1 + 1 + 1 + 1]? = some ":" := by rw [hcfg]; rfl
  have g9 : cfg[0 + 1 + 1 + 1 + 1 + 1 + 1 + 1 + 1 + 1]? = some (toString V2) := by
    rw [hcfg]; rfl
  have g10 : cfg[0 + 1 + 1 + 1 + 1 + 1 + 1 + 1 + 1 + 1 + 1]? = some "," := by rw [hcfg]; rfl
  have g11 : cfg[0 + 1 + 1 + 1 + 1 + 1 + 1 + 1 + 1 + 1 + 1 + 1]? = some ">" := by
    rw [hcfg]; rfl
  have g12 : cfg[0 + 1 + 1 + 1 + 1 + 1 + 1 + 1 + 1 + 1 + 1 + 1 + 1]? = some ":" := by
    rw [hcfg]; rfl
  have g13 : cfg[0 + 1 + 1 + 1 + 1 + 1 + 1 + 1 + 1 + 1 + 1 + 1 + 1 + 1]? = some (toString V3) := by
    rw [hcfg]; rfl
  have g14 : cfg[0 + 1 + 1 + 1 + 1 + 1 + 1 + 1 + 1 + 1 + 1 + 1 + 1 + 1 + 1]? = some "]" := by
    rw [hcfg]; rfl
  have glen : cfg.length = 12 + 1 + 1 + 1 := by rw [hcfg]; rfl
  have hl : ∀ s0 : Settings, s0.roundup_power2_divisions = List.replicate 16 0 →
      parseRoundUpPower2Divisions cfg 0 s0 =
        .ok (0 + 1 + 1 + 1 + 1 + 1 + 1 + 1 + 1 + 1 + 1 + 1 + 1 + 1 + 1) { s0 with
          roundup_power2_divisions :=
            fill st2.table (st2.last_index + 1) st2.table.length (toSizeT (V3 : Int)) } := by
    intro s0 h0
    rw [← h0] at e1
    simp only [parseRoundUpPower2Divisions, consumeToken, g1, g2, singleton_colon, if_true, glen]
    rw [roundupListLoop_comma cfg _ (0 + 1 + 1) true 0 _ (toString (2 ^ j1)) (toString V1) V1 st1
        g3 (toString_nat_ne_close _) g4 g5 s1 p1 e1 g6,
      roundupListLoop_comma cfg _ (0 + 1 + 1 + 1 + 1 + 1 + 1) st1.first_value st1.last_index
        { s0 with roundup_power2_divisions := st1.table } (toString (2 ^ j2))
        (toString V2) V2 st2 g7 (toString_nat_ne_close _) g8 g9 s2 p2 e2 g10,
      roundupListLoop_last cfg _ (0 + 1 + 1 + 1 + 1 + 1 + 1 + 1 + 1 + 1 + 1) st2.first_value
        st2.last_index { s0 with roundup_power2_divisions := st2.table } ">"
        (toString V3) V3 _ g11 (by decide) g12 g13 s3 p3 e3 g14]
  have hr : r = parseLoop ext cfg (14 + 2) 0 false 0 (recordSettings (resetDefaults s)
        ("roundup_power2_divisions:[" ++ toString (2 ^ j1) ++ ":" ++ toString V1 ++ "," ++
          toString (2 ^ j2) ++ ":" ++ toString V2 ++ ",>:" ++ toString V3 ++ "]")) := by
    show parseArgs ext s _ = _
    unfold parseArgs
    simp only [lexArgs_three_elements _ _ _ _ _ (isWord_toString_nat _) (isWord_toString_nat _)
      (isWord_toString_nat _) (isWord_toString_nat _) (isWord_toString_nat _)]
    rw [hcfg]
    rfl
  rw [hr, parseLoop_last ext cfg 14 0 14 false 0 _ _ "roundup_power2_divisions" true g0
    (by
      simp only [dispatch, String.reduceEq, if_false, if_true]
      rw [hl _ rfl])
    (by rw [glen])]
  have t1 : ∀ i, i < 16 → st1.table[i]? = some (if i ≤ min j1 15 then V1 else 0) := by
    intro i hi
    rcases Nat.lt_trichotomy i (min j1 15) with h | h | h
    · rw [lo1 i h]; simp [z1, Nat.le_of_lt h]
    · rw [h, x1]; simp [z1]
    · rw [hi1 i h]
      show (List.replicate 16 0)[i]? = _
      rw [List.getElem?_replicate]
      simp [hi, Nat.not_le.mpr h]
  have t2 : ∀ i, i < 16 → st2.table[i]? =
      some (if i = min j2 15 then V2 else if i ≤ min j1 15 then V1 else 0) := by
    intro i hi
    rcases Nat.lt_trichotomy i (min j2 15) with h | h | h
    · rw [lo2 i h]; simp only [f1]; simp [t1 i hi, Nat.ne_of_lt h]
    · rw [h, x2]; simp [z2]
    · rw [hi2 i h]; simp [t1 i hi, Nat.ne_of_gt h]
  refine ⟨rfl, by simp [n2], ?_⟩
  intro i hi
  simp only [getElem?_fill, n2, hi, if_true, l2, z3, List.getD_eq_getElem?_getD, t2 i hi,
    Option.getD_some]
  rw [ha, hb]
  simp only [and_true]
  split_ifs <;> first | rfl | (exfalso; omega)

theorem parseArgs_roundup_list_witness :
    bucketIndex (2 ^ 8) 16 < bucketIndex (2 ^ 9) 16 ∧
      Result.ok (parseArgs refExt defaultSettings (some ("roundup_power2_divisions:[" ++
        toString (2 ^ 8) ++ ":" ++ toString 8 ++ "," ++ toString (2 ^ 9) ++ ":" ++ toString 16 ++
        ",>:" ++ toString 32 ++ "]"))) ∧
      Settings.roundup_power2_divisions (parseArgs refExt defaultSettings
        (some ("roundup_power2_divisions:[" ++
        toString (2 ^ 8) ++ ":" ++ toString 8 ++ "," ++ toString (2 ^ 9) ++ ":" ++ toString 16 ++
        ",>:" ++ toString 32 ++ "]"))).settings =
        [8, 8, 8, 8, 8, 8, 8, 8, 8, 16, 32, 32, 32, 32, 32, 32] := by
  have h := parseArgs_roundup_list refExt defaultSettings 8 9 8 16 32 (by decide) (by decide)
    (by decide) (Or.inr ⟨3, rfl⟩) (by decide) (Or.inr ⟨4, rfl⟩) (by decide) (Or.inr ⟨5, rfl⟩)
    (by decide)
  refine ⟨by decide, h.1, ?_⟩
  apply List.ext_getElem?
  intro i
  by_cases hi : i < 16
  · rw [h.2.2 i hi]
    interval_cases i <;> rfl
  · rw [List.getElem?_eq_none (by rw [h.2.1]; omega), List.getElem?_eq_none (by simp; omega)]

/-- C10 (code). An unterminated list is not rejected: the configuration that ends right
after `[`, and the one that ends after a `,` inside the list, are accepted (the second
one with the table written); the one that ends after an element reads `config[i + 1]`
one past the last token. -/
theorem unterminated_list_accepted (ext : Ext) (s : Settings) :
    (parseArgs ext s (some "roundup_power2_divisions:[")).ok ∧
    (parseArgs ext s (some "roundup_power2_divisions:[256:8,")).ok ∧
    (parseArgs ext s (some "roundup_power2_divisions:[256:8,")).settings.roundup_power2_divisions
      = [8, 8, 8, 8, 8, 8, 8, 8, 8, 0, 0, 0, 0, 0, 0, 0] ∧
    (parseArgs ext s (some "roundup_power2_divisions:[256:8")).error
      = some (.readPastEnd 6) := by
  have hlex : lexArgs "roundup_power2_divisions:[256:8," [] =
      ["roundup_power2_divisions", ":", "[", "256", ":", "8", ","] := by decide
  have h8 : stoi "8" = .ok 8 := by decide
  have hz : toSizeT 8 = 8 := by decide
  have he : roundupElement "256" 8 ⟨true, 0, List.replicate 16 0⟩ =
      .ok ⟨false, 8, [8, 8, 8, 8, 8, 8, 8, 8, 8, 0, 0, 0, 0, 0, 0, 0]⟩ := by decide
  refine ⟨rfl, rfl, ?_, rfl⟩
  simp only [parseArgs, hlex]
  show (parseLoop ext _ (6 + 2) 0 false 0 _).settings.roundup_power2_divisions = _
  rw [parseLoop_last ext _ 6 0 7 false 0 _
      { recordSettings (resetDefaults s) "roundup_power2_divisions:[256:8," with
        roundup_power2_divisions := [8, 8, 8, 8, 8, 8, 8, 8, 8, 0, 0, 0, 0, 0, 0, 0] }
      "roundup_power2_divisions" true rfl ?_ (by simp)]
  simp only [dispatch, String.reduceEq, if_false, if_true]
  refine congrArg (fun x => (x, true)) ?_
  rw [parseRoundUpPower2Divisions_list _ 0 _ rfl rfl]
  show roundupListLoop _ (5 + 1 + 1) (0 + 1 + 1) true 0 _ = _
  rw [roundupListLoop_comma _ _ (0 + 1 + 1) true 0
      (recordSettings (resetDefaults s) "roundup_power2_divisions:[256:8,") "256" "8" 8
      ⟨false, 8, [8, 8, 8, 8, 8, 8, 8, 8, 8, 0, 0, 0, 0, 0, 0, 0]⟩
      rfl (by decide) rfl rfl h8 (Or.inr (by decide)) (hz ▸ he) rfl,
    roundupListLoop_end _ _ _ _ _ _ rfl]

/-! ## Which fields a handler writes -/

theorem same_refl (f : Field) (s : Settings) : Settings.same f s s := by
  cases f <;> rfl

theorem same_trans (f : Field) (s t u : Settings) (h1 : Settings.same f s t)
    (h2 : Settings.same f t u) : Settings.same f s u := by
  cases f <;> exact Eq.trans h1 h2

theorem parseMaxSplitSize_frame (ext : Ext) (config : List String) (i : Nat) (s : Settings)
    (f : Field) (hf : f ≠ .max_split_size) :
    Settings.same f (parseMaxSplitSize ext config i s).settings s := by
  simp only [parseMaxSplitSize]
  repeat' split
  all_goals cases f <;> first | exact rfl | exact absurd rfl hf

theorem parseMaxNonSplitRoundingSize_frame (ext : Ext) (config : List String) (i : Nat)
    (s : Settings) (f : Field) (hf : f ≠ .max_non_split_rounding_size) :
    Settings.same f (parseMaxNonSplitRoundingSize ext config i s).settings s := by
  simp only [parseMaxNonSplitRoundingSize]
  repeat' split
  all_goals cases f <;> first | exact rfl | exact absurd rfl hf

theorem parseGarbageCollectionThreshold_frame (ext : Ext) (config : List String) (i : Nat)
    (s : Settings) (f : Field) (hf : f ≠ .garbage_collection_threshold) :
    Settings.same f (parseGarbageCollectionThreshold ext config i s).settings s := by
  simp only [parseGarbageCollectionThreshold]
  repeat' split
  all_goals cases f <;> first | exact rfl | exact absurd rfl hf

theorem parseDeviceAllocatorBackend_frame (config : List String) (i : Nat) (s : Settings)
    (f : Field) (hf : f ≠ .use_async_allocator) :
    Settings.same f (parseDeviceAllocatorBackend config i s).settings s := by
  simp only [parseDeviceAllocatorBackend]
  repeat' split
  all_goals cases f <;> first | exact rfl | exact absurd rfl hf

theorem parseExpandableSegments_frame (config : List String) (i : Nat) (s : Settings)
    (f : Field) (hf : f ≠ .use_expandable_segments) :
    Settings.same f (parseExpandableSegments config i s).settings s := by
  simp only [parseExpandableSegments]
  repeat' split
  all_goals cases f <;> first | exact rfl | exact absurd rfl hf

theorem parseReleaseLockOnDeviceMalloc_frame (config : List String) (i : Nat) (s : Settings)
    (f : Field) (hf : f ≠ .use_release_lock_on_device_malloc) :
    Settings.same f (parseReleaseLockOnDeviceMalloc config i s).settings s := by
  simp only [parseReleaseLockOnDeviceMalloc]
  repeat' split
  all_goals cases f <;> first | exact rfl | exact absurd rfl hf

theorem parsePinnedUseDeviceHostRegister_frame (config : List String) (i : Nat) (s : Settings)
    (f : Field) (hf : f ≠ .pinned_use_device_host_register) :
    Settings.same f (parsePinnedUseDeviceHostRegister config i s).settings s := by
  simp only [parsePinnedUseDeviceHostRegister]
  repeat' split
  all_goals cases f <;> first | exact rfl | exact absurd rfl hf

theorem parsePinnedNumRegisterThreads_frame (config : List String) (i : Nat) (s : Settings)
    (f : Field) (hf : f ≠ .pinned_num_register_threads) :
    Settings.same f (parsePinnedNumRegisterThreads config i s).settings s := by
  simp only [parsePinnedNumRegisterThreads]
  repeat' split
  all_goals cases f <;> first | exact rfl | exact absurd rfl hf

theorem parsePinnedUseBackgroundThreads_frame (config : List String) (i : Nat) (s : Settings)
    (f : Field) (hf : f ≠ .pinned_use_background_threads) :
    Settings.same f (parsePinnedUseBackgroundThreads config i s).settings s := by
  simp only [parsePinnedUseBackgroundThreads]
  repeat' split
  all_goals cases f <;> first | exact rfl | exact absurd rfl hf

theorem roundupListLoop_frame (config : List String) (fuel i : Nat) (fv : Bool) (li : Nat)
    (s : Settings) (f : Field) (hf : f ≠ .roundup_power2_divisions) :
    Settings.same f (roundupListLoop config fuel i fv li s).settings s := by
  induction fuel generalizing i fv li s with
  | zero => exact same_refl f s
  | succ fuel ih =>
    simp only [roundupListLoop]
    repeat' split
    all_goals first
      | exact same_refl f s
      | (refine same_trans f _ _ _ (ih _ _ _ _) ?_
         cases f <;> first | exact rfl | exact absurd rfl hf)
      | (cases f <;> first | exact rfl | exact absurd rfl hf)

theorem parseRoundUpPower2Divisions_frame (config : List String) (i : Nat) (s : Settings)
    (f : Field) (hf : f ≠ .roundup_power2_divisions) :
    Settings.same f (parseRoundUpPower2Divisions config i s).settings s := by
  simp only [parseRoundUpPower2Divisions]
  repeat' split
  all_goals first
    | exact roundupListLoop_frame _ _ _ _ _ _ f hf
    | (cases f <;> first | exact rfl | exact absurd rfl hf)

theorem dispatch_frame (ext : Ext) (config : List String) (i : Nat) (key : String) (u : Bool)
    (s : Settings) (f : Field) (hk : key ∉ f.keys) :
    Settings.same f (dispatch ext config i key u s).1.settings s := by
  unfold dispatch
  by_cases h1 : key = "max_split_size_mb"
  · rw [if_pos h1]
    exact parseMaxSplitSize_frame _ _ _ _ f (by rintro rfl; simp [Field.keys, h1] at hk)
  rw [if_neg h1]
  by_cases h2 : key = "max_non_split_rounding_mb"
  · rw [if_pos h2]
    exact parseMaxNonSplitRoundingSize_frame _ _ _ _ f
      (by rintro rfl; simp [Field.keys, h2] at hk)
  rw [if_neg h2]
  by_cases h3 : key = "garbage_collection_threshold"
  · rw [if_pos h3]
    exact parseGarbageCollectionThreshold_frame _ _ _ _ f
      (by rintro rfl; simp [Field.keys, h3] at hk)
  rw [if_neg h3]
  by_cases h4 : key = "roundup_power2_divisions"
  · rw [if_pos h4]
    exact parseRoundUpPower2Divisions_frame _ _ _ f
      (by rintro rfl; simp [Field.keys, h4] at hk)
  rw [if_neg h4]
  by_cases h5 : key = "backend"
  · rw [if_pos h5]
    exact parseDeviceAllocatorBackend_frame _ _ _ f
      (by rintro rfl; simp [Field.keys, h5] at hk)
  rw [if_neg h5]
  by_cases h6 : key = "expandable_segments"
  · rw [if_pos h6]
    exact parseExpandableSegments_frame _ _ _ f (by rintro rfl; simp [Field.keys, h6] at hk)
  rw [if_neg h6]
  by_cases h7 : key = "release_lock_on_device_malloc" ∨ key = "release_lock_on_cudamalloc" ∨
      key = "release_lock_on_hipmalloc"
  · rw [if_pos h7]
    exact parseReleaseLockOnDeviceMalloc_frame _ _ _ f (by
      rintro rfl
      simp only [Field.keys, List.mem_cons, List.mem_singleton, List.not_mem_nil, or_false] at hk
      exact hk h7)
  rw [if_neg h7]
  by_cases h8 : key = "pinned_use_device_host_register" ∨
      key = "pinned_use_cuda_host_register" ∨ key = "pinned_use_hip_host_register"
  · rw [if_pos h8]
    exact parsePinnedUseDeviceHostRegister_frame _ _ _ f (by
      rintro rfl
      simp only [Field.keys, List.mem_cons, List.mem_singleton, List.not_mem_nil, or_false] at hk
      exact hk h8)
  rw [if_neg h8]
  by_cases h9 : key = "pinned_num_register_threads"
  · rw [if_pos h9]
    exact parsePinnedNumRegisterThreads_frame _ _ _ f
      (by rintro rfl; simp [Field.keys, h9] at hk)
  rw [if_neg h9]
  by_cases h10 : key = "pinned_use_background_threads"
  · rw [if_pos h10]
    exact parsePinnedUseBackgroundThreads_frame _ _ _ f
      (by rintro rfl; simp [Field.keys, h10] at hk)
  rw [if_neg h10]
  exact same_refl f s

theorem parseLoop_frame (ext : Ext) (config : List String) (fuel i : Nat) (u : Bool) (w : Nat)
    (s : Settings) (f : Field) (h : ∀ t ∈ config, t ∉ f.keys) :
    Settings.same f (parseLoop ext config fuel i u w s).settings s := by
  induction fuel generalizing i u w s with
  | zero => exact same_refl f s
  | succ fuel ih =>
    unfold parseLoop
    split
    · exact same_refl f s
    · rename_i key hkey
      have hd := dispatch_frame ext config i key u s f (h key (List.getElem?_mem hkey))
      split
      · rename_i e s1 u1 heq
        rw [heq] at hd
        exact hd
      · rename_i j s1 u1 heq
        rw [heq] at hd
        simp only
        split
        · split
          · exact hd
          · exact same_trans f _ _ _ (ih _ _ _ _) hd
        · exact same_trans f _ _ _ (ih _ _ _ _) hd

/-- C1 (amended). After `parseArgs` on any string, from any settings: of the fields the
string does not mention, the four that the head of `parseArgs` resets (`max_split_size`,
`roundup_power2_divisions`, `garbage_collection_threshold`, `use_async_allocator`) hold
their default, and the six others keep the value they had before the call. -/
theorem parseArgs_unmentioned (ext : Ext) (s : Settings) (env : String) :
    let r := parseArgs ext s (some env)
    (¬ mentions env .max_split_size → r.settings.max_split_size = SIZE_MAX) ∧
    (¬ mentions env .roundup_power2_divisions →
      r.settings.roundup_power2_divisions = List.replicate 16 0) ∧
    (¬ mentions env .garbage_collection_threshold →
      r.settings.garbage_collection_threshold = 0) ∧
    (¬ mentions env .use_async_allocator → r.settings.use_async_allocator = false) ∧
    (¬ mentions env .max_non_split_rounding_size →
      r.settings.max_non_split_rounding_size = s.max_non_split_rounding_size) ∧
    (¬ mentions env .use_expandable_segments →
      r.settings.use_expandable_segments = s.use_expandable_segments) ∧
    (¬ mentions env .use_release_lock_on_device_malloc →
      r.settings.use_release_lock_on_device_malloc = s.use_release_lock_on_device_malloc) ∧
    (¬ mentions env .pinned_use_device_host_register →
      r.settings.pinned_use_device_host_register = s.pinned_use_device_host_register) ∧
    (¬ mentions env .pinned_num_register_threads →
      r.settings.pinned_num_register_threads = s.pinned_num_register_threads) ∧
    (¬ mentions env .pinned_use_background_threads →
      r.settings.pinned_use_background_threads = s.pinned_use_background_threads) := by
  intro r
  have key : ∀ f : Field, ¬ mentions env f →
      Settings.same f r.settings (recordSettings (resetDefaults s) env) := by
    intro f hf
    exact parseLoop_frame ext _ _ _ _ _ _ f (fun t ht hk => hf ⟨t, ht, hk⟩)
  exact ⟨fun h => key _ h, fun h => key _ h, fun h => key _ h, fun h => key _ h,
    fun h => key _ h, fun h => key _ h, fun h => key _ h, fun h => key _ h, fun h => key _ h,
    fun h => key _ h⟩

/-- C1 (as stated) fails: after `expandable_segments:True`, the re-parse of
`backend:native` succeeds and does not mention `expandable_segments`, and
`use_expandable_segments` is still true, not its default false. -/
theorem parseArgs_unmentioned_witness :
    (parseArgs refExt (parseArgs refExt defaultSettings
      (some "max_split_size_mb:64,pinned_num_register_threads:64")).settings
      (some "backend:async")).settings.max_split_size = SIZE_MAX ∧
    (parseArgs refExt (parseArgs refExt defaultSettings
      (some "max_split_size_mb:64,pinned_num_register_threads:64")).settings
      (some "backend:async")).settings.pinned_num_register_threads = 64 :=
  have h := parseArgs_unmentioned refExt (parseArgs refExt defaultSettings
    (some "max_split_size_mb:64,pinned_num_register_threads:64")).settings "backend:async"
  ⟨h.1 (by unfold mentions; decide),
    (h.2.2.2.2.2.2.2.2.1 (by unfold mentions; decide)).trans (by decide)⟩

theorem reparse_keeps_expandable_segments :
    (parseArgs refExt defaultSettings (some "expandable_segments:True")).ok ∧
    (parseArgs refExt (parseArgs refExt defaultSettings
      (some "expandable_segments:True")).settings (some "backend:native")).ok ∧
    "expandable_segments" ∉ lexArgs "backend:native" [] ∧
    (parseArgs refExt (parseArgs refExt defaultSettings
      (some "expandable_segments:True")).settings
      (some "backend:native")).settings.use_expandable_segments = true ∧
    defaultSettings.use_expandable_segments = false := by
  decide

/-! ## An unrecognized key -/

theorem stoi_isException (t : String) (e : Err) (h : stoi t = .error e) :
    e.isException = true := by
  unfold stoi at h
  split at h
  · cases h; rfl
  · simp only at h
    split_ifs at h <;> cases h <;> rfl

theorem stoul_isException (t : String) (e : Err) (h : stoul t = .error e) :
    e.isException = true := by
  unfold stoul at h
  split at h
  · cases h; rfl
  · split_ifs at h
    cases h
    rfl

theorem consumeToken_isException (config : List String) (i : Nat) (c : Char) (e : Err)
    (h : consumeToken config i c = .error e) : e.isException = true := by
  rw [consumeToken_error config i c e h]
  rfl

theorem roundupElement_isException (val1 : String) (val2 : Nat) (st : ListState) (e : Err)
    (h : roundupElement val1 val2 st = .error e) : e.isException = true := by
  unfold roundupElement at h
  split at h
  · cases h
  · split at h
    · rename_i e1 he
      cases h
      exact stoul_isException _ _ he
    · split at h
      · cases h
      · cases h; rfl

theorem parseMaxSplitSize_endsAt (ext : Ext) (config : List String) (i : Nat) (s : Settings) :
    Step.endsAt (i + 1 + 1) (parseMaxSplitSize ext config i s) := by
  simp only [parseMaxSplitSize]
  repeat' split
  all_goals first
    | exact rfl
    | exact consumeToken_isException _ _ _ _ (by assumption)
    | exact stoi_isException _ _ (by assumption)

theorem parseMaxNonSplitRoundingSize_endsAt (ext : Ext) (config : List String) (i : Nat)
    (s : Settings) : Step.endsAt (i + 1 + 1) (parseMaxNonSplitRoundingSize ext config i s) := by
  simp only [parseMaxNonSplitRoundingSize]
  repeat' split
  all_goals first
    | exact rfl
    | exact consumeToken_isException _ _ _ _ (by assumption)
    | exact stoi_isException _ _ (by assumption)

theorem parseGarbageCollectionThreshold_endsAt (ext : Ext) (config : List String) (i : Nat)
    (s : Settings) :
    Step.endsAt (i + 1 + 1) (parseGarbageCollectionThreshold ext config i s) := by
  simp only [parseGarbageCollectionThreshold]
  repeat' split
  all_goals first
    | exact rfl
    | exact consumeToken_isException _ _ _ _ (by assumption)

theorem parseDeviceAllocatorBackend_endsAt (config : List String) (i : Nat) (s : Settings) :
    Step.endsAt (i + 1 + 1) (parseDeviceAllocatorBackend config i s) := by
  simp only [parseDeviceAllocatorBackend]
  repeat' split
  all_goals first
    | exact rfl
    | exact consumeToken_isException _ _ _ _ (by assumption)

theorem parseExpandableSegments_endsAt (config : List String) (i : Nat) (s : Settings) :
    Step.endsAt (i + 1 + 1) (parseExpandableSegments config i s) := by
  simp only [parseExpandableSegments]
  repeat' split
  all_goals first
    | exact rfl
    | exact consumeToken_isException _ _ _ _ (by assumption)

theorem parseReleaseLockOnDeviceMalloc_endsAt (config : List String) (i : Nat)
    (s : Settings) : Step.endsAt (i + 1 + 1) (parseReleaseLockOnDeviceMalloc config i s) := by
  simp only [parseReleaseLockOnDeviceMalloc]
  repeat' split
  all_goals first
    | exact rfl
    | exact consumeToken_isException _ _ _ _ (by assumption)

theorem parsePinnedUseDeviceHostRegister_endsAt (config : List String) (i : Nat)
    (s : Settings) : Step.endsAt (i + 1 + 1) (parsePinnedUseDeviceHostRegister config i s) := by
  simp only [parsePinnedUseDeviceHostRegister]
  repeat' split
  all_goals first
    | exact rfl
    | exact consumeToken_isException _ _ _ _ (by assumption)

theorem parsePinnedNumRegisterThreads_endsAt (config : List String) (i : Nat)
    (s : Settings) : Step.endsAt (i + 1 + 1) (parsePinnedNumRegisterThreads config i s) := by
  simp only [parsePinnedNumRegisterThreads]
  repeat' split
  all_goals first
    | exact rfl
    | exact consumeToken_isException _ _ _ _ (by assumption)
    | exact stoi_isException _ _ (by assumption)

theorem parsePinnedUseBackgroundThreads_endsAt (config : List String) (i : Nat)
    (s : Settings) : Step.endsAt (i + 1 + 1) (parsePinnedUseBackgroundThreads config i s) := by
  simp only [parsePinnedUseBackgroundThreads]
  repeat' split
  all_goals first
    | exact rfl
    | exact consumeToken_isException _ _ _ _ (by assumption)

theorem itemsAt_le (config : List String) (k j : Nat) (h : ItemsAt config k j) : k + 3 ≤ j := by
  induction h with
  | last k a b => exact le_refl _
  | more k j a b _ _ _ _ _ _ _ ih => omega

theorem roundupListLoop_items (config : List String) (k j : Nat) (h : ItemsAt config k j) :
    ∀ (fuel i : Nat) (fv : Bool) (li : Nat) (s : Settings), k = i + 1 →
      config.length ≤ fuel + i + 1 →
      Step.endsAt j (roundupListLoop config fuel i fv li s) := by
  induction h with
  | last k a b ha wa hc hb wb hclose =>
    intro fuel i fv li s hk hfuel
    subst hk
    have hlen : i + 1 + 3 < config.length := by
      by_contra hcon
      rw [List.getElem?_eq_none (by omega)] at hclose
      cases hclose
    obtain ⟨fuel, rfl⟩ : ∃ f, fuel = f + 1 + 1 := ⟨fuel - 2, by omega⟩
    have hne : a ≠ "]" := isWord_ne_delim _ _ wa (by decide)
    simp only [roundupListLoop, ha, hne, if_false, consumeToken, hc, singleton_colon, if_true, hb]
    split
    · exact stoi_isException _ _ (by assumption)
    · split
      · split
        · exact roundupElement_isException _ _ _ _ (by assumption)
        · simp only [hclose, ne_eq, not_true_eq_false, if_false]
          exact rfl
      · exact rfl
  | more k j a b ha wa hc hb wb hcomma hrest ih =>
    intro fuel i fv li s hk hfuel
    subst hk
    have hlen : i + 1 + 3 < config.length := by
      by_contra hcon
      rw [List.getElem?_eq_none (by omega)] at hcomma
      cases hcomma
    obtain ⟨fuel, rfl⟩ : ∃ f, fuel = f + 1 := ⟨fuel - 1, by omega⟩
    have hne : a ≠ "]" := isWord_ne_delim _ _ wa (by decide)
    have hcn : ("," : String) ≠ "]" := by decide
    simp only [roundupListLoop, ha, hne, if_false, consumeToken, hc, singleton_colon, if_true, hb]
    split
    · exact stoi_isException _ _ (by assumption)
    · split
      · split
        · exact roundupElement_isException _ _ _ _ (by assumption)
        · simp only [hcomma, ne_eq, hcn, not_false_eq_true, if_true, singleton_comma]
          exact ih fuel (i + 1 + 1 + 1 + 1) _ _ _ rfl (by omega)
      · exact rfl

theorem parseRoundUpPower2Divisions_scalar_endsAt (config : List String) (i : Nat)
    (s : Settings) (v : String) (hv : config[i + 1 + 1]? = some v) (hne : v ≠ "[") :
    Step.endsAt (i + 1 + 1) (parseRoundUpPower2Divisions config i s) := by
  simp only [parseRoundUpPower2Divisions, hv, hne, if_false]
  repeat' split
  all_goals first
    | exact rfl
    | exact consumeToken_isException _ _ _ _ (by assumption)
    | exact stoi_isException _ _ (by assumption)

theorem parseRoundUpPower2Divisions_list_endsAt (config : List String) (i j : Nat)
    (s : Settings) (hc : config[i + 1]? = some ":") (ho : config[i + 1 + 1]? = some "[")
    (hitems : ItemsAt config (i + 1 + 1 + 1) j) :
    Step.endsAt j (parseRoundUpPower2Divisions config i s) := by
  rw [parseRoundUpPower2Divisions_list config i s hc ho]
  exact roundupListLoop_items config _ j hitems _ (i + 1 + 1) _ _ _ rfl (by omega)

theorem itemsAt_head (config : List String) (k j : Nat) (h : ItemsAt config k j) :
    ∃ a, config[k]? = some a ∧ isWord a = true := by
  induction h with
  | last k a b ha wa => exact ⟨a, ha, wa⟩
  | more k j a b ha wa => exact ⟨a, ha, wa⟩

theorem optionAt_le (config : List String) (i j : Nat) (h : OptionAt config i j) : i + 2 ≤ j := by
  rcases h.2.2 with ⟨v, _, _, rfl⟩ | ⟨_, hitems⟩
  · exact le_refl _
  · have := itemsAt_le _ _ _ hitems
    omega

/-- What a handler that reads exactly one value token does on an option of the grammar:
it ends at the end of the option, or (when the value is a list) it ends on the `[` and
the next token is a word. -/
theorem option_simple (config : List String) (i j : Nat) (d : Step) (hopt : OptionAt config i j)
    (hd : Step.endsAt (i + 1 + 1) d) :
    Step.endsAt j d ∨
      (Step.endsAt (i + 1 + 1) d ∧ ∃ a, config[i + 1 + 1 + 1]? = some a ∧ isWord a = true) := by
  rcases hopt.2.2 with ⟨v, _, _, rfl⟩ | ⟨_, hitems⟩
  · exact Or.inl hd
  · exact Or.inr ⟨hd, itemsAt_head _ _ _ hitems⟩

theorem dispatch_option (ext : Ext) (config : List String) (i j : Nat) (key : String) (u : Bool)
    (s : Settings) (hopt : OptionAt config i j) :
    Step.endsAt j (dispatch ext config i key u s).1 ∨
      (Step.endsAt (i + 1 + 1) (dispatch ext config i key u s).1 ∧
        ∃ a, config[i + 1 + 1 + 1]? = some a ∧ isWord a = true) := by
  unfold dispatch
  by_cases h1 : key = "max_split_size_mb"
  · rw [if_pos h1]
    exact option_simple _ _ _ _ hopt (parseMaxSplitSize_endsAt _ _ _ _)
  rw [if_neg h1]
  by_cases h2 : key = "max_non_split_rounding_mb"
  · rw [if_pos h2]
    exact option_simple _ _ _ _ hopt (parseMaxNonSplitRoundingSize_endsAt _ _ _ _)
  rw [if_neg h2]
  by_cases h3 : key = "garbage_collection_threshold"
  · rw [if_pos h3]
    exact option_simple _ _ _ _ hopt (parseGarbageCollectionThreshold_endsAt _ _ _ _)
  rw [if_neg h3]
  by_cases h4 : key = "roundup_power2_divisions"
  · rw [if_pos h4]
    refine Or.inl ?_
    rcases hopt.2.2 with ⟨v, hv, wv, rfl⟩ | ⟨ho, hitems⟩
    · exact parseRoundUpPower2Divisions_scalar_endsAt _ _ _ v hv
        (isWord_ne_delim _ _ wv (by decide))
    · exact parseRoundUpPower2Divisions_list_endsAt _ _ _ _ hopt.2.1 ho hitems
  rw [if_neg h4]
  by_cases h5 : key = "backend"
  · rw [if_pos h5]
    exact option_simple _ _ _ _ hopt (parseDeviceAllocatorBackend_endsAt _ _ _)
  rw [if_neg h5]
  by_cases h6 : key = "expandable_segments"
  · rw [if_pos h6]
    exact option_simple _ _ _ _ hopt (parseExpandableSegments_endsAt _ _ _)
  rw [if_neg h6]
  by_cases h7 : key = "release_lock_on_device_malloc" ∨ key = "release_lock_on_cudamalloc" ∨
      key = "release_lock_on_hipmalloc"
  · rw [if_pos h7]
    exact option_simple _ _ _ _ hopt (parseReleaseLockOnDeviceMalloc_endsAt _ _ _)
  rw [if_neg h7]
  by_cases h8 : key = "pinned_use_device_host_register" ∨
      key = "pinned_use_cuda_host_register" ∨ key = "pinned_use_hip_host_register"
  · rw [if_pos h8]
    exact option_simple _ _ _ _ hopt (parsePinnedUseDeviceHostRegister_endsAt _ _ _)
  rw [if_neg h8]
  by_cases h9 : key = "pinned_num_register_threads"
  · rw [if_pos h9]
    exact option_simple _ _ _ _ hopt (parsePinnedNumRegisterThreads_endsAt _ _ _)
  rw [if_neg h9]
  by_cases h10 : key = "pinned_use_background_threads"
  · rw [if_pos h10]
    exact option_simple _ _ _ _ hopt (parsePinnedUseBackgroundThreads_endsAt _ _ _)
  rw [if_neg h10]
  exact Or.inl rfl

theorem dispatch_unrecognized (ext : Ext) (config : List String) (i : Nat) (key : String)
    (u : Bool) (s : Settings) (hk : key ∉ recognizedKeys) :
    dispatch ext config i key u s = (.fail (.unrecognizedOption key) s, u) := by
  simp only [recognizedKeys, List.mem_cons, List.mem_singleton, List.not_mem_nil, or_false,
    not_or] at hk
  obtain ⟨k1, k2, k3, k4, k5, k6, k7, k8, k9, k10, k11, k12, k13, k14⟩ := hk
  simp [dispatch, k1, k2, k3, k4, k5, k6, k7, k8, k9, k10, k11, k12, k13, k14]

theorem parseLoop_unrecognized (ext : Ext) (config : List String) (i p : Nat) (key : String)
    (hkp : KeyPosition config i p) (hk : config[p]? = some key) (hu : key ∉ recognizedKeys) :
    ∀ (fuel : Nat) (u : Bool) (w : Nat) (s : Settings), config.length < fuel + i →
      (parseLoop ext config fuel i u w s).threw := by
  induction hkp with
  | first i =>
    intro fuel u w s hfuel
    have hlt : i < config.length := by
      by_contra hcon
      rw [List.getElem?_eq_none (by omega)] at hk
      cases hk
    obtain ⟨fuel, rfl⟩ : ∃ f, fuel = f + 1 := ⟨fuel - 1, by omega⟩
    rw [parseLoop_fail ext config fuel i u w s s key _ u hk
      (dispatch_unrecognized ext config i key u s hu)]
    exact ⟨_, rfl, rfl⟩
  | next i j p hopt hcomma hrest ih =>
    intro fuel u w s hfuel
    obtain ⟨k, hki⟩ := hopt.1
    have hij := optionAt_le _ _ _ hopt
    have hlt : j + 1 < config.length := by
      by_contra hcon
      rw [List.getElem?_eq_none (by omega)] at hcomma
      cases hcomma
    obtain ⟨fuel, rfl⟩ : ∃ f, fuel = f + 1 := ⟨fuel - 1, by omega⟩
    have hd := dispatch_option ext config i j k u s hopt
    simp only [parseLoop, hki]
    rcases hdv : dispatch ext config i k u s with ⟨d, u1⟩
    rw [hdv] at hd
    simp only at hd
    cases d with
    | fail e s1 =>
      have he : e.isException = true := by
        rcases hd with h | h
        · exact h
        · exact h.1
      exact ⟨e, rfl, he⟩
    | ok j1 s1 =>
      rcases hd with h | ⟨h, a, ha, wa⟩
      · have hj : j1 = j := h
        subst hj
        simp only [hlt, if_true, consumeToken, hcomma, singleton_comma]
        exact ih hk _ _ _ _ (by omega)
      · have hj : j1 = i + 1 + 1 := h
        subst hj
        have hlt2 : i + 1 + 1 + 1 < config.length := by omega
        have hne : a ≠ "," := isWord_ne_delim _ _ wa (by decide)
        simp only [hlt2, if_true, consumeToken, ha, singleton_comma, hne, if_false]
        exact ⟨_, rfl, rfl⟩

/-- C8. When the key of a top-level option is not recognized, `parseArgs` throws: `p`
is the first position, or options of the grammar, each followed by `,`, lead to it; what
the other options hold, and what follows the key, does not matter. -/
theorem parseArgs_unrecognized_key (ext : Ext) (s : Settings) (env : String) (p : Nat)
    (key : String) (hp : KeyPosition (lexArgs env []) 0 p)
    (hk : (lexArgs env [])[p]? = some key) (hu : key ∉ recognizedKeys) :
    (parseArgs ext s (some env)).threw := by
  unfold parseArgs
  exact parseLoop_unrecognized ext _ 0 p key hp hk hu _ _ _ _ (by omega)

theorem parseArgs_unrecognized_key_witness :
    (parseArgs refExt defaultSettings
      (some "roundup_power2_divisions:[256:8,512:16],bogus:1")).threw ∧
    (parseArgs refExt defaultSettings (some "backend:native,foo:1")).threw :=
  ⟨parseArgs_unrecognized_key refExt defaultSettings
      "roundup_power2_divisions:[256:8,512:16],bogus:1" 12 "bogus"
      (.next 0 10 12
        ⟨⟨"roundup_power2_divisions", by decide⟩, by decide,
          Or.inr ⟨by decide,
            .more 3 10 "256" "8" (by decide) (by decide) (by decide) (by decide) (by decide)
              (by decide)
              (.last 7 "512" "16" (by decide) (by decide) (by decide) (by decide) (by decide)
                (by decide))⟩⟩
        (by decide) (.first 12))
      (by decide) (by decide),
    parseArgs_unrecognized_key refExt defaultSettings "backend:native,foo:1" 4 "foo"
      (.next 0 2 4 ⟨⟨"backend", by decide⟩, by decide, Or.inl ⟨"native", by decide, by decide, rfl⟩⟩
        (by decide) (.first 4))
      (by decide) (by decide)⟩

/-! ## The loop counters of the embedding never run out -/

theorem index_lt (config : List String) (k : Nat) (t : String) (h : config[k]? = some t) :
    k < config.length := by
  by_contra hcon
  rw [List.getElem?_eq_none (by omega)] at h
  cases h

theorem ne_outOfFuel (e : Err) (h : e.isException = true) : e ≠ .outOfFuel := by
  rintro rfl
  cases h

theorem within_mono (config : List String) (lo hi : Nat) (d : Step) (h : lo ≤ hi)
    (hd : Step.within config hi d) : Step.within config lo d := by
  cases d with
  | fail e s => exact hd
  | ok j s => exact ⟨le_trans h hd.1, hd.2⟩

theorem roundupListLoop_within (config : List String) (fuel : Nat) :
    ∀ (i : Nat) (fv : Bool) (li : Nat) (s : Settings), i < config.length →
      config.length ≤ fuel + i →
      Step.within config (i + 1) (roundupListLoop config fuel i fv li s) := by
  induction fuel with
  | zero => intro i fv li s h1 h2; omega
  | succ fuel ih =>
    intro i fv li s h1 h2
    simp only [roundupListLoop]
    split
    · exact ⟨le_refl _, by omega⟩
    · rename_i val1 hv1
      have l1 := index_lt _ _ _ hv1
      split
      · exact ⟨le_refl _, by omega⟩
      · split
        · exact ne_outOfFuel _ (consumeToken_isException _ _ _ _ (by assumption))
        · split
          · exact fun h => by cases h
          · rename_i tok htok
            have l3 := index_lt _ _ _ htok
            split
            · exact ne_outOfFuel _ (stoi_isException _ _ (by assumption))
            · split
              · split
                · exact ne_outOfFuel _ (roundupElement_isException _ _ _ _ (by assumption))
                · split
                  · exact fun h => by cases h
                  · rename_i next hnext
                    have l4 := index_lt _ _ _ hnext
                    split
                    · split
                      · exact ne_outOfFuel _
                          (consumeToken_isException _ _ _ _ (by assumption))
                      · exact within_mono _ _ _ _ (by omega)
                          (ih (i + 1 + 1 + 1 + 1) _ _ _ l4 (by omega))
                    · exact within_mono _ _ _ _ (by omega)
                        (ih (i + 1 + 1 + 1) _ _ _ l3 (by omega))
              · exact fun h => by cases h

theorem parseMaxSplitSize_within (ext : Ext) (config : List String) (i : Nat) (s : Settings) :
    Step.within config (i + 2) (parseMaxSplitSize ext config i s) := by
  simp only [parseMaxSplitSize]
  repeat' split
  all_goals first
    | (intro h; cases h; done)
    | exact ne_outOfFuel _ (consumeToken_isException _ _ _ _ (by assumption))
    | exact ne_outOfFuel _ (stoi_isException _ _ (by assumption))
    | exact ⟨le_refl _, Nat.le_of_lt (index_lt _ _ _ (by assumption))⟩

theorem parseMaxNonSplitRoundingSize_within (ext : Ext) (config : List String) (i : Nat) (s : Settings) :
    Step.within config (i + 2) (parseMaxNonSplitRoundingSize ext config i s) := by
  simp only [parseMaxNonSplitRoundingSize]
  repeat' split
  all_goals first
    | (intro h; cases h; done)
    | exact ne_outOfFuel _ (consumeToken_isException _ _ _ _ (by assumption))
    | exact ne_outOfFuel _ (stoi_isException _ _ (by assumption))
    | exact ⟨le_refl _, Nat.le_of_lt (index_lt _ _ _ (by assumption))⟩

theorem parseGarbageCollectionThreshold_within (ext : Ext) (config : List String) (i : Nat) (s : Settings) :
    Step.within config (i + 2) (parseGarbageCollectionThreshold ext config i s) := by
  simp only [parseGarbageCollectionThreshold]
  repeat' split
  all_goals first
    | (intro h; cases h; done)
    | exact ne_outOfFuel _ (consumeToken_isException _ _ _ _ (by assumption))
    | exact ne_outOfFuel _ (stoi_isException _ _ (by assumption))
    | exact ⟨le_refl _, Nat.le_of_lt (index_lt _ _ _ (by assumption))⟩

theorem parseDeviceAllocatorBackend_within (config : List String) (i : Nat) (s : Settings) :
    Step.within config (i + 2) (parseDeviceAllocatorBackend config i s) := by
  simp only [parseDeviceAllocatorBackend]
  repeat' split
  all_goals first
    | (intro h; cases h; done)
    | exact ne_outOfFuel _ (consumeToken_isException _ _ _ _ (by assumption))
    | exact ne_outOfFuel _ (stoi_isException _ _ (by assumption))
    | exact ⟨le_refl _, Nat.le_of_lt (index_lt _ _ _ (by assumption))⟩

theorem parseExpandableSegments_within (config : List String) (i : Nat) (s : Settings) :
    Step.within config (i + 2) (parseExpandableSegments config i s) := by
  simp only [parseExpandableSegments]
  repeat' split
  all_goals first
    | (intro h; cases h; done)
    | exact ne_outOfFuel _ (consumeToken_isException _ _ _ _ (by assumption))
    | exact ne_outOfFuel _ (stoi_isException _ _ (by assumption))
    | exact ⟨le_refl _, Nat.le_of_lt (index_lt _ _ _ (by assumption))⟩

theorem parseReleaseLockOnDeviceMalloc_within (config : List String) (i : Nat) (s : Settings) :
    Step.within config (i + 2) (parseReleaseLockOnDeviceMalloc config i s) := by
  simp only [parseReleaseLockOnDeviceMalloc]
  repeat' split
  all_goals first
    | (intro h; cases h; done)
    | exact ne_outOfFuel _ (consumeToken_isException _ _ _ _ (by assumption))
    | exact ne_outOfFuel _ (stoi_isException _ _ (by assumption))
    | exact ⟨le_refl _, Nat.le_of_lt (index_lt _ _ _ (by assumption))⟩

theorem parsePinnedUseDeviceHostRegister_within (config : List String) (i : Nat) (s : Settings) :
    Step.within config (i + 2) (parsePinnedUseDeviceHostRegister config i s) := by
  simp only [parsePinnedUseDeviceHostRegister]
  repeat' split
  all_goals first
    | (intro h; cases h; done)
    | exact ne_outOfFuel _ (consumeToken_isException _ _ _ _ (by assumption))
    | exact ne_outOfFuel _ (stoi_isException _ _ (by assumption))
    | exact ⟨le_refl _, Nat.le_of_lt (index_lt _ _ _ (by assumption))⟩

theorem parsePinnedNumRegisterThreads_within (config : List String) (i : Nat) (s : Settings) :
    Step.within config (i + 2) (parsePinnedNumRegisterThreads config i s) := by
  simp only [parsePinnedNumRegisterThreads]
  repeat' split
  all_goals first
    | (intro h; cases h; done)
    | exact ne_outOfFuel _ (consumeToken_isException _ _ _ _ (by assumption))
    | exact ne_outOfFuel _ (stoi_isException _ _ (by assumption))
    | exact ⟨le_refl _, Nat.le_of_lt (index_lt _ _ _ (by assumption))⟩

theorem parsePinnedUseBackgroundThreads_within (config : List String) (i : Nat) (s : Settings) :
    Step.within config (i + 2) (parsePinnedUseBackgroundThreads config i s) := by
  simp only [parsePinnedUseBackgroundThreads]
  repeat' split
  all_goals first
    | (intro h; cases h; done)
    | exact ne_outOfFuel _ (consumeToken_isException _ _ _ _ (by assumption))
    | exact ne_outOfFuel _ (stoi_isException _ _ (by assumption))
    | exact ⟨le_refl _, Nat.le_of_lt (index_lt _ _ _ (by assumption))⟩

theorem parseRoundUpPower2Divisions_within (config : List String) (i : Nat) (s : Settings) :
    Step.within config (i + 2) (parseRoundUpPower2Divisions config i s) := by
  simp only [parseRoundUpPower2Divisions]
  split
  · exact ne_outOfFuel _ (consumeToken_isException _ _ _ _ (by assumption))
  · split
    · rename_i tok htok
      have l2 := index_lt _ _ _ htok
      split
      · exact within_mono _ _ _ _ (by omega)
          (roundupListLoop_within config config.length (i + 1 + 1) _ _ _ l2 (by omega))
      · split
        · exact ne_outOfFuel _ (stoi_isException _ _ (by assumption))
        · split
          · exact ⟨le_refl _, Nat.le_of_lt l2⟩
          · exact fun h => by cases h
    · exact fun h => by cases h

theorem dispatch_within (ext : Ext) (config : List String) (i : Nat) (key : String) (u : Bool)
    (s : Settings) : Step.within config (i + 2) (dispatch ext config i key u s).1 := by
  unfold dispatch
  by_cases h1 : key = "max_split_size_mb"
  · rw [if_pos h1]; exact parseMaxSplitSize_within _ _ _ _
  rw [if_neg h1]
  by_cases h2 : key = "max_non_split_rounding_mb"
  · rw [if_pos h2]; exact parseMaxNonSplitRoundingSize_within _ _ _ _
  rw [if_neg h2]
  by_cases h3 : key = "garbage_collection_threshold"
  · rw [if_pos h3]; exact parseGarbageCollectionThreshold_within _ _ _ _
  rw [if_neg h3]
  by_cases h4 : key = "roundup_power2_divisions"
  · rw [if_pos h4]; exact parseRoundUpPower2Divisions_within _ _ _
  rw [if_neg h4]
  by_cases h5 : key = "backend"
  · rw [if_pos h5]; exact parseDeviceAllocatorBackend_within _ _ _
  rw [if_neg h5]
  by_cases h6 : key = "expandable_segments"
  · rw [if_pos h6]; exact parseExpandableSegments_within _ _ _
  rw [if_neg h6]
  by_cases h7 : key = "release_lock_on_device_malloc" ∨ key = "release_lock_on_cudamalloc" ∨
      key = "release_lock_on_hipmalloc"
  · rw [if_pos h7]; exact parseReleaseLockOnDeviceMalloc_within _ _ _
  rw [if_neg h7]
  by_cases h8 : key = "pinned_use_device_host_register" ∨
      key = "pinned_use_cuda_host_register" ∨ key = "pinned_use_hip_host_register"
  · rw [if_pos h8]; exact parsePinnedUseDeviceHostRegister_within _ _ _
  rw [if_neg h8]
  by_cases h9 : key = "pinned_num_register_threads"
  · rw [if_pos h9]; exact parsePinnedNumRegisterThreads_within _ _ _
  rw [if_neg h9]
  by_cases h10 : key = "pinned_use_background_threads"
  · rw [if_pos h10]; exact parsePinnedUseBackgroundThreads_within _ _ _
  rw [if_neg h10]
  exact fun h => by cases h

theorem parseLoop_fuel (ext : Ext) (config : List String) (fuel : Nat) :
    ∀ (i : Nat) (u : Bool) (w : Nat) (s : Settings),
      (config.length + 1 ≤ fuel ∧ i = 0) ∨
        (config.length + 3 ≤ fuel + i ∧ i ≤ config.length + 1) →
      (parseLoop ext config fuel i u w s).error ≠ some .outOfFuel := by
  induction fuel with
  | zero => intro i u w s h; omega
  | succ fuel ih =>
    intro i u w s h
    simp only [parseLoop]
    split
    · exact fun h => by cases h
    · rename_i key hkey
      have hd := dispatch_within ext config i key u s
      have li := index_lt _ _ _ hkey
      split
      · rename_i e s1 u1 heq
        rw [heq] at hd
        intro hc
        exact hd (Option.some.inj hc)
      · rename_i j s1 u1 heq
        rw [heq] at hd
        have hj : i + 2 ≤ j ∧ j ≤ config.length := hd
        split
        · split
          · intro hc
            exact ne_outOfFuel _ (consumeToken_isException _ _ _ _ (by assumption))
              (Option.some.inj hc)
          · exact ih _ _ _ _ (Or.inr ⟨by omega, by omega⟩)
        · exact ih _ _ _ _ (Or.inr ⟨by omega, by omega⟩)

/-- The loop counters given by `parseArgs` and by `parseRoundUpPower2Divisions` are
enough on every input: `parseArgs` never ends on an exhausted counter. -/
theorem parseArgs_fuel (ext : Ext) (s : Settings) (env : Option String) :
    (parseArgs ext s env).error ≠ some .outOfFuel := by
  unfold parseArgs
  cases env with
  | none => exact fun h => by cases h
  | some e => exact parseLoop_fuel ext _ _ 0 _ _ _ (Or.inl ⟨le_refl _, rfl⟩)

/-! ## The tokenizer loses nothing but spaces -/

theorem render_append (a b : List String) : render (a ++ b) = render a ++ render b := by
  induction a with
  | nil => rfl
  | cons t rest ih => simp [render, ih]

theorem render_lexRec (cs buf : List Char) :
    render (lexRec cs buf) = buf ++ cs.filter (fun c => c != ' ') := by
  induction cs generalizing buf with
  | nil =>
    by_cases hb : buf.isEmpty = true
    · have : buf = [] := by simpa using hb
      simp [lexRec, this, render]
    · simp [lexRec, hb, render]
  | cons ch cs ih =>
    by_cases hd : isDelim ch = true
    · have hne : (ch != ' ') = true := by
        have : ch ≠ ' ' := by rintro rfl; simp [isDelim] at hd
        simpa using this
      by_cases hb : buf.isEmpty = true
      · have : buf = [] := by simpa using hb
        subst this
        simp [lexRec, hd, render, ih, List.filter_cons, hne, String.singleton, String.push]
      · simp [lexRec, hd, hb, render, ih, List.filter_cons, hne, String.singleton, String.push]
    · by_cases hs : (ch != ' ') = true
      · simp [lexRec, hd, hs, ih, List.filter_cons]
      · simp [lexRec, hd, hs, ih, List.filter_cons]

theorem lexRec_filter (cs buf : List Char) :
    lexRec (cs.filter (fun c => c != ' ')) buf = lexRec cs buf := by
  induction cs generalizing buf with
  | nil => rfl
  | cons ch cs ih =>
    by_cases hs : (ch != ' ') = true
    · simp only [List.filter_cons, hs, if_true]
      by_cases hd : isDelim ch = true
      · simp [lexRec, hd, ih]
      · simp [lexRec, hd, hs, ih]
    · have hd : isDelim ch = false := by
        have : ch = ' ' := by simpa using hs
        subst this
        decide
      simp only [List.filter_cons, hs, if_false]
      simp [lexRec, hd, hs, ih]

/-- C18. For every input the texts of the tokens of `lexArgs`, put end to end, are the
input without its spaces, and `lexArgs` gives the same tokens on the input without its
spaces. -/
theorem lexArgs_loses_only_spaces (env : String) :
    render (lexArgs env []) = env.data.filter (fun c => c != ' ') ∧
      lexArgs (String.mk (env.data.filter (fun c => c != ' '))) [] = lexArgs env [] := by
  refine ⟨?_, ?_⟩
  · rw [lexArgs_eq_lexRec, render_lexRec]
    rfl
  · rw [lexArgs_eq_lexRec, lexArgs_eq_lexRec]
    exact lexRec_filter _ _

/-! ## The lookup -/

theorem interval_bounds :
    log2Floor kRoundUpPowerOfTwoStart = 20 ∧ log2Floor kRoundUpPowerOfTwoEnd = 36 := by
  constructor
  · exact log2Floor_of_range _ 20 (by decide) (by decide) (by decide)
  · exact log2Floor_of_range _ 36 (by decide) (by decide) (by decide)

theorem lookup_eq (s : Settings) (size : Nat) :
    roundup_power2_divisions s size =
      match s.roundup_power2_divisions[min (if log2Floor size > 20 then log2Floor size - 20
          else 0) 15]? with
      | some v => .ok v
      | none => .error (.readPastEnd (min (if log2Floor size > 20 then log2Floor size - 20
          else 0) 15)) := by
  unfold roundup_power2_divisions
  simp only [interval_bounds.1, interval_bounds.2, kRoundUpPowerOfTwoIntervals]
  rfl

/-- C14. On a 16-entry table, for every `i ≤ 15` and every size with
`2^(20+i) ≤ size < 2^(21+i)` the lookup returns entry `i`; and for no size at all does
the check on the number of intervals fail. -/
theorem lookup_bucket (s : Settings) (i size : Nat) (hi : i ≤ 15)
    (hlen : s.roundup_power2_divisions.length = 16)
    (h1 : 2 ^ (20 + i) ≤ size) (h2 : size < 2 ^ (21 + i)) :
    (∃ v, s.roundup_power2_divisions[i]? = some v ∧ roundup_power2_divisions s size = .ok v) ∧
      ∀ t size1, roundup_power2_divisions t size1 ≠ .error .intervalsMismatch := by
  constructor
  · have hlog : log2Floor size = 20 + i :=
      log2Floor_of_range size (20 + i) h1 (by rw [show 20 + i + 1 = 21 + i by omega]; exact h2)
        (by omega)
    have hidx : min (if log2Floor size > 20 then log2Floor size - 20 else 0) 15 = i := by
      rw [hlog]
      by_cases h0 : i = 0
      · subst h0; rfl
      · have : 20 + i > 20 := by omega
        simp only [this, if_true]
        omega
    have hlt : i < s.roundup_power2_divisions.length := by omega
    refine ⟨s.roundup_power2_divisions[i], List.getElem?_eq_getElem hlt, ?_⟩
    rw [lookup_eq, hidx, List.getElem?_eq_getElem hlt]
  · intro t size1
    rw [lookup_eq]
    split <;> exact fun h => by cases h

theorem lookup_bucket_witness :
    roundup_power2_divisions
      { defaultSettings with
        roundup_power2_divisions := [8, 8, 8, 8, 8, 8, 8, 8, 8, 16, 32, 32, 32, 32, 32, 32] }
      (2 ^ 29 + 5) = .ok 16 := by
  obtain ⟨v, hv, hr⟩ := (lookup_bucket
    { defaultSettings with
      roundup_power2_divisions := [8, 8, 8, 8, 8, 8, 8, 8, 8, 16, 32, 32, 32, 32, 32, 32] }
    9 (2 ^ 29 + 5) (by decide) rfl (by decide) (by decide)).1
  have : v = 16 := by
    have h9 : ([8, 8, 8, 8, 8, 8, 8, 8, 8, 16, 32, 32, 32, 32, 32, 32] : List Nat)[9]? = some 16 :=
      rfl
    exact Option.some.inj (hv.symm.trans h9)
  rw [hr, this]

/-! ## The invariant of the table of divisions -/

theorem mem_fill (t : List Nat) (lo hi v x : Nat) (h : x ∈ fill t lo hi v) :
    x = v ∨ x = 0 ∨ x ∈ t := by
  unfold fill at h
  obtain ⟨j, hj, rfl⟩ := List.mem_map.mp h
  have hlt : j < t.length := List.mem_range.mp hj
  by_cases hc : lo ≤ j ∧ j < hi
  · exact Or.inl (by simp [hc])
  · refine Or.inr (Or.inr ?_)
    rw [if_neg hc, List.getD_eq_getElem?_getD, List.getElem?_eq_getElem hlt]
    exact List.getElem_mem hlt

theorem fill_valid (t : List Nat) (lo hi v : Nat) (ht : validTable t)
    (hv : v = 0 ∨ ∃ k, v = 2 ^ k) : validTable (fill t lo hi v) := by
  refine ⟨by rw [length_fill]; exact ht.1, ?_⟩
  intro x hx
  rcases mem_fill _ _ _ _ _ hx with h | h | h
  · rw [h]; exact hv
  · exact Or.inl h
  · exact ht.2 x h

theorem set_valid (t : List Nat) (i v : Nat) (ht : validTable t)
    (hv : v = 0 ∨ ∃ k, v = 2 ^ k) : validTable (t.set i v) := by
  refine ⟨by rw [List.length_set]; exact ht.1, ?_⟩
  intro x hx
  rcases List.mem_or_eq_of_mem_set hx with h | h
  · exact ht.2 x h
  · rw [h]; exact hv

theorem roundupElement_valid (val1 : String) (val2 : Nat) (st st1 : ListState)
    (ht : validTable st.table) (hv : val2 = 0 ∨ ∃ k, val2 = 2 ^ k)
    (h : roundupElement val1 val2 st = .ok st1) : validTable st1.table := by
  unfold roundupElement at h
  split at h
  · cases h
    exact fill_valid _ _ _ _ ht hv
  · split at h
    · cases h
    · split at h
      · cases h
        by_cases hf : st.first_value = true
        · simp only [hf, if_true]
          exact set_valid _ _ _ (fill_valid _ _ _ _ ht hv) hv
        · simp only [hf, if_false]
          exact set_valid _ _ _ ht hv
      · cases h

theorem roundupListLoop_valid (config : List String) (fuel : Nat) :
    ∀ (i : Nat) (fv : Bool) (li : Nat) (s : Settings),
      validTable s.roundup_power2_divisions →
      validTable (roundupListLoop config fuel i fv li s).settings.roundup_power2_divisions := by
  induction fuel with
  | zero => intro i fv li s h; exact h
  | succ fuel ih =>
    intro i fv li s h
    simp only [roundupListLoop]
    split
    · exact h
    · split
      · exact h
      · split
        · exact h
        · split
          · exact h
          · split
            · exact h
            · rename_i v hv
              split
              · rename_i hcheck
                have hval : toSizeT v = 0 ∨ ∃ k, toSizeT v = 2 ^ k := by
                  rcases hcheck with h0 | hp
                  · exact Or.inl h0
                  · exact Or.inr ((isPowerOf2_64_iff _).mp hp)
                split
                · exact h
                · rename_i st hst
                  have hst1 := roundupElement_valid _ _ _ _ h hval hst
                  split
                  · exact hst1
                  · split
                    · split
                      · exact hst1
                      · exact ih _ _ _ _ hst1
                    · exact ih _ _ _ _ hst1
              · exact h

theorem parseRoundUpPower2Divisions_valid (config : List String) (i : Nat) (s : Settings)
    (h : validTable s.roundup_power2_divisions) :
    validTable (parseRoundUpPower2Divisions config i s).settings.roundup_power2_divisions := by
  simp only [parseRoundUpPower2Divisions]
  split
  · exact h
  · split
    · split
      · exact roundupListLoop_valid _ _ _ _ _ _ h
      · split
        · exact h
        · split
          · rename_i hp
            exact fill_valid _ _ _ _ h (Or.inr ((isPowerOf2_64_iff _).mp hp))
          · exact h
    · exact h

theorem dispatch_valid (ext : Ext) (config : List String) (i : Nat) (key : String) (u : Bool)
    (s : Settings) (h : validTable s.roundup_power2_divisions) :
    validTable (dispatch ext config i key u s).1.settings.roundup_power2_divisions := by
  by_cases hk : key = "roundup_power2_divisions"
  · subst hk
    simp only [dispatch, String.reduceEq, if_false, if_true]
    exact parseRoundUpPower2Divisions_valid _ _ _ h
  · have hs := dispatch_frame ext config i key u s .roundup_power2_divisions
      (by simpa [Field.keys] using hk)
    have heq : (dispatch ext config i key u s).1.settings.roundup_power2_divisions =
        s.roundup_power2_divisions := hs
    rw [heq]
    exact h

theorem parseLoop_valid (ext : Ext) (config : List String) (fuel : Nat) :
    ∀ (i : Nat) (u : Bool) (w : Nat) (s : Settings),
      validTable s.roundup_power2_divisions →
      validTable (parseLoop ext config fuel i u w s).settings.roundup_power2_divisions := by
  induction fuel with
  | zero => intro i u w s h; exact h
  | succ fuel ih =>
    intro i u w s h
    simp only [parseLoop]
    split
    · exact h
    · rename_i key hkey
      have hd := dispatch_valid ext config i key u s h
      split
      · rename_i e s1 u1 heq
        rw [heq] at hd
        exact hd
      · rename_i j s1 u1 heq
        rw [heq] at hd
        split
        · split
          · exact hd
          · exact ih _ _ _ _ hd
        · exact ih _ _ _ _ hd

/-- C15. From every starting state and on every input (absent, accepted or rejected at
any point), `parseArgs` leaves a table of exactly 16 entries, each 0 or a power of
two. -/
theorem parseArgs_table_valid (ext : Ext) (s : Settings) (env : Option String) :
    (parseArgs ext s env).settings.roundup_power2_divisions.length = 16 ∧
      ∀ x ∈ (parseArgs ext s env).settings.roundup_power2_divisions,
        x = 0 ∨ ∃ k, x = 2 ^ k := by
  have h0 : validTable (resetDefaults s).roundup_power2_divisions := by
    refine ⟨rfl, ?_⟩
    intro x hx
    exact Or.inl (List.eq_of_mem_replicate hx)
  unfold parseArgs
  cases env with
  | none => exact h0
  | some e => exact parseLoop_valid ext _ _ _ _ _ _ h0

/-! ## The floor of the size limits -/

theorem mb_product_no_wrap (val : Nat) : min val (SIZE_MAX / kMB) * kMB < 2 ^ 64 := by
  have h1 : SIZE_MAX / kMB = 17592186044415 := by decide
  have h2 : kMB = 1048576 := by decide
  rw [h1, h2]
  have : min val 17592186044415 ≤ 17592186044415 := Nat.min_le_right _ _
  omega

theorem mb_product_ge (ext : Ext) (val : Nat) (hlb : ext.kLargeBuffer < 2 ^ 64)
    (hdiv : kMB ∣ ext.kLargeBuffer) (hval : ext.kLargeBuffer / kMB ≤ val) :
    ext.kLargeBuffer ≤ (min val (SIZE_MAX / kMB) * kMB) % 2 ^ 64 := by
  rw [Nat.mod_eq_of_lt (mb_product_no_wrap val)]
  have h1 : SIZE_MAX / kMB = 17592186044415 := by decide
  have h2 : kMB = 1048576 := by decide
  have hfl : ext.kLargeBuffer / kMB ≤ min val (SIZE_MAX / kMB) := by
    refine Nat.le_min.mpr ⟨hval, ?_⟩
    rw [h1, h2]
    omega
  calc ext.kLargeBuffer = ext.kLargeBuffer / kMB * kMB := (Nat.div_mul_cancel hdiv).symm
    _ ≤ min val (SIZE_MAX / kMB) * kMB := Nat.mul_le_mul_right _ hfl

theorem parseMaxSplitSize_floor (ext : Ext) (config : List String) (i : Nat) (s : Settings)
    (hlb : ext.kLargeBuffer < 2 ^ 64) (hdiv : kMB ∣ ext.kLargeBuffer) (h : aboveFloor ext s) :
    aboveFloor ext (parseMaxSplitSize ext config i s).settings := by
  simp only [parseMaxSplitSize]
  repeat' split
  all_goals first
    | exact h
    | exact ⟨mb_product_ge ext _ hlb hdiv (by assumption), h.2⟩

theorem parseMaxNonSplitRoundingSize_floor (ext : Ext) (config : List String) (i : Nat)
    (s : Settings) (hlb : ext.kLargeBuffer < 2 ^ 64) (hdiv : kMB ∣ ext.kLargeBuffer)
    (h : aboveFloor ext s) :
    aboveFloor ext (parseMaxNonSplitRoundingSize ext config i s).settings := by
  simp only [parseMaxNonSplitRoundingSize]
  repeat' split
  all_goals first
    | exact h
    | exact ⟨h.1, mb_product_ge ext _ hlb hdiv (by assumption)⟩

theorem dispatch_floor (ext : Ext) (config : List String) (i : Nat) (key : String) (u : Bool)
    (s : Settings) (hlb : ext.kLargeBuffer < 2 ^ 64) (hdiv : kMB ∣ ext.kLargeBuffer)
    (h : aboveFloor ext s) : aboveFloor ext (dispatch ext config i key u s).1.settings := by
  by_cases h1 : key = "max_split_size_mb"
  · subst h1
    simp only [dispatch, if_true]
    exact parseMaxSplitSize_floor ext _ _ _ hlb hdiv h
  by_cases h2 : key = "max_non_split_rounding_mb"
  · subst h2
    simp only [dispatch, String.reduceEq, if_false, if_true]
    exact parseMaxNonSplitRoundingSize_floor ext _ _ _ hlb hdiv h
  have e1 : (dispatch ext config i key u s).1.settings.max_split_size = s.max_split_size :=
    dispatch_frame ext config i key u s .max_split_size (by simpa [Field.keys] using h1)
  have e2 : (dispatch ext config i key u s).1.settings.max_non_split_rounding_size =
      s.max_non_split_rounding_size :=
    dispatch_frame ext config i key u s .max_non_split_rounding_size
      (by simpa [Field.keys] using h2)
  exact ⟨by rw [e1]; exact h.1, by rw [e2]; exact h.2⟩

theorem parseLoop_floor (ext : Ext) (config : List String) (hlb : ext.kLargeBuffer < 2 ^ 64)
    (hdiv : kMB ∣ ext.kLargeBuffer) (fuel : Nat) :
    ∀ (i : Nat) (u : Bool) (w : Nat) (s : Settings), aboveFloor ext s →
      aboveFloor ext (parseLoop ext config fuel i u w s).settings := by
  induction fuel with
  | zero => intro i u w s h; exact h
  | succ fuel ih =>
    intro i u w s h
    simp only [parseLoop]
    split
    · exact h
    · rename_i key hkey
      have hd := dispatch_floor ext config i key u s hlb hdiv h
      split
      · rename_i e s1 u1 heq
        rw [heq] at hd
        exact hd
      · rename_i j s1 u1 heq
        rw [heq] at hd
        split
        · split
          · exact hd
          · exact ih _ _ _ _ hd
        · exact ih _ _ _ _ hd

/-- C16. With a large-buffer constant that fits `size_t` and is a whole number of MB:
if `max_non_split_rounding_size` is at least the constant before `parseArgs`, then after
it (on every input, accepted or rejected) both `max_split_size` and
`max_non_split_rounding_size` are at least the constant; and the product of the clamped
MB value by `2^20` never reaches `2^64`, whatever integer the token wrote. -/
theorem parseArgs_floor (ext : Ext) (s : Settings) (env : Option String)
    (hlb : ext.kLargeBuffer < 2 ^ 64) (hdiv : kMB ∣ ext.kLargeBuffer)
    (h : ext.kLargeBuffer ≤ s.max_non_split_rounding_size) :
    ext.kLargeBuffer ≤ (parseArgs ext s env).settings.max_split_size ∧
      ext.kLargeBuffer ≤ (parseArgs ext s env).settings.max_non_split_rounding_size ∧
      ∀ v : Int, min (toSizeT v) (SIZE_MAX / kMB) * kMB < 2 ^ 64 := by
  have h0 : aboveFloor ext (resetDefaults s) := by
    refine ⟨?_, h⟩
    show ext.kLargeBuffer ≤ SIZE_MAX
    have : SIZE_MAX = 2 ^ 64 - 1 := rfl
    omega
  have key : aboveFloor ext (parseArgs ext s env).settings := by
    unfold parseArgs
    cases env with
    | none => exact h0
    | some e => exact parseLoop_floor ext _ hlb hdiv _ _ _ _ _ h0
  exact ⟨key.1, key.2, fun v => mb_product_no_wrap _⟩

theorem parseArgs_floor_witness :
    refExt.kLargeBuffer ≤ (parseArgs refExt defaultSettings
      (some "max_split_size_mb:-1,max_non_split_rounding_mb:20")).settings.max_split_size ∧
    refExt.kLargeBuffer ≤ Settings.max_non_split_rounding_size (parseArgs refExt
      defaultSettings (some "max_split_size_mb:-1,max_non_split_rounding_mb:20")).settings :=
  have h := parseArgs_floor refExt defaultSettings
    (some "max_split_size_mb:-1,max_non_split_rounding_mb:20") (by decide) (by decide)
    (by decide)
  ⟨h.1, h.2.1⟩

/-! ## Single-element lists, and the read past the end -/

theorem lexArgs_of_tokens (env : String) (toks : List String) (hl : lexed toks = true)
    (he : env.data = render toks) : lexArgs env [] = toks := by
  have : env = String.mk (render toks) := String.ext he
  rw [this]
  exact lexArgs_render toks hl

/-- The tokens of `roundup_power2_divisions:[a:b`, closed by `]` or not. -/
theorem lexArgs_one_element (a b : String) (ha : isWord a = true) (hb : isWord b = true) :
    lexArgs ("roundup_power2_divisions:[" ++ a ++ ":" ++ b) [] =
        ["roundup_power2_divisions", ":", "[", a, ":", b] ∧
      lexArgs ("roundup_power2_divisions:[" ++ a ++ ":" ++ b ++ "]") [] =
        ["roundup_power2_divisions", ":", "[", a, ":", b, "]"] := by
  have c1 : isDelimToken ":" = true := by decide
  have c2 : isDelimToken "[" = true := by decide
  have c4 : isDelimToken "]" = true := by decide
  have c7 : isDelimToken "roundup_power2_divisions" = false := by decide
  have c8 : isWord "roundup_power2_divisions" = true := by decide
  have e1 : ("roundup_power2_divisions:[" : String) = "roundup_power2_divisions" ++ ":" ++ "[" := by
    decide
  constructor
  · apply lexArgs_of_tokens
    · simp [lexed, c1, c2, c7, c8, isWord_not_delim, ha, hb]
    · rw [e1]
      simp [render, String.data_append]
  · apply lexArgs_of_tokens
    · simp [lexed, c1, c2, c4, c7, c8, isWord_not_delim, ha, hb]
    · rw [e1]
      simp [render, String.data_append]

theorem roundupListLoop_past_end (config : List String) (fuel i : Nat) (fv : Bool) (li : Nat)
    (s : Settings) (val1 tok : String) (v : Int) (st : ListState)
    (h1 : config[i + 1]? = some val1) (hne : val1 ≠ "]")
    (h2 : config[i + 1 + 1]? = some ":") (h3 : config[i + 1 + 1 + 1]? = some tok)
    (h4 : stoi tok = .ok v) (h5 : toSizeT v = 0 ∨ isPowerOf2_64 (toSizeT v) = true)
    (h6 : roundupElement val1 (toSizeT v) ⟨fv, li, s.roundup_power2_divisions⟩ = .ok st)
    (h7 : config[i + 1 + 1 + 1 + 1]? = none) :
    roundupListLoop config (fuel + 1) i fv li s =
      .fail (.readPastEnd (i + 1 + 1 + 1 + 1)) { s with roundup_power2_divisions := st.table } := by
  simp [roundupListLoop, h1, hne, consumeToken, h2, h3, h4, h5, h6, h7]

/-- C17 (code). For every interval key `2^j` and every valid value `V`, on the input
`roundup_power2_divisions:[K:V` (six tokens) the list loop reads `config[6]`, one past
the last token: no exception is thrown before that read. -/
theorem list_loop_reads_past_end (ext : Ext) (s : Settings) (j V : Nat) (hj : j < 64)
    (hV : V = 0 ∨ ∃ k, V = 2 ^ k) (hb : V ≤ 2 ^ 30) :
    (lexArgs ("roundup_power2_divisions:[" ++ toString (2 ^ j) ++ ":" ++ toString V) []).length
        = 6 ∧
      (parseArgs ext s (some ("roundup_power2_divisions:[" ++ toString (2 ^ j) ++ ":" ++
        toString V))).error = some (.readPastEnd 6) := by
  have hlex := (lexArgs_one_element _ _ (isWord_toString_nat (2 ^ j)) (isWord_toString_nat V)).1
  obtain ⟨s1, z1, p1⟩ := stoi_division V hV hb
  have hK : stoul (toString (2 ^ j)) = .ok (2 ^ j) :=
    stoul_toString_nat _ (Nat.pow_lt_pow_right (by decide) hj)
  obtain ⟨st1, e1, -⟩ := roundupElement_two_pow (toString (2 ^ j)) (toSizeT (V : Int))
    ⟨true, 0, List.replicate 16 0⟩ j hj (by simp) hK
  refine ⟨by rw [hlex]; rfl, ?_⟩
  simp only [parseArgs, hlex]
  obtain ⟨cfg, hcfg⟩ : ∃ cfg : List String, cfg = ["roundup_power2_divisions", ":", "[",
      toString (2 ^ j), ":", toString V] := ⟨_, rfl⟩
  rw [← hcfg]
  have g0 : cfg[0]? = some "roundup_power2_divisions" := by rw [hcfg]; rfl
  have g1 : cfg[0 + 1]? = some ":" := by rw [hcfg]; rfl
  have g2 : cfg[0 + 1 + 1]? = some "[" := by rw [hcfg]; rfl
  have g3 : cfg[0 + 1 + 1 + 1]? = some (toString (2 ^ j)) := by rw [hcfg]; rfl
  have g4 : cfg[0 + 1 + 1 + 1 + 1]? = some ":" := by rw [hcfg]; rfl
  have g5 : cfg[0 + 1 + 1 + 1 + 1 + 1]? = some (toString V) := by rw [hcfg]; rfl
  have g6 : cfg[0 + 1 + 1 + 1 + 1 + 1 + 1]? = none := by rw [hcfg]; rfl
  have glen : cfg.length = 5 + 1 := by rw [hcfg]; rfl
  have hl : parseRoundUpPower2Divisions cfg 0 (recordSettings (resetDefaults s)
      ("roundup_power2_divisions:[" ++ toString (2 ^ j) ++ ":" ++ toString V)) =
      .fail (.readPastEnd 6) { recordSettings (resetDefaults s)
        ("roundup_power2_divisions:[" ++ toString (2 ^ j) ++ ":" ++ toString V) with
        roundup_power2_divisions := st1.table } := by
    rw [parseRoundUpPower2Divisions_list cfg 0 _ g1 g2, glen]
    exact roundupListLoop_past_end cfg _ (0 + 1 + 1) true 0 _ (toString (2 ^ j)) (toString V) V
      st1 g3 (toString_nat_ne_close _) g4 g5 s1 p1 e1 g6
  show (parseLoop ext cfg (cfg.length + 1) 0 false 0 _).error = _
  rw [parseLoop_fail ext cfg _ 0 false 0 _ _ "roundup_power2_divisions" _ true g0
    (by
      simp only [dispatch, String.reduceEq, if_false, if_true]
      rw [hl])]

theorem list_loop_reads_past_end_witness :
    (parseArgs refExt defaultSettings (some ("roundup_power2_divisions:[" ++ toString (2 ^ 8) ++
      ":" ++ toString 8))).error = some (.readPastEnd 6) :=
  (list_loop_reads_past_end refExt defaultSettings 8 8 (by decide) (Or.inr ⟨3, rfl⟩)
    (by decide)).2

/-- A configuration that is one `roundup_power2_divisions` list, when the list loop
ends normally on the last token or past it: the call succeeds with the table of the
loop. -/
theorem parseArgs_of_list (ext : Ext) (s : Settings) (env : String) (cfg : List String)
    (j : Nat) (t : List Nat) (hlex : lexArgs env [] = cfg)
    (g0 : cfg[0]? = some "roundup_power2_divisions") (g1 : cfg[0 + 1]? = some ":")
    (g2 : cfg[0 + 1 + 1]? = some "[")
    (hloop : ∀ s0 : Settings, s0.roundup_power2_divisions = List.replicate 16 0 →
      roundupListLoop cfg cfg.length (0 + 1 + 1) true 0 s0 =
        .ok j { s0 with roundup_power2_divisions := t })
    (hj : cfg.length ≤ j + 1) :
    (parseArgs ext s (some env)).ok ∧
      (parseArgs ext s (some env)).settings.roundup_power2_divisions = t := by
  have hr : parseArgs ext s (some env) =
      parseLoop ext cfg (cfg.length - 1 + 2) 0 false 0 (recordSettings (resetDefaults s) env) := by
    have hlen : 0 < cfg.length := index_lt _ _ _ g0
    simp only [parseArgs, hlex]
    congr 1
    omega
  rw [hr, parseLoop_last ext cfg _ 0 j false 0 _ _ "roundup_power2_divisions" true g0
    (by
      simp only [dispatch, String.reduceEq, if_false, if_true]
      rw [parseRoundUpPower2Divisions_list cfg 0 _ g1 g2, hloop _ rfl])
    hj]
  exact ⟨rfl, rfl⟩

theorem log2Floor_le (size n : Nat) (h1 : 1 ≤ size) (h2 : size < 2 ^ (n + 1)) (hn : n < 64) :
    log2Floor size ≤ n := by
  have hk1 : 2 ^ Nat.log 2 size ≤ size := Nat.pow_log_le_self 2 (by omega)
  have hk2 : size < 2 ^ (Nat.log 2 size + 1) := Nat.lt_pow_succ_log_self (by decide) size
  have hk : Nat.log 2 size ≤ n := by
    by_contra hcon
    have : 2 ^ (n + 1) ≤ 2 ^ Nat.log 2 size :=
      Nat.pow_le_pow_right (by decide) (by omega)
    omega
  rw [log2Floor_of_range size (Nat.log 2 size) hk1 hk2 (by omega)]
  exact hk

/-- C19. For every `i ≤ 15` and every valid value `V`, after
`roundup_power2_divisions:[K:V]` with `K = 2^i` (accepted), the lookup returns `V` for
every size in bytes with `1 ≤ size < 2^(21+i)`, in particular for `K * 2^20`. -/
theorem parse_then_lookup (ext : Ext) (s : Settings) (i V size : Nat) (hi : i ≤ 15)
    (hV : V = 0 ∨ ∃ k, V = 2 ^ k) (hb : V ≤ 2 ^ 30) (h1 : 1 ≤ size)
    (h2 : size < 2 ^ (21 + i)) :
    let r := parseArgs ext s (some ("roundup_power2_divisions:[" ++ toString (2 ^ i) ++ ":" ++
      toString V ++ "]"))
    r.ok ∧ roundup_power2_divisions r.settings size = .ok V ∧
      roundup_power2_divisions r.settings (2 ^ i * 2 ^ 20) = .ok V := by
  intro r
  have hlex := (lexArgs_one_element _ _ (isWord_toString_nat (2 ^ i)) (isWord_toString_nat V)).2
  obtain ⟨s1, z1, p1⟩ := stoi_division V hV hb
  have hK : stoul (toString (2 ^ i)) = .ok (2 ^ i) :=
    stoul_toString_nat _ (Nat.pow_lt_pow_right (by decide) (by omega))
  obtain ⟨st1, e1, -, l1, f1, n1, x1, lo1, hi1⟩ :=
    roundupElement_two_pow (toString (2 ^ i)) (toSizeT (V : Int))
      ⟨true, 0, List.replicate 16 0⟩ i (by omega) (by simp) hK
  have hmin : min i 15 = i := by omega
  rw [hmin] at x1 lo1
  obtain ⟨cfg, hcfg⟩ : ∃ cfg : List String, cfg = ["roundup_power2_divisions", ":", "[",
      toString (2 ^ i), ":", toString V, "]"] := ⟨_, rfl⟩
  rw [← hcfg] at hlex
  have g0 : cfg[0]? = some "roundup_power2_divisions" := by rw [hcfg]; rfl
  have g1 : cfg[0 + 1]? = some ":" := by rw [hcfg]; rfl
  have g2 : cfg[0 + 1 + 1]? = some "[" := by rw [hcfg]; rfl
  have g3 : cfg[0 + 1 + 1 + 1]? = some (toString (2 ^ i)) := by rw [hcfg]; rfl
  have g4 : cfg[0 + 1 + 1 + 1 + 1]? = some ":" := by rw [hcfg]; rfl
  have g5 : cfg[0 + 1 + 1 + 1 + 1 + 1]? = some (toString V) := by rw [hcfg]; rfl
  have g6 : cfg[0 + 1 + 1 + 1 + 1 + 1 + 1]? = some "]" := by rw [hcfg]; rfl
  have glen : cfg.length = 5 + 1 + 1 := by rw [hcfg]; rfl
  obtain ⟨hok, htab⟩ := parseArgs_of_list ext s _ cfg (0 + 1 + 1 + 1 + 1 + 1 + 1) st1.table hlex
    g0 g1 g2
    (by
      intro s0 h0
      rw [← h0] at e1
      rw [glen]
      exact roundupListLoop_last cfg _ (0 + 1 + 1) true 0 s0 (toString (2 ^ i)) (toString V) V
        st1 g3 (toString_nat_ne_close _) g4 g5 s1 p1 e1 g6)
    (by rw [glen])
  have hentry : ∀ k, k ≤ i → st1.table[k]? = some V := by
    intro k hk
    rcases Nat.lt_or_eq_of_le hk with h | h
    · rw [lo1 k h]; simp [z1]
    · rw [h, x1, z1]
  have hlook : ∀ sz, 1 ≤ sz → sz < 2 ^ (21 + i) → roundup_power2_divisions r.settings sz = .ok V := by
    intro sz hs1 hs2
    have hle := log2Floor_le sz (20 + i) hs1 (by rw [show 20 + i + 1 = 21 + i by omega]; exact hs2)
      (by omega)
    have hidx : min (if log2Floor sz > 20 then log2Floor sz - 20 else 0) 15 ≤ i := by
      by_cases hgt : log2Floor sz > 20
      · simp only [hgt, if_true]; omega
      · simp only [hgt, if_false]; omega
    have htab1 : r.settings.roundup_power2_divisions = st1.table := htab
    rw [lookup_eq, htab1, hentry _ hidx]
  refine ⟨hok, hlook size h1 h2, hlook _ ?_ ?_⟩
  · exact Nat.one_le_iff_ne_zero.mpr (by positivity)
  · rw [← Nat.pow_add]
    exact Nat.pow_lt_pow_right (by decide) (by omega)

theorem parse_then_lookup_witness :
    roundup_power2_divisions (parseArgs refExt defaultSettings
      (some ("roundup_power2_divisions:[" ++ toString (2 ^ 3) ++ ":" ++
        toString 4 ++ "]"))).settings 12345678 = .ok 4 :=
  (parse_then_lookup refExt defaultSettings 3 4 12345678 (by decide) (Or.inr ⟨2, rfl⟩)
    (by decide) (by decide) (by decide)).2.1

/-! ## A suffix fill before any explicit interval -/

theorem lexArgs_two_elements (a b c d : String) (ha : isWord a = true) (hb : isWord b = true)
    (hc : isWord c = true) (hd : isWord d = true) :
    lexArgs ("roundup_power2_divisions:[" ++ a ++ ":" ++ b ++ "," ++ c ++ ":" ++ d ++ "]") [] =
      ["roundup_power2_divisions", ":", "[", a, ":", b, ",", c, ":", d, "]"] := by
  have c1 : isDelimToken ":" = true := by decide
  have c2 : isDelimToken "[" = true := by decide
  have c3 : isDelimToken "," = true := by decide
  have c4 : isDelimToken "]" = true := by decide
  have c7 : isDelimToken "roundup_power2_divisions" = false := by decide
  have c8 : isWord "roundup_power2_divisions" = true := by decide
  have e1 : ("roundup_power2_divisions:[" : String) = "roundup_power2_divisions" ++ ":" ++ "[" := by
    decide
  apply lexArgs_of_tokens
  · simp [lexed, c1, c2, c3, c4, c7, c8, isWord_not_delim, ha, hb, hc, hd]
  · rw [e1]
    simp [render, String.data_append]

theorem getElem?_suffix_fill (V i : Nat) (hi : i < 16) :
    (fill (List.replicate 16 0) (0 + 1) (List.replicate 16 0).length V)[i]? =
      some (if i = 0 then 0 else V) := by
  rw [getElem?_fill]
  simp only [List.length_replicate, hi, if_true]
  by_cases h0 : i = 0
  · subst h0
    simp
  · have : 0 + 1 ≤ i ∧ i < 16 := by omega
    simp [this, h0]

/-- C20. For valid values `V`, `W` and an interval key `2^j`: `[>:V]` is accepted, sets
the entries 1..15 to `V` and leaves entry 0 at 0 (the last explicit index starts at 0);
and in `[>:V,K:W]` the element `K:W` still is the first explicit entry: it fills every
entry up to its bucket with `W`, the entries above keeping `V`. -/
theorem parseArgs_gt_first (ext : Ext) (s : Settings) (V W j : Nat)
    (hV : V = 0 ∨ ∃ k, V = 2 ^ k) (hbV : V ≤ 2 ^ 30) (hW : W = 0 ∨ ∃ k, W = 2 ^ k)
    (hbW : W ≤ 2 ^ 30) (hj : j < 64) :
    let r1 := parseArgs ext s (some ("roundup_power2_divisions:[>:" ++ toString V ++ "]"))
    let r2 := parseArgs ext s (some ("roundup_power2_divisions:[>:" ++ toString V ++ "," ++
      toString (2 ^ j) ++ ":" ++ toString W ++ "]"))
    r1.ok ∧ r1.settings.roundup_power2_divisions.length = 16 ∧
      (∀ i, i < 16 → r1.settings.roundup_power2_divisions[i]? = some (if i = 0 then 0 else V)) ∧
      r2.ok ∧ r2.settings.roundup_power2_divisions.length = 16 ∧
      (∀ i, i < 16 → r2.settings.roundup_power2_divisions[i]? =
        some (if i ≤ bucketIndex (2 ^ j) 16 then W else V)) := by
  intro r1 r2
  have e1 : ("roundup_power2_divisions:[>:" : String) = "roundup_power2_divisions:[" ++ ">" ++ ":" := by
    decide
  have wgt : isWord ">" = true := by decide
  obtain ⟨sV, zV, pV⟩ := stoi_division V hV hbV
  obtain ⟨sW, zW, pW⟩ := stoi_division W hW hbW
  have hK : stoul (toString (2 ^ j)) = .ok (2 ^ j) :=
    stoul_toString_nat _ (Nat.pow_lt_pow_right (by decide) hj)
  have hb := bucketIndex_two_pow j hj
  obtain ⟨T1, hT1⟩ : ∃ T1 : List Nat,
      T1 = fill (List.replicate 16 0) (0 + 1) (List.replicate 16 0).length V := ⟨_, rfl⟩
  have egt : roundupElement ">" (toSizeT (V : Int)) ⟨true, 0, List.replicate 16 0⟩ =
      .ok ⟨true, 0, T1⟩ := by
    rw [roundupElement_gt, hT1, zV]
  have hlen1 : T1.length = 16 := by rw [hT1]; simp
  -- the list with the single element
  have part1 : r1.ok ∧ r1.settings.roundup_power2_divisions = T1 := by
    have hlex := (lexArgs_one_element ">" (toString V) wgt (isWord_toString_nat V)).2
    rw [← e1] at hlex
    obtain ⟨cfg, hcfg⟩ : ∃ cfg : List String, cfg = ["roundup_power2_divisions", ":", "[",
        ">", ":", toString V, "]"] := ⟨_, rfl⟩
    rw [← hcfg] at hlex
    have g0 : cfg[0]? = some "roundup_power2_divisions" := by rw [hcfg]; rfl
    have g1 : cfg[0 + 1]? = some ":" := by rw [hcfg]; rfl
    have g2 : cfg[0 + 1 + 1]? = some "[" := by rw [hcfg]; rfl
    have g3 : cfg[0 + 1 + 1 + 1]? = some ">" := by rw [hcfg]; rfl
    have g4 : cfg[0 + 1 + 1 + 1 + 1]? = some ":" := by rw [hcfg]; rfl
    have g5 : cfg[0 + 1 + 1 + 1 + 1 + 1]? = some (toString V) := by rw [hcfg]; rfl
    have g6 : cfg[0 + 1 + 1 + 1 + 1 + 1 + 1]? = some "]" := by rw [hcfg]; rfl
    have glen : cfg.length = 5 + 1 + 1 := by rw [hcfg]; rfl
    have := parseArgs_of_list ext s _ cfg (0 + 1 + 1 + 1 + 1 + 1 + 1) T1 hlex g0 g1 g2
      (by
        intro s0 h0
        rw [glen]
        have egt0 : roundupElement ">" (toSizeT (V : Int)) ⟨true, 0, s0.roundup_power2_divisions⟩ =
            .ok ⟨true, 0, T1⟩ := by
          rw [h0, egt]
        exact roundupListLoop_last cfg _ (0 + 1 + 1) true 0 s0 ">" (toString V) V _ g3
          (by decide) g4 g5 sV pV egt0 g6)
      (by rw [glen])
    exact this
  -- the list with the suffix fill first
  obtain ⟨st2, e2, -, l2, -, n2, x2, lo2, hi2⟩ :=
    roundupElement_two_pow (toString (2 ^ j)) (toSizeT (W : Int))
      ⟨true, 0, T1⟩ j hj hlen1 hK
  have part2 : r2.ok ∧ r2.settings.roundup_power2_divisions = st2.table := by
    have hlex := lexArgs_two_elements ">" (toString V) (toString (2 ^ j)) (toString W) wgt
      (isWord_toString_nat V) (isWord_toString_nat _) (isWord_toString_nat W)
    rw [← e1] at hlex
    obtain ⟨cfg, hcfg⟩ : ∃ cfg : List String, cfg = ["roundup_power2_divisions", ":", "[",
        ">", ":", toString V, ",", toString (2 ^ j), ":", toString W, "]"] := ⟨_, rfl⟩
    rw [← hcfg] at hlex
    have g0 : cfg[0]? = some "roundup_power2_divisions" := by rw [hcfg]; rfl
    have g1 : cfg[0 + 1]? = some ":" := by rw [hcfg]; rfl
    have g2 : cfg[0 + 1 + 1]? = some "[" := by rw [hcfg]; rfl
    have g3 : cfg[0 + 1 + 1 + 1]? = some ">" := by rw [hcfg]; rfl
    have g4 : cfg[0 + 1 + 1 + 1 + 1]? = some ":" := by rw [hcfg]; rfl
    have g5 : cfg[0 + 1 + 1 + 1 + 1 + 1]? = some (toString V) := by rw [hcfg]; rfl
    have g6 : cfg[0 + 1 + 1 + 1 + 1 + 1 + 1]? = some "," := by rw [hcfg]; rfl
    have g7 : cfg[0 + 1 + 1 + 1 + 1 + 1 + 1 + 1]? = some (toString (2 ^ j)) := by rw [hcfg]; rfl
    have g8 : cfg[0 + 1 + 1 + 1 + 1 + 1 + 1 + 1 + 1]? = some ":" := by rw [hcfg]; rfl
    have g9 : cfg[0 + 1 + 1 + 1 + 1 + 1 + 1 + 1 + 1 + 1]? = some (toString W) := by
      rw [hcfg]; rfl
    have g10 : cfg[0 + 1 + 1 + 1 + 1 + 1 + 1 + 1 + 1 + 1 + 1]? = some "]" := by rw [hcfg]; rfl
    have glen : cfg.length = 9 + 1 + 1 := by rw [hcfg]; rfl
    have := parseArgs_of_list ext s _ cfg (0 + 1 + 1 + 1 + 1 + 1 + 1 + 1 + 1 + 1 + 1)
      st2.table hlex g0 g1 g2
      (by
        intro s0 h0
        rw [glen]
        have egt0 : roundupElement ">" (toSizeT (V : Int)) ⟨true, 0, s0.roundup_power2_divisions⟩ =
            .ok ⟨true, 0, T1⟩ := by
          rw [h0, egt]
        rw [roundupListLoop_comma cfg _ (0 + 1 + 1) true 0 s0 ">" (toString V) V _ g3
            (by decide) g4 g5 sV pV egt0 g6,
          roundupListLoop_last cfg _ (0 + 1 + 1 + 1 + 1 + 1 + 1) true 0
            { s0 with roundup_power2_divisions := T1 }
            (toString (2 ^ j)) (toString W) W st2 g7 (toString_nat_ne_close _) g8 g9 sW pW e2 g10])
      (by rw [glen])
    exact this
  refine ⟨part1.1, by rw [part1.2]; exact hlen1, ?_, part2.1, by rw [part2.2]; exact n2, ?_⟩
  · intro i hi
    rw [part1.2, hT1]
    exact getElem?_suffix_fill V i hi
  · intro i hi
    rw [part2.2, hb]
    rcases Nat.lt_trichotomy i (min j 15) with h | h | h
    · rw [lo2 i h]
      simp [zW, Nat.le_of_lt h]
    · rw [h, x2]
      simp [zW]
    · rw [hi2 i h]
      have hn : ¬ i ≤ min j 15 := by omega
      have h0 : i ≠ 0 := by omega
      simp only [hn, if_false]
      rw [hT1, getElem?_suffix_fill V i hi]
      simp [h0]

theorem parseArgs_gt_first_witness :
    Settings.roundup_power2_divisions (parseArgs refExt defaultSettings
      (some ("roundup_power2_divisions:[>:" ++ toString 8 ++ "]"))).settings
      = [0, 8, 8, 8, 8, 8, 8, 8, 8, 8, 8, 8, 8, 8, 8, 8] ∧
    Settings.roundup_power2_divisions (parseArgs refExt defaultSettings
      (some ("roundup_power2_divisions:[>:" ++ toString 8 ++ "," ++ toString (2 ^ 2) ++ ":" ++
        toString 4 ++ "]"))).settings
      = [4, 4, 4, 8, 8, 8, 8, 8, 8, 8, 8, 8, 8, 8, 8, 8] := by
  have h := parseArgs_gt_first refExt defaultSettings 8 4 2 (Or.inr ⟨3, rfl⟩) (by decide)
    (Or.inr ⟨2, rfl⟩) (by decide) (by decide)
  constructor
  · apply List.ext_getElem?
    intro i
    by_cases hi : i < 16
    · rw [h.2.2.1 i hi]
      interval_cases i <;> rfl
    · rw [List.getElem?_eq_none (by rw [h.2.1]; omega), List.getElem?_eq_none (by simp; omega)]
  · apply List.ext_getElem?
    intro i
    by_cases hi : i < 16
    · rw [h.2.2.2.2.2 i hi]
      interval_cases i <;> rfl
    · rw [List.getElem?_eq_none (by rw [h.2.2.2.2.1]; omega),
        List.getElem?_eq_none (by simp; omega)]

/-! ## Value tokens that are not numerals -/

theorem stoi_no_numeral (t : String) (h : startsWithNumeral t = false) :
    stoi t = .error .invalidArgument ∧ stoul t = .error .invalidArgument := by
  unfold startsWithNumeral at h
  have hn : scanInt t.data = none := by
    cases hs : scanInt t.data with
    | none => rfl
    | some x => rw [hs] at h; cases h
  simp [stoi, stoul, hn]

theorem consumeToken_token (config : List String) (i : Nat) (c : Char) (a : Unit)
    (h : consumeToken config i c = .ok a) : config[i]? = some (String.singleton c) :=
  (consumeToken_ok_iff config i c).mp h

theorem parseMaxSplitSize_ok (ext : Ext) (config : List String) (i j : Nat) (s s1 : Settings)
    (h : parseMaxSplitSize ext config i s = .ok j s1) :
    config[i + 1]? = some ":" ∧ j = i + 2 ∧ ∃ v, config[i + 2]? = some v := by
  simp only [parseMaxSplitSize] at h
  repeat' split at h
  all_goals first
    | (cases h; done)
    | (cases h; exact ⟨consumeToken_token _ _ _ _ (by assumption), rfl, _, (by assumption)⟩)

theorem parseMaxNonSplitRoundingSize_ok (ext : Ext) (config : List String) (i j : Nat)
    (s s1 : Settings) (h : parseMaxNonSplitRoundingSize ext config i s = .ok j s1) :
    config[i + 1]? = some ":" ∧ j = i + 2 ∧ ∃ v, config[i + 2]? = some v := by
  simp only [parseMaxNonSplitRoundingSize] at h
  repeat' split at h
  all_goals first
    | (cases h; done)
    | (cases h; exact ⟨consumeToken_token _ _ _ _ (by assumption), rfl, _, (by assumption)⟩)

theorem parseGarbageCollectionThreshold_ok (ext : Ext) (config : List String) (i j : Nat)
    (s s1 : Settings) (h : parseGarbageCollectionThreshold ext config i s = .ok j s1) :
    config[i + 1]? = some ":" ∧ j = i + 2 ∧ ∃ v, config[i + 2]? = some v := by
  simp only [parseGarbageCollectionThreshold] at h
  repeat' split at h
  all_goals first
    | (cases h; done)
    | (cases h; exact ⟨consumeToken_token _ _ _ _ (by assumption), rfl, _, (by assumption)⟩)

theorem parseDeviceAllocatorBackend_ok (config : List String) (i j : Nat)
    (s s1 : Settings) (h : parseDeviceAllocatorBackend config i s = .ok j s1) :
    config[i + 1]? = some ":" ∧ j = i + 2 ∧ ∃ v, config[i + 2]? = some v := by
  simp only [parseDeviceAllocatorBackend] at h
  repeat' split at h
  all_goals first
    | (cases h; done)
    | (cases h; exact ⟨consumeToken_token _ _ _ _ (by assumption), rfl, _, (by assumption)⟩)

theorem parseExpandableSegments_ok (config : List String) (i j : Nat)
    (s s1 : Settings) (h : parseExpandableSegments config i s = .ok j s1) :
    config[i + 1]? = some ":" ∧ j = i + 2 ∧ ∃ v, config[i + 2]? = some v := by
  simp only [parseExpandableSegments] at h
  repeat' split at h
  all_goals first
    | (cases h; done)
    | (cases h; exact ⟨consumeToken_token _ _ _ _ (by assumption), rfl, _, (by assumption)⟩)

theorem parseReleaseLockOnDeviceMalloc_ok (config : List String) (i j : Nat)
    (s s1 : Settings) (h : parseReleaseLockOnDeviceMalloc config i s = .ok j s1) :
    config[i + 1]? = some ":" ∧ j = i + 2 ∧ ∃ v, config[i + 2]? = some v := by
  simp only [parseReleaseLockOnDeviceMalloc] at h
  repeat' split at h
  all_goals first
    | (cases h; done)
    | (cases h; exact ⟨consumeToken_token _ _ _ _ (by assumption), rfl, _, (by assumption)⟩)

theorem parsePinnedUseDeviceHostRegister_ok (config : List String) (i j : Nat)
    (s s1 : Settings) (h : parsePinnedUseDeviceHostRegister config i s = .ok j s1) :
    config[i + 1]? = some ":" ∧ j = i + 2 ∧ ∃ v, config[i + 2]? = some v := by
  simp only [parsePinnedUseDeviceHostRegister] at h
  repeat' split at h
  all_goals first
    | (cases h; done)
    | (cases h; exact ⟨consumeToken_token _ _ _ _ (by assumption), rfl, _, (by assumption)⟩)

theorem parsePinnedNumRegisterThreads_ok (config : List String) (i j : Nat)
    (s s1 : Settings) (h : parsePinnedNumRegisterThreads config i s = .ok j s1) :
    config[i + 1]? = some ":" ∧ j = i + 2 ∧ ∃ v, config[i + 2]? = some v := by
  simp only [parsePinnedNumRegisterThreads] at h
  repeat' split at h
  all_goals first
    | (cases h; done)
    | (cases h; exact ⟨consumeToken_token _ _ _ _ (by assumption), rfl, _, (by assumption)⟩)

theorem parsePinnedUseBackgroundThreads_ok (config : List String) (i j : Nat)
    (s s1 : Settings) (h : parsePinnedUseBackgroundThreads config i s = .ok j s1) :
    config[i + 1]? = some ":" ∧ j = i + 2 ∧ ∃ v, config[i + 2]? = some v := by
  simp only [parsePinnedUseBackgroundThreads] at h
  repeat' split at h
  all_goals first
    | (cases h; done)
    | (cases h; exact ⟨consumeToken_token _ _ _ _ (by assumption), rfl, _, (by assumption)⟩)

theorem roundupListLoop_ok (config : List String) (fuel : Nat) :
    ∀ (i : Nat) (fv : Bool) (li : Nat) (s : Settings) (j : Nat) (s1 : Settings),
      roundupListLoop config fuel i fv li s = .ok j s1 →
        config[j]? = some "]" ∨ config.length ≤ j := by
  induction fuel with
  | zero => intro i fv li s j s1 h; cases h
  | succ fuel ih =>
    intro i fv li s j s1 h
    simp only [roundupListLoop] at h
    split at h
    · rename_i hnone
      cases h
      right
      by_contra hcon
      rw [List.getElem?_eq_getElem (by omega)] at hnone
      cases hnone
    · rename_i val1 hval
      split at h
      · rename_i hclose
        cases h
        left
        rw [hval, hclose]
      · repeat' split at h
        all_goals first
          | exact ih _ _ _ _ _ _ h
          | cases h

theorem parseRoundUpPower2Divisions_ok (config : List String) (i j : Nat) (s s1 : Settings)
    (h : parseRoundUpPower2Divisions config i s = .ok j s1) :
    config[i + 1]? = some ":" ∧
      ((j = i + 2 ∧ ∃ v, config[i + 2]? = some v) ∨
        (config[i + 2]? = some "[" ∧ i + 3 ≤ j ∧
          (config[j]? = some "]" ∨ config.length ≤ j))) := by
  simp only [parseRoundUpPower2Divisions] at h
  split at h
  · cases h
  · rename_i a hc
    have hcolon := consumeToken_token _ _ _ _ hc
    split at h
    · rename_i tok htok
      split at h
      · rename_i hopen
        subst hopen
        have hw := roundupListLoop_within config config.length (i + 1 + 1) true 0 s
          (index_lt _ _ _ htok) (by omega)
        rw [h] at hw
        exact ⟨hcolon, Or.inr ⟨htok, hw.1, roundupListLoop_ok _ _ _ _ _ _ _ _ h⟩⟩
      · repeat' split at h
        all_goals first
          | (cases h; done)
          | (cases h; exact ⟨hcolon, Or.inl ⟨rfl, _, htok⟩⟩)
    · cases h

theorem dispatch_ok (ext : Ext) (config : List String) (i j : Nat) (key : String) (u u1 : Bool)
    (s s1 : Settings) (hkey : config[i]? = some key)
    (h : dispatch ext config i key u s = (.ok j s1, u1)) : AcceptedOption config i j key := by
  unfold dispatch at h
  by_cases h1 : key = "max_split_size_mb"
  · rw [if_pos h1] at h
    obtain ⟨a, b, c⟩ := parseMaxSplitSize_ok _ _ _ _ _ _ (congrArg Prod.fst h)
    exact ⟨hkey, by simp [recognizedKeys, h1], a, Or.inl ⟨b, c⟩⟩
  rw [if_neg h1] at h
  by_cases h2 : key = "max_non_split_rounding_mb"
  · rw [if_pos h2] at h
    obtain ⟨a, b, c⟩ := parseMaxNonSplitRoundingSize_ok _ _ _ _ _ _ (congrArg Prod.fst h)
    exact ⟨hkey, by simp [recognizedKeys, h2], a, Or.inl ⟨b, c⟩⟩
  rw [if_neg h2] at h
  by_cases h3 : key = "garbage_collection_threshold"
  · rw [if_pos h3] at h
    obtain ⟨a, b, c⟩ := parseGarbageCollectionThreshold_ok _ _ _ _ _ _ (congrArg Prod.fst h)
    exact ⟨hkey, by simp [recognizedKeys, h3], a, Or.inl ⟨b, c⟩⟩
  rw [if_neg h3] at h
  by_cases h4 : key = "roundup_power2_divisions"
  · rw [if_pos h4] at h
    obtain ⟨a, b⟩ := parseRoundUpPower2Divisions_ok _ _ _ _ _ (congrArg Prod.fst h)
    refine ⟨hkey, by simp [recognizedKeys, h4], a, ?_⟩
    rcases b with b | b
    · exact Or.inl b
    · exact Or.inr ⟨h4, b⟩
  rw [if_neg h4] at h
  by_cases h5 : key = "backend"
  · rw [if_pos h5] at h
    obtain ⟨a, b, c⟩ := parseDeviceAllocatorBackend_ok _ _ _ _ _ (congrArg Prod.fst h)
    exact ⟨hkey, by simp [recognizedKeys, h5], a, Or.inl ⟨b, c⟩⟩
  rw [if_neg h5] at h
  by_cases h6 : key = "expandable_segments"
  · rw [if_pos h6] at h
    obtain ⟨a, b, c⟩ := parseExpandableSegments_ok _ _ _ _ _ (congrArg Prod.fst h)
    exact ⟨hkey, by simp [recognizedKeys, h6], a, Or.inl ⟨b, c⟩⟩
  rw [if_neg h6] at h
  by_cases h7 : key = "release_lock_on_device_malloc" ∨ key = "release_lock_on_cudamalloc" ∨
      key = "release_lock_on_hipmalloc"
  · rw [if_pos h7] at h
    obtain ⟨a, b, c⟩ := parseReleaseLockOnDeviceMalloc_ok _ _ _ _ _ (congrArg Prod.fst h)
    refine ⟨hkey, ?_, a, Or.inl ⟨b, c⟩⟩
    rcases h7 with h7 | h7 | h7 <;> simp [recognizedKeys, h7]
  rw [if_neg h7] at h
  by_cases h8 : key = "pinned_use_device_host_register" ∨
      key = "pinned_use_cuda_host_register" ∨ key = "pinned_use_hip_host_register"
  · rw [if_pos h8] at h
    obtain ⟨a, b, c⟩ := parsePinnedUseDeviceHostRegister_ok _ _ _ _ _ (congrArg Prod.fst h)
    refine ⟨hkey, ?_, a, Or.inl ⟨b, c⟩⟩
    rcases h8 with h8 | h8 | h8 <;> simp [recognizedKeys, h8]
  rw [if_neg h8] at h
  by_cases h9 : key = "pinned_num_register_threads"
  · rw [if_pos h9] at h
    obtain ⟨a, b, c⟩ := parsePinnedNumRegisterThreads_ok _ _ _ _ _ (congrArg Prod.fst h)
    exact ⟨hkey, by simp [recognizedKeys, h9], a, Or.inl ⟨b, c⟩⟩
  rw [if_neg h9] at h
  by_cases h10 : key = "pinned_use_background_threads"
  · rw [if_pos h10] at h
    obtain ⟨a, b, c⟩ := parsePinnedUseBackgroundThreads_ok _ _ _ _ _ (congrArg Prod.fst h)
    exact ⟨hkey, by simp [recognizedKeys, h10], a, Or.inl ⟨b, c⟩⟩
  rw [if_neg h10] at h
  cases h

theorem parseLoop_shape (ext : Ext) (config : List String) (fuel : Nat) :
    ∀ (i : Nat) (u : Bool) (w : Nat) (s : Settings),
      (parseLoop ext config fuel i u w s).error = none → OptionsFrom config i := by
  induction fuel with
  | zero => intro i u w s h; cases h
  | succ fuel ih =>
    intro i u w s h
    simp only [parseLoop] at h
    split at h
    · rename_i hnone
      refine .done i ?_
      by_contra hcon
      rw [List.getElem?_eq_getElem (by omega)] at hnone
      cases hnone
    · rename_i key hkey
      split at h
      · cases h
      · rename_i j s1 u1 heq
        have hopt := dispatch_ok ext config i j key u u1 s s1 hkey heq
        split at h
        · split at h
          · cases h
          · rename_i a hc
            exact .next i j key hopt (consumeToken_token _ _ _ _ hc) (ih _ _ _ _ h)
        · rename_i hlen
          exact .last i j key hopt (by omega)

/-- C12 (amended). When `parseArgs` accepts a string, its token sequence is empty or a
sequence of accepted options: the first token is a recognized key (not a `,`), each
option is key, `:`, value, and each option is followed by the end of the sequence or by
exactly one `,`, after which the next option starts or the sequence ends. -/
theorem parseArgs_accepted_shape (ext : Ext) (s : Settings) (env : String)
    (h : (parseArgs ext s (some env)).ok) :
    OptionsFrom (lexArgs env []) 0 ∧
      ∀ t, (lexArgs env [])[0]? = some t → t ∈ recognizedKeys ∧ t ≠ "," := by
  have hs : OptionsFrom (lexArgs env []) 0 := parseLoop_shape ext _ _ _ _ _ _ h
  refine ⟨hs, ?_⟩
  intro t ht
  have hk : t ∈ recognizedKeys := by
    rcases hs with ⟨_, hlen⟩ | ⟨_, j, key, hopt, hlen⟩ | ⟨_, j, key, hopt, hcomma, hrest⟩
    · have := index_lt _ _ _ ht
      omega
    · have hkt := hopt.1.symm.trans ht
      cases hkt
      exact hopt.2.1
    · have hkt := hopt.1.symm.trans ht
      cases hkt
      exact hopt.2.1
  refine ⟨hk, ?_⟩
  rintro rfl
  revert hk
  decide

theorem parseArgs_accepted_shape_witness :
    OptionsFrom (lexArgs "backend:native,expandable_segments:True," []) 0 :=
  (parseArgs_accepted_shape refExt defaultSettings "backend:native,expandable_segments:True,"
    (by decide)).1

/-- C12 (as stated) fails: `backend:native,` is accepted although its token sequence
ends with a `,`. -/
theorem trailing_comma_accepted :
    (parseArgs refExt defaultSettings (some "backend:native,")).ok ∧
      (lexArgs "backend:native," []).getLast? = some "," := by
  decide


/-! ## Deprecated aliases -/

theorem parseMaxSplitSize_record (ext : Ext) (config : List String) (i : Nat) (s : Settings)
    (x : String) :
    parseMaxSplitSize ext config i (recordSettings s x) =
      (parseMaxSplitSize ext config i s).record x := by
  simp only [parseMaxSplitSize, recordSettings]
  repeat' split
  all_goals rfl


theorem parseMaxNonSplitRoundingSize_record (ext : Ext) (config : List String) (i : Nat)
    (s : Settings) (x : String) :
    parseMaxNonSplitRoundingSize ext config i (recordSettings s x) =
      (parseMaxNonSplitRoundingSize ext config i s).record x := by
  simp only [parseMaxNonSplitRoundingSize, recordSettings]
  repeat' split
  all_goals rfl

theorem parseGarbageCollectionThreshold_record (ext : Ext) (config : List String) (i : Nat)
    (s : Settings) (x : String) :
    parseGarbageCollectionThreshold ext config i (recordSettings s x) =
      (parseGarbageCollectionThreshold ext config i s).record x := by
  simp only [parseGarbageCollectionThreshold, recordSettings]
  repeat' split
  all_goals rfl

theorem recordSettings_table (s : Settings) (x : String) :
    (recordSettings s x).roundup_power2_divisions = s.roundup_power2_divisions := rfl

theorem recordSettings_set_table (s : Settings) (x : String) (t : List Nat) :
    { recordSettings s x with roundup_power2_divisions := t } =
      recordSettings { s with roundup_power2_divisions := t } x := rfl

theorem roundupListLoop_record (config : List String) (x : String) (fuel : Nat) :
    ∀ (i : Nat) (fv : Bool) (li : Nat) (s : Settings),
      roundupListLoop config fuel i fv li (recordSettings s x) =
        (roundupListLoop config fuel i fv li s).record x := by
  induction fuel with
  | zero => intro i fv li s; rfl
  | succ fuel ih =>
    intro i fv li s
    simp only [roundupListLoop, recordSettings_table, recordSettings_set_table]
    repeat' split
    all_goals first
      | rfl
      | exact ih _ _ _ _

theorem parseRoundUpPower2Divisions_record (config : List String) (i : Nat) (s : Settings)
    (x : String) :
    parseRoundUpPower2Divisions config i (recordSettings s x) =
      (parseRoundUpPower2Divisions config i s).record x := by
  simp only [parseRoundUpPower2Divisions]
  repeat' split
  all_goals first
    | rfl
    | exact roundupListLoop_record _ _ _ _ _ _ _

theorem parseDeviceAllocatorBackend_record (config : List String) (i : Nat) (s : Settings)
    (x : String) :
    parseDeviceAllocatorBackend config i (recordSettings s x) =
      (parseDeviceAllocatorBackend config i s).record x := by
  simp only [parseDeviceAllocatorBackend, recordSettings]
  repeat' split
  all_goals rfl

theorem parseExpandableSegments_record (config : List String) (i : Nat) (s : Settings)
    (x : String) :
    parseExpandableSegments config i (recordSettings s x) =
      (parseExpandableSegments config i s).record x := by
  simp only [parseExpandableSegments, recordSettings]
  repeat' split
  all_goals rfl

theorem parseReleaseLockOnDeviceMalloc_record (config : List String) (i : Nat) (s : Settings)
    (x : String) :
    parseReleaseLockOnDeviceMalloc config i (recordSettings s x) =
      (parseReleaseLockOnDeviceMalloc config i s).record x := by
  simp only [parseReleaseLockOnDeviceMalloc, recordSettings]
  repeat' split
  all_goals rfl

theorem parsePinnedUseDeviceHostRegister_record (config : List String) (i : Nat)
    (s : Settings) (x : String) :
    parsePinnedUseDeviceHostRegister config i (recordSettings s x) =
      (parsePinnedUseDeviceHostRegister config i s).record x := by
  simp only [parsePinnedUseDeviceHostRegister, recordSettings]
  repeat' split
  all_goals rfl

theorem parsePinnedNumRegisterThreads_record (config : List String) (i : Nat) (s : Settings)
    (x : String) :
    parsePinnedNumRegisterThreads config i (recordSettings s x) =
      (parsePinnedNumRegisterThreads config i s).record x := by
  simp only [parsePinnedNumRegisterThreads, recordSettings]
  repeat' split
  all_goals rfl

theorem parsePinnedUseBackgroundThreads_record (config : List String) (i : Nat)
    (s : Settings) (x : String) :
    parsePinnedUseBackgroundThreads config i (recordSettings s x) =
      (parsePinnedUseBackgroundThreads config i s).record x := by
  simp only [parsePinnedUseBackgroundThreads, recordSettings]
  repeat' split
  all_goals rfl


theorem dispatch_record (ext : Ext) (config : List String) (i : Nat) (key : String) (u : Bool)
    (s : Settings) (x : String) :
    dispatch ext config i key u (recordSettings s x) =
      ((dispatch ext config i key u s).1.record x, (dispatch ext config i key u s).2) := by
  unfold dispatch
  by_cases h1 : key = "max_split_size_mb"
  · simp only [if_pos h1, parseMaxSplitSize_record]
  simp only [if_neg h1]
  by_cases h2 : key = "max_non_split_rounding_mb"
  · simp only [if_pos h2, parseMaxNonSplitRoundingSize_record]
  simp only [if_neg h2]
  by_cases h3 : key = "garbage_collection_threshold"
  · simp only [if_pos h3, parseGarbageCollectionThreshold_record]
  simp only [if_neg h3]
  by_cases h4 : key = "roundup_power2_divisions"
  · simp only [if_pos h4, parseRoundUpPower2Divisions_record]
  simp only [if_neg h4]
  by_cases h5 : key = "backend"
  · simp only [if_pos h5, parseDeviceAllocatorBackend_record]
  simp only [if_neg h5]
  by_cases h6 : key = "expandable_segments"
  · simp only [if_pos h6, parseExpandableSegments_record]
  simp only [if_neg h6]
  by_cases h7 : key = "release_lock_on_device_malloc" ∨ key = "release_lock_on_cudamalloc" ∨
      key = "release_lock_on_hipmalloc"
  · simp only [if_pos h7, parseReleaseLockOnDeviceMalloc_record]
  simp only [if_neg h7]
  by_cases h8 : key = "pinned_use_device_host_register" ∨
      key = "pinned_use_cuda_host_register" ∨ key = "pinned_use_hip_host_register"
  · simp only [if_pos h8, parsePinnedUseDeviceHostRegister_record]
  simp only [if_neg h8]
  by_cases h9 : key = "pinned_num_register_threads"
  · simp only [if_pos h9, parsePinnedNumRegisterThreads_record]
  simp only [if_neg h9]
  by_cases h10 : key = "pinned_use_background_threads"
  · simp only [if_pos h10, parsePinnedUseBackgroundThreads_record]
  simp only [if_neg h10]
  rfl

theorem recordSettings_async (s : Settings) (x : String) :
    (recordSettings s x).use_async_allocator = s.use_async_allocator := rfl

theorem parseLoop_record (ext : Ext) (config : List String) (x : String) (fuel : Nat) :
    ∀ (i : Nat) (u : Bool) (w : Nat) (s : Settings),
      parseLoop ext config fuel i u w (recordSettings s x) =
        (parseLoop ext config fuel i u w s).record x := by
  induction fuel with
  | zero => intro i u w s; rfl
  | succ fuel ih =>
    intro i u w s
    simp only [parseLoop]
    split
    · rfl
    · rename_i key hkey
      rw [dispatch_record]
      rcases hd : dispatch ext config i key u s with ⟨st, u1⟩
      cases st with
      | fail e s1 => rfl
      | ok j s1 =>
        simp only [Step.record, recordSettings_async]
        repeat' split
        all_goals first
          | rfl
          | exact ih _ _ _ _


theorem canon_eq_iff (t c : String)
    (hc : c ∉ ["release_lock_on_cudamalloc", "release_lock_on_hipmalloc",
      "release_lock_on_device_malloc", "pinned_use_cuda_host_register",
      "pinned_use_hip_host_register", "pinned_use_device_host_register", "cudaMallocAsync",
      "hipMallocAsync", "async"]) : canon t = c ↔ t = c := by
  simp only [List.mem_cons, List.mem_singleton, List.not_mem_nil, or_false, not_or] at hc
  unfold canon
  split_ifs with h1 h2 h3
  · constructor
    · intro h; exact absurd h.symm hc.2.2.1
    · intro h; subst h; rcases h1 with h1 | h1
      · exact absurd h1 hc.1
      · exact absurd h1 hc.2.1
  · constructor
    · intro h; exact absurd h.symm hc.2.2.2.2.2.1
    · intro h; subst h; rcases h2 with h2 | h2
      · exact absurd h2 hc.2.2.2.1
      · exact absurd h2 hc.2.2.2.2.1
  · constructor
    · intro h; exact absurd h.symm hc.2.2.2.2.2.2.2.2
    · intro h; subst h; rcases h3 with h3 | h3
      · exact absurd h3 hc.2.2.2.2.2.2.1
      · exact absurd h3 hc.2.2.2.2.2.2.2.1
  · exact Iff.rfl

theorem alias_names_no_numeral (t : String)
    (h : t ∈ ["release_lock_on_cudamalloc", "release_lock_on_hipmalloc",
      "release_lock_on_device_malloc", "pinned_use_cuda_host_register",
      "pinned_use_hip_host_register", "pinned_use_device_host_register", "cudaMallocAsync",
      "hipMallocAsync", "async"]) : startsWithNumeral t = false := by
  simp only [List.mem_cons, List.mem_singleton, List.not_mem_nil, or_false] at h
  rcases h with h | h | h | h | h | h | h | h | h <;> subst h <;> rfl

theorem canon_no_numeral (t : String) (h : canon t ≠ t) :
    startsWithNumeral (canon t) = false ∧ startsWithNumeral t = false := by
  unfold canon at h ⊢
  split_ifs at h ⊢ with h1 h2 h3
  · exact ⟨rfl, alias_names_no_numeral t (by rcases h1 with h1 | h1 <;> simp [h1])⟩
  · exact ⟨rfl, alias_names_no_numeral t (by rcases h2 with h2 | h2 <;> simp [h2])⟩
  · exact ⟨rfl, alias_names_no_numeral t (by rcases h3 with h3 | h3 <;> simp [h3])⟩
  · exact absurd rfl h

theorem canon_stoi (t : String) : stoi (canon t) = stoi t := by
  by_cases h : canon t = t
  · rw [h]
  · rw [(stoi_no_numeral _ (canon_no_numeral t h).1).1,
      (stoi_no_numeral _ (canon_no_numeral t h).2).1]

theorem canon_stoul (t : String) : stoul (canon t) = stoul t := by
  by_cases h : canon t = t
  · rw [h]
  · rw [(stoi_no_numeral _ (canon_no_numeral t h).1).2,
      (stoi_no_numeral _ (canon_no_numeral t h).2).2]

theorem canon_close (t : String) : canon t = "]" ↔ t = "]" := canon_eq_iff t _ (by decide)

theorem canon_open (t : String) : canon t = "[" ↔ t = "[" := canon_eq_iff t _ (by decide)

theorem canon_gt (t : String) : canon t = ">" ↔ t = ">" := canon_eq_iff t _ (by decide)

theorem canon_colon (t : String) : canon t = String.singleton ':' ↔ t = String.singleton ':' :=
  canon_eq_iff t _ (by decide)

theorem canon_comma (t : String) : canon t = String.singleton ',' ↔ t = String.singleton ',' :=
  canon_eq_iff t _ (by decide)

theorem canon_native (t : String) : canon t = "native" ↔ t = "native" :=
  canon_eq_iff t _ (by decide)

theorem canon_roundupElement (t : String) (v : Nat) (st : ListState) :
    roundupElement (canon t) v st = roundupElement t v st := by
  simp only [roundupElement, canon_gt, canon_stoul]

theorem canon_consumeToken (config : List String) (i : Nat) (c : Char)
    (hc : c = ':' ∨ c = ',') :
    consumeToken (config.map canon) i c = consumeToken config i c := by
  simp only [consumeToken, List.getElem?_map]
  rcases config[i]? with _ | t
  · rfl
  · rcases hc with hc | hc <;> subst hc
    · simp only [Option.map, canon_colon]
    · simp only [Option.map, canon_comma]


theorem roundupListLoop_canon (config : List String) (fuel : Nat) :
    ∀ (i : Nat) (fv : Bool) (li : Nat) (s : Settings),
      roundupListLoop (config.map canon) fuel i fv li s = roundupListLoop config fuel i fv li s := by
  induction fuel with
  | zero => intro i fv li s; rfl
  | succ fuel ih =>
    intro i fv li s
    simp only [roundupListLoop, canon_consumeToken _ _ _ (Or.inl rfl),
      canon_consumeToken _ _ _ (Or.inr rfl), List.getElem?_map]
    rcases config[i + 1]? with _ | val1
    · rfl
    · simp only [Option.map, canon_close, canon_roundupElement]
      rcases config[i + 1 + 1 + 1]? with _ | tok
      · rfl
      · simp only [canon_stoi]
        rcases config[i + 1 + 1 + 1 + 1]? with _ | next
        · rfl
        · simp only [ne_eq, canon_close, ih]

theorem parseRoundUpPower2Divisions_canon (config : List String) (i : Nat) (s : Settings) :
    parseRoundUpPower2Divisions (config.map canon) i s =
      parseRoundUpPower2Divisions config i s := by
  simp only [parseRoundUpPower2Divisions, canon_consumeToken _ _ _ (Or.inl rfl),
    List.getElem?_map, List.length_map, roundupListLoop_canon]
  rcases config[i + 1 + 1]? with _ | tok
  · rfl
  · simp only [Option.map, canon_open, canon_stoi]

theorem canon_backend (t : String) :
    (canon t = "native" ∨ canon t = "async" ∨ canon t = "cudaMallocAsync" ∨
        canon t = "hipMallocAsync") ↔
      (t = "native" ∨ t = "async" ∨ t = "cudaMallocAsync" ∨ t = "hipMallocAsync") := by
  rw [canon_native]
  unfold canon
  split_ifs with h1 h2 h3
  · rcases h1 with h1 | h1 <;> subst h1 <;> decide
  · rcases h2 with h2 | h2 <;> subst h2 <;> decide
  · rcases h3 with h3 | h3 <;> subst h3 <;> decide
  · exact Iff.rfl

theorem canon_ne_native (t : String) : (canon t != "native") = (t != "native") := by
  by_cases h : t = "native"
  · subst h; rfl
  · have h1 : ¬ canon t = "native" := fun hc => h ((canon_native t).mp hc)
    simp [bne, h, h1]

theorem parseDeviceAllocatorBackend_canon (config : List String) (i : Nat) (s : Settings) :
    parseDeviceAllocatorBackend (config.map canon) i s =
      parseDeviceAllocatorBackend config i s := by
  simp only [parseDeviceAllocatorBackend, canon_consumeToken _ _ _ (Or.inl rfl),
    List.getElem?_map]
  rcases config[i + 1 + 1]? with _ | tok
  · rfl
  · simp only [Option.map, canon_backend, canon_ne_native]


theorem parseMaxSplitSize_congr (ext : Ext) (config config1 : List String) (i : Nat) (s : Settings)
    (h1 : config1[i + 1]? = config[i + 1]?)
    (h2 : config[i + 1]? = some ":" → config1[i + 1 + 1]? = config[i + 1 + 1]?) :
    parseMaxSplitSize ext config1 i s = parseMaxSplitSize ext config i s := by
  simp only [parseMaxSplitSize, consumeToken, h1]
  rcases hx : config[i + 1]? with _ | t
  · rfl
  · by_cases ht : t = String.singleton ':'
    · have h3 := h2 (by rw [hx, ht]; rfl)
      simp only [h3]
    · simp only [if_neg ht]

theorem parseMaxNonSplitRoundingSize_congr (ext : Ext) (config config1 : List String) (i : Nat) (s : Settings)
    (h1 : config1[i + 1]? = config[i + 1]?)
    (h2 : config[i + 1]? = some ":" → config1[i + 1 + 1]? = config[i + 1 + 1]?) :
    parseMaxNonSplitRoundingSize ext config1 i s = parseMaxNonSplitRoundingSize ext config i s := by
  simp only [parseMaxNonSplitRoundingSize, consumeToken, h1]
  rcases hx : config[i + 1]? with _ | t
  · rfl
  · by_cases ht : t = String.singleton ':'
    · have h3 := h2 (by rw [hx, ht]; rfl)
      simp only [h3]
    · simp only [if_neg ht]

theorem parseGarbageCollectionThreshold_congr (ext : Ext) (config config1 : List String) (i : Nat) (s : Settings)
    (h1 : config1[i + 1]? = config[i + 1]?)
    (h2 : config[i + 1]? = some ":" → config1[i + 1 + 1]? = config[i + 1 + 1]?) :
    parseGarbageCollectionThreshold ext config1 i s = parseGarbageCollectionThreshold ext config i s := by
  simp only [parseGarbageCollectionThreshold, consumeToken, h1]
  rcases hx : config[i + 1]? with _ | t
  · rfl
  · by_cases ht : t = String.singleton ':'
    · have h3 := h2 (by rw [hx, ht]; rfl)
      simp only [h3]
    · simp only [if_neg ht]

theorem parseExpandableSegments_congr (config config1 : List String) (i : Nat) (s : Settings)
    (h1 : config1[i + 1]? = config[i + 1]?)
    (h2 : config[i + 1]? = some ":" → config1[i + 1 + 1]? = config[i + 1 + 1]?) :
    parseExpandableSegments config1 i s = parseExpandableSegments config i s := by
  simp only [parseExpandableSegments, consumeToken, h1]
  rcases hx : config[i + 1]? with _ | t
  · rfl
  · by_cases ht : t = String.singleton ':'
    · have h3 := h2 (by rw [hx, ht]; rfl)
      simp only [h3]
    · simp only [if_neg ht]

theorem parseReleaseLockOnDeviceMalloc_congr (config config1 : List String) (i : Nat) (s : Settings)
    (h1 : config1[i + 1]? = config[i + 1]?)
    (h2 : config[i + 1]? = some ":" → config1[i + 1 + 1]? = config[i + 1 + 1]?) :
    parseReleaseLockOnDeviceMalloc config1 i s = parseReleaseLockOnDeviceMalloc config i s := by
  simp only [parseReleaseLockOnDeviceMalloc, consumeToken, h1]
  rcases hx : config[i + 1]? with _ | t
  · rfl
  · by_cases ht : t = String.singleton ':'
    · have h3 := h2 (by rw [hx, ht]; rfl)
      simp only [h3]
    · simp only [if_neg ht]

theorem parsePinnedUseDeviceHostRegister_congr (config config1 : List String) (i : Nat) (s : Settings)
    (h1 : config1[i + 1]? = config[i + 1]?)
    (h2 : config[i + 1]? = some ":" → config1[i + 1 + 1]? = config[i + 1 + 1]?) :
    parsePinnedUseDeviceHostRegister config1 i s = parsePinnedUseDeviceHostRegister config i s := by
  simp only [parsePinnedUseDeviceHostRegister, consumeToken, h1]
  rcases hx : config[i + 1]? with _ | t
  · rfl
  · by_cases ht : t = String.singleton ':'
    · have h3 := h2 (by rw [hx, ht]; rfl)
      simp only [h3]
    · simp only [if_neg ht]

theorem parsePinnedNumRegisterThreads_congr (config config1 : List String) (i : Nat) (s : Settings)
    (h1 : config1[i + 1]? = config[i + 1]?)
    (h2 : config[i + 1]? = some ":" → config1[i + 1 + 1]? = config[i + 1 + 1]?) :
    parsePinnedNumRegisterThreads config1 i s = parsePinnedNumRegisterThreads config i s := by
  simp only [parsePinnedNumRegisterThreads, consumeToken, h1]
  rcases hx : config[i + 1]? with _ | t
  · rfl
  · by_cases ht : t = String.singleton ':'
    · have h3 := h2 (by rw [hx, ht]; rfl)
      simp only [h3]
    · simp only [if_neg ht]

theorem parsePinnedUseBackgroundThreads_congr (config config1 : List String) (i : Nat) (s : Settings)
    (h1 : config1[i + 1]? = config[i + 1]?)
    (h2 : config[i + 1]? = some ":" → config1[i + 1 + 1]? = config[i + 1 + 1]?) :
    parsePinnedUseBackgroundThreads config1 i s = parsePinnedUseBackgroundThreads config i s := by
  simp only [parsePinnedUseBackgroundThreads, consumeToken, h1]
  rcases hx : config[i + 1]? with _ | t
  · rfl
  · by_cases ht : t = String.singleton ':'
    · have h3 := h2 (by rw [hx, ht]; rfl)
      simp only [h3]
    · simp only [if_neg ht]


theorem replaced_none (cfg cfg1 : List String) (h : AliasReplaced cfg cfg1) (i : Nat)
    (hi : cfg.length ≤ i) : cfg[i]? = none ∧ cfg1[i]? = none :=
  ⟨List.getElem?_eq_none hi, List.getElem?_eq_none (h.1 ▸ hi)⟩

theorem replaced_canon (cfg cfg1 : List String) (h : AliasReplaced cfg cfg1) :
    cfg1.map canon = cfg.map canon := by
  apply List.ext_getElem?
  intro i
  rw [List.getElem?_map, List.getElem?_map]
  by_cases hi : i < cfg.length
  · rcases h.2 i hi with e | ⟨e, _⟩ | ⟨e, _⟩
    · rw [e]
    · rcases e with ⟨e1 | e1, e2⟩ | ⟨e1 | e1, e2⟩ <;> rw [e1, e2] <;> rfl
    · rcases e with ⟨e1 | e1, e2⟩ <;> rw [e1, e2] <;> rfl
  · obtain ⟨a, b⟩ := replaced_none cfg cfg1 h i (by omega)
    rw [a, b]

theorem replaced_after_key (cfg cfg1 : List String) (h : AliasReplaced cfg cfg1) (i : Nat)
    (h1 : cfg[i]? ≠ some ",") (h2 : cfg[i]? ≠ some ":") : cfg1[i + 1]? = cfg[i + 1]? := by
  by_cases hi : i + 1 < cfg.length
  · rcases h.2 (i + 1) hi with e | ⟨_, e | e⟩ | ⟨_, _, _, e⟩
    · exact e.symm
    · omega
    · exact absurd e h1
    · exact absurd e h2
  · obtain ⟨a, b⟩ := replaced_none cfg cfg1 h (i + 1) (by omega)
    rw [a, b]

theorem replaced_value (cfg cfg1 : List String) (h : AliasReplaced cfg cfg1) (i : Nat)
    (h1 : cfg[i]? ≠ some "backend") (h2 : cfg[i + 1]? = some ":") :
    cfg1[i + 1 + 1]? = cfg[i + 1 + 1]? := by
  by_cases hi : i + 1 + 1 < cfg.length
  · rcases h.2 (i + 1 + 1) hi with e | ⟨_, e | e⟩ | ⟨_, _, e, _⟩
    · exact e.symm
    · omega
    · have e1 : cfg[i + 1]? = some "," := e
      rw [h2] at e1
      exact absurd e1 (by decide)
    · exact absurd e h1
  · obtain ⟨a, b⟩ := replaced_none cfg cfg1 h (i + 1 + 1) (by omega)
    rw [a, b]

theorem replaced_comma (cfg cfg1 : List String) (h : AliasReplaced cfg cfg1) (i : Nat) :
    consumeToken cfg1 i ',' = consumeToken cfg i ',' := by
  have e1 := canon_consumeToken cfg1 i ',' (Or.inr rfl)
  have e2 := canon_consumeToken cfg i ',' (Or.inr rfl)
  rw [replaced_canon cfg cfg1 h] at e1
  exact e1.symm.trans e2

theorem dispatch_key_alias (ext : Ext) (config : List String) (i : Nat) (key key1 : String)
    (u : Bool) (s : Settings) (h : keyAliasAt (some key) (some key1)) :
    dispatch ext config i key1 u s = dispatch ext config i key u s := by
  rcases h with ⟨e1 | e1, e2⟩ | ⟨e1 | e1, e2⟩ <;> cases e1 <;> cases e2 <;> rfl


theorem dispatch_replaced (ext : Ext) (cfg cfg1 : List String) (h : AliasReplaced cfg cfg1)
    (i : Nat) (key : String) (u : Bool) (s : Settings) (hk : cfg[i]? = some key) :
    dispatch ext cfg1 i key u s = dispatch ext cfg i key u s := by
  by_cases hsep : key = "," ∨ key = ":"
  · rcases hsep with e | e <;> subst e <;> rfl
  have hs1 : cfg[i]? ≠ some "," := by
    rw [hk]; intro e; cases e; exact hsep (Or.inl rfl)
  have hs2 : cfg[i]? ≠ some ":" := by
    rw [hk]; intro e; cases e; exact hsep (Or.inr rfl)
  have g1 := replaced_after_key cfg cfg1 h i hs1 hs2
  unfold dispatch
  by_cases h1 : key = "max_split_size_mb"
  · simp only [if_pos h1]
    rw [parseMaxSplitSize_congr ext cfg cfg1 i s g1 (replaced_value cfg cfg1 h i (by
      rw [hk]; intro e; cases e; revert h1; decide))]
  simp only [if_neg h1]
  by_cases h2 : key = "max_non_split_rounding_mb"
  · simp only [if_pos h2]
    rw [parseMaxNonSplitRoundingSize_congr ext cfg cfg1 i s g1 (replaced_value cfg cfg1 h i (by
      rw [hk]; intro e; cases e; revert h2; decide))]
  simp only [if_neg h2]
  by_cases h3 : key = "garbage_collection_threshold"
  · simp only [if_pos h3]
    rw [parseGarbageCollectionThreshold_congr ext cfg cfg1 i s g1 (replaced_value cfg cfg1 h i (by
      rw [hk]; intro e; cases e; revert h3; decide))]
  simp only [if_neg h3]
  by_cases h4 : key = "roundup_power2_divisions"
  · simp only [if_pos h4]
    rw [← parseRoundUpPower2Divisions_canon cfg1, ← parseRoundUpPower2Divisions_canon cfg,
      replaced_canon cfg cfg1 h]
  simp only [if_neg h4]
  by_cases h5 : key = "backend"
  · simp only [if_pos h5]
    rw [← parseDeviceAllocatorBackend_canon cfg1, ← parseDeviceAllocatorBackend_canon cfg,
      replaced_canon cfg cfg1 h]
  have hb : cfg[i]? ≠ some "backend" := by
    rw [hk]; intro e; cases e; exact h5 rfl
  have g2 := replaced_value cfg cfg1 h i hb
  simp only [if_neg h5]
  by_cases h6 : key = "expandable_segments"
  · simp only [if_pos h6]
    rw [parseExpandableSegments_congr cfg cfg1 i s g1 g2]
  simp only [if_neg h6]
  by_cases h7 : key = "release_lock_on_device_malloc" ∨ key = "release_lock_on_cudamalloc" ∨
      key = "release_lock_on_hipmalloc"
  · simp only [if_pos h7]
    rw [parseReleaseLockOnDeviceMalloc_congr cfg cfg1 i s g1 g2]
  simp only [if_neg h7]
  by_cases h8 : key = "pinned_use_device_host_register" ∨
      key = "pinned_use_cuda_host_register" ∨ key = "pinned_use_hip_host_register"
  · simp only [if_pos h8]
    rw [parsePinnedUseDeviceHostRegister_congr cfg cfg1 i s g1 g2]
  simp only [if_neg h8]
  by_cases h9 : key = "pinned_num_register_threads"
  · simp only [if_pos h9]
    rw [parsePinnedNumRegisterThreads_congr cfg cfg1 i s g1 g2]
  simp only [if_neg h9]
  by_cases h10 : key = "pinned_use_background_threads"
  · simp only [if_pos h10]
    rw [parsePinnedUseBackgroundThreads_congr cfg cfg1 i s g1 g2]
  simp only [if_neg h10]

theorem dispatch_alias (ext : Ext) (cfg cfg1 : List String) (h : AliasReplaced cfg cfg1)
    (i : Nat) (key key1 : String) (u : Bool) (s : Settings) (hk : cfg[i]? = some key)
    (hk1 : cfg1[i]? = some key1) (hinv : i = 0 ∨ cfg[i - 1]? = some ",") :
    dispatch ext cfg1 i key1 u s = dispatch ext cfg i key u s := by
  rw [← dispatch_replaced ext cfg cfg1 h i key u s hk]
  rcases h.2 i (index_lt _ _ _ hk) with e | ⟨e, _⟩ | ⟨_, e2, _, e⟩
  · rw [hk, hk1] at e
    cases e
    rfl
  · rw [hk, hk1] at e
    exact dispatch_key_alias ext cfg1 i key key1 u s e
  · rcases hinv with h0 | h0
    · omega
    · rw [h0] at e
      exact absurd e (by decide)

theorem parseLoop_alias (ext : Ext) (cfg cfg1 : List String) (h : AliasReplaced cfg cfg1)
    (fuel : Nat) :
    ∀ (i : Nat) (u : Bool) (w : Nat) (s : Settings),
      i = 0 ∨ cfg[i - 1]? = some "," ∨ cfg.length ≤ i →
        parseLoop ext cfg1 fuel i u w s = parseLoop ext cfg fuel i u w s := by
  induction fuel with
  | zero => intro i u w s _; rfl
  | succ fuel ih =>
    intro i u w s hinv
    by_cases hi : i < cfg.length
    · have hi1 : i < cfg1.length := h.1 ▸ hi
      have hinv1 : i = 0 ∨ cfg[i - 1]? = some "," := by
        rcases hinv with a | a | a
        · exact Or.inl a
        · exact Or.inr a
        · omega
      have hk : cfg[i]? = some cfg[i] := List.getElem?_eq_getElem hi
      have hk1 : cfg1[i]? = some cfg1[i] := List.getElem?_eq_getElem hi1
      simp only [parseLoop, hk, hk1, ← h.1, replaced_comma cfg cfg1 h,
        dispatch_alias ext cfg cfg1 h i cfg[i] cfg1[i] u s hk hk1 hinv1]
      rcases dispatch ext cfg i cfg[i] u s with ⟨st, u1⟩
      cases st with
      | fail e s1 => rfl
      | ok j s1 =>
        simp only []
        split
        · rcases hc : consumeToken cfg (j + 1) ',' with e | a
          · rfl
          · exact ih _ _ _ _ (Or.inr (Or.inl (consumeToken_token _ _ _ _ hc)))
        · exact ih _ _ _ _ (Or.inr (Or.inr (by omega)))
    · obtain ⟨a, b⟩ := replaced_none cfg cfg1 h i (by omega)
      simp only [parseLoop, a, b]

/-- C13. Deprecated aliases are equivalent to their canonical spelling: when the token
sequence of `env1` is that of `env` with deprecated key aliases (at the start or after a
`,`) or deprecated backend names (after `backend` `:`) replaced by the canonical
spelling, `parseArgs` ends the same way on both strings: the same success or the same
error, the same warnings, and the same value in every settings field that options
write (the recorded raw string apart, which is the input itself). -/
theorem parseArgs_alias (ext : Ext) (s : Settings) (env env1 : String)
    (h : AliasReplaced (lexArgs env []) (lexArgs env1 [])) :
    (parseArgs ext s (some env1)).error = (parseArgs ext s (some env)).error ∧
      (parseArgs ext s (some env1)).warnings = (parseArgs ext s (some env)).warnings ∧
      (∀ f : Field, Settings.same f (parseArgs ext s (some env1)).settings
        (parseArgs ext s (some env)).settings) ∧
      (parseArgs ext s (some env1)).settings.is_allocator_loaded =
        (parseArgs ext s (some env)).settings.is_allocator_loaded := by
  have e1 : parseArgs ext s (some env1) =
      (parseLoop ext (lexArgs env [])
        ((lexArgs env []).length + 1) 0 false 0 (resetDefaults s)).record env1 := by
    simp only [parseArgs, parseLoop_record, ← h.1]
    rw [parseLoop_alias ext _ _ h _ 0 false 0 _ (Or.inl rfl)]
  have e2 : parseArgs ext s (some env) =
      (parseLoop ext (lexArgs env [])
        ((lexArgs env []).length + 1) 0 false 0 (resetDefaults s)).record env := by
    simp only [parseArgs, parseLoop_record]
  rw [e1, e2]
  refine ⟨rfl, rfl, ?_, rfl⟩
  intro f
  cases f <;> exact rfl

theorem parseArgs_alias_witness :
    AliasReplaced (lexArgs "release_lock_on_cudamalloc:True,backend:cudaMallocAsync" [])
        (lexArgs "release_lock_on_device_malloc:True,backend:async" []) ∧
      (parseArgs refExt defaultSettings
          (some "release_lock_on_device_malloc:True,backend:async")).error =
        (parseArgs refExt defaultSettings
          (some "release_lock_on_cudamalloc:True,backend:cudaMallocAsync")).error :=
  ⟨by decide, (parseArgs_alias refExt defaultSettings
    "release_lock_on_cudamalloc:True,backend:cudaMallocAsync"
    "release_lock_on_device_malloc:True,backend:async" (by decide)).1⟩

end AllocatorConfig
